import Mathlib

/-!
# Mortgage calculator: the calculation engine and the program validation

A shallow embedding of `internal/service/calculator.go`, `internal/model/model.go`,
`validateProgramRequest` of `internal/handler/mort_handler.go` and
`internal/cache/mort_cache.go`.

The calculator computes on `decimal.Decimal` values of the shopspring decimal
package and on `time.Time` values of the Go standard library.  Both are modelled
here operation by operation, as far as the calculator uses them:

* a `Decimal` is a pair `value * 10 ^ exp` of an arbitrary-precision integer and an
  exponent; `Mul`, `Add`, `Sub` and `Pow` are exact, `Div` rounds the quotient half
  away from zero to `DivisionPrecision = 16` fractional digits, `Round` rounds half
  away from zero;  the package keeps the exponent in an `int32`: `Pow` returns zero
  when the exponent of the power leaves that range, and so it does here; in the other
  operations the exponent is an unbounded integer here, so that the embedding follows
  the package as long as the exponents stay in that range;
* a run of the program that stops in a Go panic (a division by a zero decimal) is the
  result `none`;
* a `Time` is a time in a location with a fixed offset from UTC: its civil reading
  (year, month, day, clock) in that location and the offset; locations whose offset
  changes over the year are left out.  The reading of the wall clock that `time.Now()`
  returns is an explicit argument;
* the cache is modelled call by call, one call at a time: its map is the list of its
  entries and its `int32` counter wraps around;
* concurrent `Save` calls are modelled as interleavings of the two steps of each call,
  the atomic addition on the counter and the assignment to the map under the lock.
-/

namespace MortgageCalc

/-! ## Decimals -/

/-- A decimal number `value * 10 ^ exp`. -/
structure Decimal where
  value : Int
  exp : Int
deriving DecidableEq, Repr

namespace Decimal

/-- The division precision of the decimal package: the number of fractional digits that
`Div` keeps. -/
def DivisionPrecision : Nat := 16

/-- The constructor `decimal.New(value, exp)`. -/
def New (value : Int) (exp : Int) : Decimal := ⟨value, exp⟩

/-- The constructor `decimal.NewFromInt(n)`. -/
def NewFromInt (n : Int) : Decimal := ⟨n, 0⟩

/-- The rational number a decimal stands for. -/
def toRat (d : Decimal) : ℚ := (d.value : ℚ) * (10 : ℚ) ^ d.exp

/-- The comparison of two big integers, `-1`, `0` or `1`. -/
def cmpInt (a b : Int) : Int :=
  if a < b then -1 else if a > b then 1 else 0

/-- The method `rescale`: the same number with exponent `exp`; digits below the new
exponent are cut off (the quotient is truncated towards zero). -/
def rescale (d : Decimal) (exp : Int) : Decimal :=
  if d.exp = exp then d
  else
    let diff : Nat := (exp - d.exp).natAbs
    let expScale : Int := ((10 ^ diff : Nat) : Int)
    if exp > d.exp then ⟨d.value.tdiv expScale, exp⟩
    else ⟨d.value * expScale, exp⟩

/-- The function `RescalePair`: both numbers at the smaller of the two exponents. -/
def RescalePair (d1 d2 : Decimal) : Decimal × Decimal :=
  if d1.exp < d2.exp then (d1, d2.rescale d1.exp)
  else if d1.exp > d2.exp then (d1.rescale d2.exp, d2)
  else (d1, d2)

/-- The method `Add`. -/
def Add (d d2 : Decimal) : Decimal :=
  let p := RescalePair d d2
  ⟨p.1.value + p.2.value, p.1.exp⟩

/-- The method `Sub`. -/
def Sub (d d2 : Decimal) : Decimal :=
  let p := RescalePair d d2
  ⟨p.1.value - p.2.value, p.1.exp⟩

/-- The method `Mul`. -/
def Mul (d d2 : Decimal) : Decimal :=
  ⟨d.value * d2.value, d.exp + d2.exp⟩

/-- The method `Abs`. -/
def Abs (d : Decimal) : Decimal := ⟨(d.value.natAbs : Int), d.exp⟩

/-- The method `Cmp`: `-1`, `0` or `1`. -/
def Cmp (d d2 : Decimal) : Int :=
  if d.exp = d2.exp then cmpInt d.value d2.value
  else
    let p := RescalePair d d2
    cmpInt p.1.value p.2.value

/-- The method `LessThan`. -/
def LessThan (d d2 : Decimal) : Bool := d.Cmp d2 == -1

/-- The method `LessThanOrEqual`. -/
def LessThanOrEqual (d d2 : Decimal) : Bool :=
  let cmp := d.Cmp d2
  cmp == -1 || cmp == 0

/-- The method `QuoRem`: the quotient truncated to `precision` fractional digits and the
remainder; a zero divisor stops the program. -/
def QuoRem (d d2 : Decimal) (precision : Int) : Option (Decimal × Decimal) :=
  if d2.value = 0 then none
  else
    let scale : Int := -precision
    let e : Int := d.exp - d2.exp - scale
    let aa : Int := if e < 0 then d.value else d.value * ((10 ^ e.natAbs : Nat) : Int)
    let bb : Int := if e < 0 then d2.value * ((10 ^ e.natAbs : Nat) : Int) else d2.value
    let scalerest : Int := if e < 0 then d.exp else scale + d2.exp
    some (⟨aa.tdiv bb, scale⟩, ⟨aa.tmod bb, scalerest⟩)

/-- The method `DivRound`: the quotient rounded half away from zero to `precision`
fractional digits. -/
def DivRound (d d2 : Decimal) (precision : Int) : Option Decimal :=
  match d.QuoRem d2 precision with
  | none => none
  | some (q, r) =>
    let r2 : Decimal := ⟨(r.value.natAbs : Int) * 2, r.exp + precision⟩
    let c := r2.Cmp d2.Abs
    if c < 0 then some q
    else if d.value.sign * d2.value.sign < 0 then some (q.Sub (New 1 (-precision)))
    else some (q.Add (New 1 (-precision)))

/-- The method `Div`: `DivRound` at the division precision. -/
def Div (d d2 : Decimal) : Option Decimal :=
  d.DivRound d2 (DivisionPrecision : Int)

/-- The method `Round`: the number rounded half away from zero to `places` fractional
digits. -/
def Round (d : Decimal) (places : Int) : Decimal :=
  if d.exp = -places then d
  else
    let ret := d.rescale (-places - 1)
    let v : Int := if ret.value.sign < 0 then ret.value - 5 else ret.value + 5
    let q : Int := v / 10
    let m : Int := v % 10
    if q.sign < 0 ∧ m ≠ 0 then ⟨q + 1, ret.exp + 1⟩ else ⟨q, ret.exp + 1⟩

/-- The square-and-multiply loop of the integer power: `result * n ^ e`. -/
def powLoop : Nat → Nat → Decimal → Decimal → Decimal
  | 0, _, _, result => result
  | fuel + 1, e, n, result =>
    if e = 0 then result
    else
      let result1 := if e % 2 = 1 then result.Mul n else result
      let e1 := e / 2
      let n1 := if 0 < e1 then n.Mul n else n
      powLoop fuel e1 n1 result1

/-- The least exponent of a decimal of the package, an `int32`. -/
def MinExp : Int := -2147483648

/-- The greatest exponent of a decimal of the package. -/
def MaxExp : Int := 2147483647

/-- The method `Pow` at a positive base and a whole exponent `d2` that is not negative,
the only use the calculator makes of it: the exact power, by the loop of `PowBigInt`,
as long as the exponent of the power, `d.exp * d2`, fits the `int32` exponent of the
package; when it does not, the power cannot be represented and `Pow` returns the zero
decimal. -/
def Pow (d d2 : Decimal) : Decimal :=
  if d.exp * d2.value < MinExp ∨ MaxExp < d.exp * d2.value then ⟨0, 0⟩
  else powLoop d2.value.toNat d2.value.toNat d (New 1 0)

end Decimal

/-! ## Times -/

/-- A time in a location with a fixed offset from UTC, such as UTC itself: the civil date
and clock that the time reads in its location, and `offset`, the seconds that the
location is east of UTC.  Times in a location whose offset changes (daylight saving)
are not covered. -/
structure Time where
  year : Int
  month : Nat
  day : Nat
  hour : Nat
  min : Nat
  sec : Nat
  nsec : Nat
  offset : Int
deriving DecidableEq, Repr

namespace Time

/-- The function `isLeap` of the time package. -/
def isLeap (year : Int) : Bool :=
  year % 4 == 0 && (year % 100 != 0 || year % 400 == 0)

/-- The number of days of a month (1 to 12) of a year. -/
def daysIn (year : Int) (month : Nat) : Nat :=
  if month = 2 then (if isLeap year then 29 else 28)
  else if month = 4 ∨ month = 6 ∨ month = 9 ∨ month = 11 then 30
  else 31

/-- A civil date is a date of the calendar. -/
def validDate (t : Time) : Prop :=
  1 ≤ t.month ∧ t.month ≤ 12 ∧ 1 ≤ t.day ∧ t.day ≤ daysIn t.year t.month

instance (t : Time) : Decidable t.validDate := by
  unfold validDate; exact inferInstance

/-- The number of days of a year before the first day of a month (1 to 12). -/
def daysBeforeMonth (year : Int) (month : Nat) : Nat :=
  ((List.range (month - 1)).map (fun k => daysIn year (k + 1))).sum

/-- The number of days from January 1 of year 1 to a civil date. -/
def daysSinceYearOne (year : Int) (month day : Nat) : Int :=
  365 * (year - 1) + (year - 1) / 4 - (year - 1) / 100 + (year - 1) / 400
    + (daysBeforeMonth year month : Int) + (day : Int) - 1

/-- The instant of a time: the seconds from January 1 of year 1, 00:00:00 UTC. -/
def seconds (t : Time) : Int :=
  daysSinceYearOne t.year t.month t.day * 86400 + (t.hour : Int) * 3600 + (t.min : Int) * 60
    + (t.sec : Int) - t.offset

/-- The method `IsZero`: the zero time is the instant January 1 of year 1, 00:00:00 UTC,
whatever the location in which it is read. -/
def IsZero (t : Time) : Bool :=
  t.seconds == 0 && t.nsec == 0

/-- The days of a date beyond the end of its month are carried into the following
months: the date that `time.Date` reaches through the day count. -/
def normDay : Nat → Int → Nat → Nat → Int × Nat × Nat
  | 0, y, m, d => (y, m, d)
  | fuel + 1, y, m, d =>
    if daysIn y m < d then
      if m = 12 then normDay fuel (y + 1) 1 (d - daysIn y m)
      else normDay fuel y (m + 1) (d - daysIn y m)
    else (y, m, d)

/-- The method `AddDate(0, months, 0)`: `time.Date` at the month `month + months`, which
is normalised into the year, and at the same day and clock, in the location of the time;
a day beyond the end of the month reached is normalised into the next month.  In a
location with a fixed offset the time that `time.Date` returns reads the civil date and
clock it was given. -/
def AddMonths (t : Time) (months : Int) : Time :=
  let m : Int := (t.month : Int) - 1 + months
  let year : Int := t.year + m / 12
  let month : Nat := (m % 12).toNat + 1
  let ymd := normDay t.day year month t.day
  { t with year := ymd.1, month := ymd.2.1, day := ymd.2.2 }

/-- The function `appendInt` of the time package: the decimal digits of `x`, padded with
zeros to `width` digits, after a minus sign when `x` is negative. -/
def appendInt (x : Int) (width : Nat) : String :=
  let digits := Nat.repr x.natAbs
  (if x < 0 then "-" else "") ++ String.mk (List.replicate (width - digits.length) '0')
    ++ digits

/-- The method `Format` at the layout `2006-01-02`. -/
def Format (t : Time) : String :=
  appendInt t.year 4 ++ "-" ++ appendInt (t.month : Int) 2 ++ "-" ++ appendInt (t.day : Int) 2

end Time

/-! ## The model: requests, aggregates and errors -/

/-- The error values of the packages `model` and `service`. -/
inductive Error where
  | invalidParams
  | ErrNoProgramSelected
  | ErrChooseNone
  | ErrChooseMultiple
  | ErrInitialPaymentLow
deriving DecidableEq, Repr

/-- The text of an error value. -/
def Error.message : Error → String
  | .invalidParams => "invalid params"
  | .ErrNoProgramSelected => "no mortgage program selected"
  | .ErrChooseNone => "no mortgage program selected"
  | .ErrChooseMultiple => "multiple mortgage programs selected"
  | .ErrInitialPaymentLow => "initial payment is too low"

/-- The struct `model.ProgramRequest`. -/
structure ProgramRequest where
  Salary : Bool
  Military : Bool
  Base : Bool
deriving DecidableEq, Repr

/-- The struct `model.ExecuteRequest`. -/
structure ExecuteRequest where
  ObjectCost : Decimal
  InitialPayment : Decimal
  Months : Int
  Program : ProgramRequest
deriving DecidableEq, Repr

/-- The struct `model.Aggregates`. -/
structure Aggregates where
  Rate : Decimal
  LoanSum : Decimal
  MonthlyPayment : Decimal
  Overpayment : Decimal
  LastPaymentDate : String
deriving DecidableEq, Repr

/-- The zero value `model.Aggregates{}`. -/
def Aggregates.zero : Aggregates := ⟨⟨0, 0⟩, ⟨0, 0⟩, ⟨0, 0⟩, ⟨0, 0⟩, ""⟩

/-! ## The calculator -/

/-- The annual rate of the salary program, `decimal.NewFromFloat(8.0)`. -/
def RateSalaryProgram : Decimal := ⟨8, 0⟩

/-- The annual rate of the military program, `decimal.NewFromFloat(9.0)`. -/
def RateMilitaryProgram : Decimal := ⟨9, 0⟩

/-- The annual rate of the base program, `decimal.NewFromFloat(10.0)`: the coefficient 1
at the exponent 1. -/
def RateBaseProgram : Decimal := ⟨1, 1⟩

/-- The least share of the object cost to be paid at once, `decimal.NewFromFloat(0.2)`. -/
def MinInitialPaymentPercent : Decimal := ⟨2, -1⟩

/-- The constant `decimal.NewFromInt(0)`. -/
def DecimalZero : Decimal := Decimal.NewFromInt 0

/-- The constant `decimal.NewFromInt(1)`. -/
def DecimalOne : Decimal := Decimal.NewFromInt 1

/-- The constant `decimal.NewFromInt(12)`. -/
def DecimalTwelve : Decimal := Decimal.NewFromInt 12

/-- The constant `decimal.NewFromInt(100)`. -/
def DecimalHundred : Decimal := Decimal.NewFromInt 100

/-- The method `getProgramRate`: the rate of the first program selected, in the order
salary, military, base. -/
def getProgramRate (program : ProgramRequest) : Decimal × Option Error :=
  if program.Salary then (RateSalaryProgram, none)
  else if program.Military then (RateMilitaryProgram, none)
  else if program.Base then (RateBaseProgram, none)
  else (DecimalZero, some Error.ErrNoProgramSelected)

/-- The method `Calculate`.  `now` is the reading of the wall clock, used when
`baseTime` is the zero time. -/
def Calculate (req : ExecuteRequest) (baseTime now : Time) : Option (Aggregates × Option Error) :=
  if req.ObjectCost.LessThanOrEqual DecimalZero || decide (req.Months ≤ 0) then
    some (Aggregates.zero, some Error.invalidParams)
  else
    match getProgramRate req.Program with
    | (_, some err) => some (Aggregates.zero, some err)
    | (rate, none) =>
      let minPayment := req.ObjectCost.Mul MinInitialPaymentPercent
      if req.InitialPayment.LessThan minPayment then
        some (Aggregates.zero, some Error.ErrInitialPaymentLow)
      else
        let currentTime := if baseTime.IsZero then now else baseTime
        let loanSum := req.ObjectCost.Sub req.InitialPayment
        (rate.Div DecimalHundred).bind fun perMonth100 =>
        (perMonth100.Div DecimalTwelve).bind fun monthlyRate =>
        let power := (DecimalOne.Add monthlyRate).Pow (Decimal.NewFromInt req.Months)
        ((monthlyRate.Mul power).Div (power.Sub DecimalOne)).bind fun annuityCoeff =>
        let monthlyPayment := (loanSum.Mul annuityCoeff).Round 0
        let totalPayment := monthlyPayment.Mul (Decimal.NewFromInt req.Months)
        let overpayment := (totalPayment.Sub loanSum).Round 0
        let lastPaymentDate := currentTime.AddMonths req.Months
        some ({ Rate := rate, LoanSum := loanSum, MonthlyPayment := monthlyPayment,
                Overpayment := overpayment, LastPaymentDate := lastPaymentDate.Format }, none)

/-! ## The handler: validation of the program selection -/

/-- The function `validateProgramRequest`. -/
def validateProgramRequest (program : ProgramRequest) : Option Error :=
  let count : Nat := 0
  let count := if program.Salary then count + 1 else count
  let count := if program.Military then count + 1 else count
  let count := if program.Base then count + 1 else count
  if count = 0 then some Error.ErrChooseNone
  else if count > 1 then some Error.ErrChooseMultiple
  else none

/-! ## Rounding of rational numbers -/

/-- The integer nearest to a rational number, a half being rounded away from zero. -/
def roundHalfAway (x : ℚ) : ℤ :=
  if 0 ≤ x then ⌊x + 1 / 2⌋ else -⌊-x + 1 / 2⌋

/-- A rational number rounded half away from zero to `places` fractional digits. -/
def roundPlaces (places : ℕ) (x : ℚ) : ℚ :=
  (roundHalfAway (x * 10 ^ places) : ℚ) / 10 ^ places

/-! ## The monthly payment, in exact arithmetic and in decimal arithmetic -/

/-- The monthly payment in exact arithmetic: `S * (1 + r) ^ n * r / ((1 + r) ^ n - 1)` at
the monthly rate `r = rate / 100 / 12`, rounded half away from zero. -/
def exactMonthlyPayment (S rate : ℚ) (n : ℕ) : ℤ :=
  roundHalfAway (S * (1 + rate / 100 / 12) ^ n * (rate / 100 / 12)
    / ((1 + rate / 100 / 12) ^ n - 1))

/-- The monthly rate in decimal arithmetic: both quotients of `rate / 100 / 12` are rounded
half away from zero to 16 fractional digits. -/
def decimalMonthlyRate (rate : ℚ) : ℚ :=
  roundPlaces 16 (roundPlaces 16 (rate / 100) / 12)

/-- The annuity factor in decimal arithmetic: the quotient `r * (1 + r) ^ n / ((1 + r) ^ n - 1)`
at the decimal monthly rate `r`, rounded half away from zero to 16 fractional digits; the
power and the product are exact. -/
def decimalAnnuityCoeff (rate : ℚ) (n : ℕ) : ℚ :=
  roundPlaces 16 (decimalMonthlyRate rate * (1 + decimalMonthlyRate rate) ^ n
    / ((1 + decimalMonthlyRate rate) ^ n - 1))

/-- The time of the reference requests, February 18 of 2024 at noon. -/
def referenceTime : Time := ⟨2024, 2, 18, 12, 0, 0, 0, 0⟩

/-! ## The cache -/

/-- The struct `model.RequestParams`. -/
structure RequestParams where
  ObjectCost : Decimal
  InitialPayment : Decimal
  Months : Int
deriving DecidableEq, Repr

/-- The struct `model.ExecuteResponse`. -/
structure ExecuteResponse where
  Params : RequestParams
  Program : ProgramRequest
  Aggregates : Aggregates
deriving DecidableEq, Repr

/-- The struct `cache.CachedItem`: an identifier and the response embedded. -/
structure CachedItem where
  ID : Int
  ExecuteResponse : ExecuteResponse
deriving DecidableEq, Repr

/-- The error values of the package `cache`. -/
inductive CacheError where
  | ErrEmptyCache
deriving DecidableEq, Repr

/-- The text of an error value of the cache. -/
def CacheError.message : CacheError → String
  | .ErrEmptyCache => "empty cache"

/-- The struct `cache.MortCache`, without its lock.  The map `items` is the list of its
entries, one for each key; `nextID` is an `int32`. -/
structure MortCache where
  items : List (Int × ExecuteResponse)
  nextID : Int
deriving DecidableEq, Repr

/-- The value of an `int32` addition: the sum wrapped around into `[-2^31, 2^31)`. -/
def wrapInt32 (x : Int) : Int := (x + 2147483648) % 4294967296 - 2147483648

/-- The map assignment `items[id] = resp`: the entry of the key `id` is replaced or
added. -/
def mapAssign (items : List (Int × ExecuteResponse)) (id : Int) (resp : ExecuteResponse) :
    List (Int × ExecuteResponse) :=
  (id, resp) :: items.filter (fun entry => entry.1 ≠ id)

/-- The function `NewMortCache`. -/
def NewMortCache : MortCache := ⟨[], -1⟩

namespace MortCache

/-- The method `Save`: the identifier returned and the cache afterwards. -/
def Save (c : MortCache) (resp : ExecuteResponse) : Int × MortCache :=
  let id := wrapInt32 (c.nextID + 1)
  (id, ⟨mapAssign c.items id resp, id⟩)

/-- The method `GetAll`: the items in the order of the entries (the order in which Go
ranges over a map is not specified, this is one of them). -/
def GetAll (c : MortCache) : List CachedItem × Option CacheError :=
  if c.items.length = 0 then ([], some CacheError.ErrEmptyCache)
  else (c.items.map fun entry => ⟨entry.1, entry.2⟩, none)

/-- The method `Clear`: a new empty map; `nextID` is not touched. -/
def Clear (c : MortCache) : MortCache := ⟨[], c.nextID⟩

/-- The method `Size`. -/
def Size (c : MortCache) : Int := (c.items.length : Int)

end MortCache

/-- A call that changes the cache: `Save(resp)` or `Clear()`. -/
inductive CacheOp where
  | save (resp : ExecuteResponse)
  | clear
deriving DecidableEq, Repr

/-- A cache together with the record of the calls made on it: the number of `Save` calls,
the number of `Save` calls made before the last `Clear`, and the identifier returned and
the response passed of each `Save` call since the last `Clear`, in the order of the
calls. -/
structure CacheRun where
  cache : MortCache
  saves : Nat
  savesBeforeClear : Nat
  saved : List (Int × ExecuteResponse)
deriving DecidableEq, Repr

/-- The run of a new cache. -/
def CacheRun.new : CacheRun := ⟨NewMortCache, 0, 0, []⟩

/-- One call on a cache, recorded. -/
def CacheRun.step (r : CacheRun) : CacheOp → CacheRun
  | .save resp =>
    let res := r.cache.Save resp
    ⟨res.2, r.saves + 1, r.savesBeforeClear, r.saved ++ [(res.1, resp)]⟩
  | .clear => ⟨r.cache.Clear, r.saves, r.saves, []⟩

/-- The calls `ops` made one after the other on a new cache. -/
def CacheRun.run (ops : List CacheOp) : CacheRun :=
  ops.foldl CacheRun.step CacheRun.new

/-- Successive `Save` calls, one for each response: the identifiers returned, in the
order of the calls, and the cache afterwards. -/
def MortCache.SaveAll (c : MortCache) : List ExecuteResponse → List Int × MortCache
  | [] => ([], c)
  | resp :: rest =>
    let res := c.Save resp
    let more := SaveAll res.2 rest
    (res.1 :: more.1, more.2)

/-- The response of the cache tests. -/
def sampleResponse : ExecuteResponse :=
  ⟨⟨⟨5000000, 0⟩, ⟨1000000, 0⟩, 240⟩, ⟨true, false, false⟩,
    ⟨⟨8, 0⟩, ⟨4000000, 0⟩, ⟨33458, 0⟩, ⟨4029920, 0⟩, "2044-02-18"⟩⟩

/-! ## The overpayment without rounding of the monthly payment -/

/-- The annuity factor in exact arithmetic: `(1 + r) ^ n * r / ((1 + r) ^ n - 1)` at the
monthly rate `r = rate / 100 / 12`. -/
def exactAnnuityFactor (rate : ℚ) (n : ℕ) : ℚ :=
  (1 + rate / 100 / 12) ^ n * (rate / 100 / 12) / ((1 + rate / 100 / 12) ^ n - 1)

/-- The overpayment of a monthly payment `S * factor` that is not rounded:
`S * factor * n - S`. -/
def idealOverpayment (S factor : ℚ) (n : ℕ) : ℚ :=
  S * factor * n - S

/-- The zero time `time.Time{}`: January 1 of year 1, 00:00:00. -/
def Time.zero : Time := ⟨1, 1, 1, 0, 0, 0, 0, 0⟩

/-- The result of `Calculate` without the last payment date: the rate, the loan sum, the
monthly payment, the overpayment and the error. -/
def amountsOf (res : Option (Aggregates × Option Error)) :
    Option (Decimal × Decimal × Decimal × Decimal × Option Error) :=
  res.map fun r => (r.1.Rate, r.1.LoanSum, r.1.MonthlyPayment, r.1.Overpayment, r.2)

/-! ## Dates rendered as `YYYY-MM-DD` -/

/-- The two decimal digits of a number below 100, the tens first. -/
def twoDigits (n : Nat) : String :=
  String.mk [Nat.digitChar (n / 10 % 10), Nat.digitChar (n % 10)]

/-- The four decimal digits of a number below 10000, the thousands first. -/
def fourDigits (n : Nat) : String :=
  String.mk [Nat.digitChar (n / 1000 % 10), Nat.digitChar (n / 100 % 10),
    Nat.digitChar (n / 10 % 10), Nat.digitChar (n % 10)]

/-- A date rendered as `YYYY-MM-DD`: the year in four digits, the month and the day in
two digits each. -/
def isoDate (year month day : Nat) : String :=
  fourDigits year ++ "-" ++ twoDigits month ++ "-" ++ twoDigits day

/-- The year of the month that lies `months` months after the month of `t`. -/
def Time.targetYear (t : Time) (months : Int) : Int :=
  t.year + ((t.month : Int) - 1 + months) / 12

/-- The month (1 to 12) that lies `months` months after the month of `t`. -/
def Time.targetMonth (t : Time) (months : Int) : Nat :=
  (((t.month : Int) - 1 + months) % 12).toNat + 1

/-! ## The identifiers returned over a history -/

/-- The number of `Save` calls of a history. -/
def savesIn : List CacheOp → Nat
  | [] => 0
  | .save _ :: ops => savesIn ops + 1
  | .clear :: ops => savesIn ops

/-- The identifiers that the `Save` calls of a history return when the history is run on
the cache `c`, in the order of the calls. -/
def MortCache.returnedIds (c : MortCache) : List CacheOp → List Int
  | [] => []
  | .save resp :: ops => (c.Save resp).1 :: returnedIds (c.Save resp).2 ops
  | .clear :: ops => returnedIds c.Clear ops

/-! ## Concurrent saves -/

/-- Concurrent `Save` calls on a cache, by callers numbered from 0.  A `Save` call takes
two steps that other callers cannot cut in two: the atomic addition on `nextID`, which
gives the caller its identifier, and the assignment to the map under the lock.  The state
holds the cache, the callers that have taken an identifier and not yet stored their
response, each with its identifier, and the callers whose call has returned, each with
the identifier returned. -/
structure ConcurrentSaves where
  cache : MortCache
  pending : List (Nat × Int)
  returned : List (Nat × Int)
deriving DecidableEq, Repr

namespace ConcurrentSaves

/-- The state before any caller has started, on a new cache. -/
def start : ConcurrentSaves := ⟨NewMortCache, [], []⟩

/-- The next step of caller `i`, whose call is `Save(resps i)`: the atomic addition if the
caller has not started, the assignment to the map and the return if it holds its
identifier, and nothing if its call has returned. -/
def step (resps : Nat → ExecuteResponse) (s : ConcurrentSaves) (i : Nat) : ConcurrentSaves :=
  if i ∈ s.returned.map Prod.fst then s
  else
    match s.pending.find? (fun p => p.1 == i) with
    | some p =>
      ⟨⟨mapAssign s.cache.items p.2 (resps i), s.cache.nextID⟩, s.pending.erase p,
        p :: s.returned⟩
    | none =>
      ⟨⟨s.cache.items, wrapInt32 (s.cache.nextID + 1)⟩,
        (i, wrapInt32 (s.cache.nextID + 1)) :: s.pending, s.returned⟩

/-- An interleaving of the steps of the callers, run from the start: `schedule` names the
caller of each step in turn. -/
def run (resps : Nat → ExecuteResponse) (schedule : List Nat) : ConcurrentSaves :=
  schedule.foldl (step resps) start

/-- The interleaving in which the callers `0, ..., n - 1` call `Save` one after the
other. -/
def oneByOne (n : Nat) : List Nat := (List.range n).flatMap (fun i => [i, i])

/-- What holds in every state that the callers below `N` can reach: the counter stands at
the number of callers started minus one, the identifiers taken are pairwise distinct and
are the numbers from 0 below the number of callers started, no caller has started twice,
and the map holds the response of each caller whose call has returned, under the
identifier returned. -/
def Inv (resps : Nat → ExecuteResponse) (N : Nat) (s : ConcurrentSaves) : Prop :=
  s.cache.nextID = ((s.pending ++ s.returned).length : Int) - 1
  ∧ ((s.pending ++ s.returned).map Prod.snd).Nodup
  ∧ (∀ id : Int, id ∈ (s.pending ++ s.returned).map Prod.snd
      ↔ 0 ≤ id ∧ id < ((s.pending ++ s.returned).length : Int))
  ∧ ((s.pending ++ s.returned).map Prod.fst).Nodup
  ∧ (∀ p ∈ s.pending ++ s.returned, p.1 < N)
  ∧ s.cache.items = s.returned.map (fun p => (p.2, resps p.1))

end ConcurrentSaves

/-! ## Lemmas on decimals -/

namespace Decimal

theorem ten_zpow_pos (e : Int) : (0 : ℚ) < (10 : ℚ) ^ e := zpow_pos (by norm_num) e

theorem ten_zpow_ne (e : Int) : (10 : ℚ) ^ e ≠ 0 := (ten_zpow_pos e).ne'

/-- A decimal with a smaller exponent and the digits shifted accordingly is the same
number. -/
theorem toRat_shift (v : Int) (e : Int) (k : Nat) :
    (⟨v * ((10 ^ k : Nat) : Int), e⟩ : Decimal).toRat = (⟨v, e + k⟩ : Decimal).toRat := by
  simp only [toRat]
  rw [zpow_add₀ (by norm_num : (10 : ℚ) ≠ 0), zpow_natCast]
  push_cast
  ring

theorem rescale_exp (d : Decimal) (exp : Int) : (d.rescale exp).exp = exp := by
  unfold rescale
  split_ifs with h1 h2
  · exact h1
  · rfl
  · rfl

/-- Rescaling to a smaller exponent keeps the number. -/
theorem toRat_rescale (d : Decimal) (exp : Int) (h : exp ≤ d.exp) :
    (d.rescale exp).toRat = d.toRat := by
  unfold rescale
  split_ifs with h1 h2
  · rfl
  · omega
  · have hk : exp + ((exp - d.exp).natAbs : Int) = d.exp := by omega
    show (⟨d.value * ((10 ^ (exp - d.exp).natAbs : Nat) : Int), exp⟩ : Decimal).toRat = d.toRat
    rw [toRat_shift, hk]

theorem RescalePair_exp (d1 d2 : Decimal) :
    (RescalePair d1 d2).1.exp = (RescalePair d1 d2).2.exp := by
  unfold RescalePair
  split_ifs with h1 h2
  · simp [rescale_exp]
  · simp [rescale_exp]
  · simp; omega

theorem RescalePair_fst (d1 d2 : Decimal) : (RescalePair d1 d2).1.toRat = d1.toRat := by
  unfold RescalePair
  split_ifs with h1 h2
  · rfl
  · exact toRat_rescale _ _ (by omega)
  · rfl

theorem RescalePair_snd (d1 d2 : Decimal) : (RescalePair d1 d2).2.toRat = d2.toRat := by
  unfold RescalePair
  split_ifs with h1 h2
  · exact toRat_rescale _ _ (by omega)
  · rfl
  · rfl

theorem RescalePair_exp_min (d1 d2 : Decimal) :
    (RescalePair d1 d2).1.exp = min d1.exp d2.exp := by
  unfold RescalePair
  split_ifs with h1 h2
  · simp; omega
  · simp [rescale_exp]; omega
  · simp; omega

/-- `Add` is exact. -/
theorem toRat_Add (d d2 : Decimal) : (d.Add d2).toRat = d.toRat + d2.toRat := by
  rw [← RescalePair_fst d d2, ← RescalePair_snd d d2]
  simp only [Add, toRat, ← RescalePair_exp d d2]
  push_cast
  ring

/-- `Sub` is exact. -/
theorem toRat_Sub (d d2 : Decimal) : (d.Sub d2).toRat = d.toRat - d2.toRat := by
  rw [← RescalePair_fst d d2, ← RescalePair_snd d d2]
  simp only [Sub, toRat, ← RescalePair_exp d d2]
  push_cast
  ring

/-- `Mul` is exact. -/
theorem toRat_Mul (d d2 : Decimal) : (d.Mul d2).toRat = d.toRat * d2.toRat := by
  simp only [Mul, toRat]
  rw [zpow_add₀ (by norm_num : (10 : ℚ) ≠ 0)]
  push_cast
  ring

theorem toRat_NewFromInt (n : Int) : (NewFromInt n).toRat = n := by
  simp [NewFromInt, toRat]

/-- Two decimals of one exponent compare as their digits do. -/
theorem toRat_lt_of_exp_eq (a b : Decimal) (h : a.exp = b.exp) :
    a.toRat < b.toRat ↔ a.value < b.value := by
  simp only [toRat, h]
  rw [mul_lt_mul_right (ten_zpow_pos _)]
  exact Int.cast_lt

theorem toRat_eq_of_exp_eq (a b : Decimal) (h : a.exp = b.exp) :
    a.toRat = b.toRat ↔ a.value = b.value := by
  simp only [toRat, h]
  rw [mul_left_inj' (ten_zpow_ne _)]
  exact Int.cast_inj

/-- The value that `Cmp` returns is the comparison of the digits at the common exponent. -/
theorem Cmp_eq (d d2 : Decimal) :
    d.Cmp d2 = cmpInt (RescalePair d d2).1.value (RescalePair d d2).2.value := by
  unfold Cmp
  split_ifs with h
  · simp [RescalePair, h]
  · rfl

theorem Cmp_eq_neg_one_iff (d d2 : Decimal) : d.Cmp d2 = -1 ↔ d.toRat < d2.toRat := by
  rw [Cmp_eq, ← RescalePair_fst d d2, ← RescalePair_snd d d2,
    toRat_lt_of_exp_eq _ _ (RescalePair_exp d d2)]
  unfold cmpInt
  split_ifs <;> simp_all

theorem Cmp_eq_zero_iff (d d2 : Decimal) : d.Cmp d2 = 0 ↔ d.toRat = d2.toRat := by
  rw [Cmp_eq, ← RescalePair_fst d d2, ← RescalePair_snd d d2,
    toRat_eq_of_exp_eq _ _ (RescalePair_exp d d2)]
  unfold cmpInt
  split_ifs <;> simp_all <;> omega

theorem Cmp_neg_iff (d d2 : Decimal) : d.Cmp d2 < 0 ↔ d.toRat < d2.toRat := by
  rw [← Cmp_eq_neg_one_iff, Cmp_eq]
  unfold cmpInt
  split_ifs <;> simp

/-- `LessThan` is the order of the numbers. -/
theorem LessThan_iff (d d2 : Decimal) : d.LessThan d2 = true ↔ d.toRat < d2.toRat := by
  simp [LessThan, Cmp_eq_neg_one_iff]

/-- `LessThanOrEqual` is the order of the numbers. -/
theorem LessThanOrEqual_iff (d d2 : Decimal) :
    d.LessThanOrEqual d2 = true ↔ d.toRat ≤ d2.toRat := by
  simp [LessThanOrEqual, Cmp_eq_neg_one_iff, Cmp_eq_zero_iff, le_iff_lt_or_eq]




/-- The loop of the integer power multiplies `result` by the power `n ^ e`. -/
theorem toRat_powLoop (fuel : Nat) : ∀ (e : Nat) (n result : Decimal), e ≤ fuel →
    (powLoop fuel e n result).toRat = result.toRat * n.toRat ^ e := by
  induction fuel with
  | zero =>
    intro e n result he
    have : e = 0 := by omega
    subst this
    simp [powLoop]
  | succ fuel ih =>
    intro e n result he
    rw [powLoop]
    by_cases h0 : e = 0
    · subst h0; simp
    · rw [if_neg h0]
      simp only []
      rw [ih _ _ _ (by omega)]
      have hsplit : e = 2 * (e / 2) + e % 2 := (Nat.div_add_mod e 2).symm
      by_cases h1 : 0 < e / 2
      · rw [if_pos h1, toRat_Mul]
        by_cases h2 : e % 2 = 1
        · rw [if_pos h2, toRat_Mul]
          conv_rhs => rw [hsplit, h2]
          ring
        · rw [if_neg h2]
          have h3 : e % 2 = 0 := by omega
          conv_rhs => rw [hsplit, h3]
          ring
      · rw [if_neg h1]
        have h3 : e = 1 := by omega
        subst h3
        simp [toRat_Mul]

/-- `Pow` at a whole exponent `n` is the exact power (the power `0` below zero), when the
exponent of the power fits an `int32`. -/
theorem toRat_Pow (d : Decimal) (n : Int) (h0 : MinExp ≤ d.exp * n) (h1 : d.exp * n ≤ MaxExp) :
    (d.Pow (NewFromInt n)).toRat = d.toRat ^ n.toNat := by
  unfold Pow
  rw [if_neg (by simp only [NewFromInt]; omega), toRat_powLoop _ _ _ _ (le_refl _)]
  simp [New, toRat, NewFromInt]

/-- `Pow` at a whole exponent `n` is the zero decimal when the exponent of the power is
below the exponents of an `int32`. -/
theorem Pow_of_overflow (d : Decimal) (n : Int) (h : d.exp * n < MinExp) :
    d.Pow (NewFromInt n) = ⟨0, 0⟩ := by
  unfold Pow
  simp only [NewFromInt]
  rw [if_pos (Or.inl h)]

/-- The exponent of a sum is the smaller of the two exponents. -/
theorem Add_exp (d d2 : Decimal) : (d.Add d2).exp = min d.exp d2.exp := by
  unfold Add
  exact RescalePair_exp_min d d2

/-- Rounding half away from zero is odd. -/
theorem roundHalfAway_neg (x : ℚ) : roundHalfAway (-x) = -roundHalfAway x := by
  unfold roundHalfAway
  rcases lt_trichotomy x 0 with h | h | h
  · rw [if_pos (by linarith), if_neg (by linarith)]; simp
  · subst h
    have : ⌊(2⁻¹ : ℚ)⌋ = 0 := by rw [Int.floor_eq_iff]; norm_num
    simp [this]
  · rw [if_neg (by linarith), if_pos (by linarith)]; simp

theorem roundHalfAway_intCast (z : ℤ) : roundHalfAway (z : ℚ) = z := by
  have key : ∀ w : ℤ, ⌊(w : ℚ) + 1 / 2⌋ = w := by
    intro w
    rw [Int.floor_eq_iff]
    constructor <;> linarith
  unfold roundHalfAway
  split_ifs with h
  · exact key z
  · have := key (-z)
    push_cast at this
    rw [this]; ring

/-- The half-up rounding of a number that is not negative, from the floor of its tenfold. -/
theorem floor_add_half (x : ℚ) : ⌊x + 1 / 2⌋ = (⌊10 * x⌋ + 5) / 10 := by
  rw [Int.floor_eq_iff]
  have hw1 : ((⌊10 * x⌋ : ℤ) : ℚ) ≤ 10 * x := Int.floor_le _
  have hw2 : 10 * x < ((⌊10 * x⌋ : ℤ) : ℚ) + 1 := Int.lt_floor_add_one _
  have hq : (⌊10 * x⌋ + 5) = 10 * ((⌊10 * x⌋ + 5) / 10) + (⌊10 * x⌋ + 5) % 10 :=
    (Int.ediv_add_emod _ _).symm
  have hm0 : 0 ≤ (⌊10 * x⌋ + 5) % 10 := Int.emod_nonneg _ (by norm_num)
  have hm1 : (⌊10 * x⌋ + 5) % 10 < 10 := Int.emod_lt_of_pos _ (by norm_num)
  have hm1' : (⌊10 * x⌋ + 5) % 10 ≤ 9 := by omega
  have hqQ : ((⌊10 * x⌋ : ℤ) : ℚ) + 5
      = 10 * (((⌊10 * x⌋ + 5) / 10 : ℤ) : ℚ) + (((⌊10 * x⌋ + 5) % 10 : ℤ) : ℚ) := by
    exact_mod_cast hq
  have hm0Q : (0 : ℚ) ≤ (((⌊10 * x⌋ + 5) % 10 : ℤ) : ℚ) := by exact_mod_cast hm0
  have hm1Q : (((⌊10 * x⌋ + 5) % 10 : ℤ) : ℚ) ≤ 9 := by exact_mod_cast hm1'
  constructor <;> linarith

/-- The digits that `rescale` keeps at exponent `-1` are the tenfold of the number, cut
off towards zero. -/
theorem rescale_neg_one_value (d : Decimal) :
    (d.rescale (-1)).value
      = if 0 ≤ d.toRat then ⌊10 * d.toRat⌋ else -⌊10 * (-d.toRat)⌋ := by
  have hsign : 0 ≤ d.toRat ↔ 0 ≤ d.value := by
    unfold toRat
    rw [mul_nonneg_iff_of_pos_right (ten_zpow_pos _)]
    exact Int.cast_nonneg
  by_cases hexp : -1 ≤ d.exp
  · -- the rescaling is exact
    have hr := toRat_rescale d (-1) hexp
    have hval : 10 * d.toRat = (((d.rescale (-1)).value : ℤ) : ℚ) := by
      rw [← hr]
      simp only [toRat, rescale_exp]
      rw [zpow_neg_one]
      field_simp
    split_ifs with h
    · rw [hval, Int.floor_intCast]
    · rw [mul_neg, hval, ← Int.cast_neg, Int.floor_intCast, neg_neg]
  · -- digits are cut off
    have hlt : d.exp < -1 := by omega
    obtain ⟨k, hk⟩ : ∃ k : Nat, (k : Int) = -1 - d.exp := ⟨(-1 - d.exp).toNat, by omega⟩
    have hv : (d.rescale (-1)).value = d.value.tdiv ((10 ^ k : Nat) : Int) := by
      unfold rescale
      rw [if_neg (by omega), if_pos (by omega)]
      have : (-1 - d.exp).natAbs = k := by omega
      simp only [this]
    have hx : 10 * d.toRat = (d.value : ℚ) / ((10 ^ k : Nat) : ℚ) := by
      unfold toRat
      have he : d.exp = -1 - (k : Int) := by omega
      rw [he, zpow_sub₀ (by norm_num : (10 : ℚ) ≠ 0), zpow_neg_one, zpow_natCast]
      push_cast
      field_simp
      ring
    rw [hv]
    split_ifs with h
    · have hv0 : 0 ≤ d.value := hsign.mp h
      rw [Int.tdiv_eq_ediv hv0 (by positivity), hx, Rat.floor_intCast_div_natCast]
    · have hv0 : 0 ≤ -d.value := by
        have : ¬ 0 ≤ d.value := fun hh => h (hsign.mpr hh)
        omega
      have hneg : d.value.tdiv ((10 ^ k : Nat) : Int)
          = -((-d.value).tdiv ((10 ^ k : Nat) : Int)) := by
        rw [Int.neg_tdiv, neg_neg]
      rw [hneg, Int.tdiv_eq_ediv hv0 (by positivity), mul_neg, hx, ← neg_div,
        ← Int.cast_neg, Rat.floor_intCast_div_natCast]

theorem sign_lt_zero_iff (x : Int) : x.sign < 0 ↔ x < 0 := by
  rcases lt_trichotomy x 0 with h | h | h
  · simp [Int.sign_eq_neg_one_of_neg h, h]
  · subst h; simp
  · simp [Int.sign_eq_one_of_pos h]; omega

/-- The last step of `Round` on the digits `w` kept at one more place: the digits plus or
minus five are divided by ten, downwards for a quotient that is not negative and upwards
for a negative one. -/
theorem round_digits (w : Int) :
    (if ((if w.sign < 0 then w - 5 else w + 5) / 10).sign < 0
          ∧ (if w.sign < 0 then w - 5 else w + 5) % 10 ≠ 0
      then (if w.sign < 0 then w - 5 else w + 5) / 10 + 1
      else (if w.sign < 0 then w - 5 else w + 5) / 10)
      = if 0 ≤ w then (w + 5) / 10 else -((-w + 5) / 10) := by
  simp only [sign_lt_zero_iff]
  split_ifs <;> omega

/-- `Round(0)` is the rounding half away from zero, and its result has no fractional
digits. -/
theorem Round_zero (d : Decimal) :
    (d.Round 0).exp = 0 ∧ (d.Round 0).value = roundHalfAway d.toRat := by
  by_cases h0 : d.exp = 0
  · have hR : d.Round 0 = d := by
      unfold Round
      rw [if_pos (by simpa using h0)]
    rw [hR]
    refine ⟨h0, ?_⟩
    have : d.toRat = (d.value : ℚ) := by simp [toRat, h0]
    rw [this, roundHalfAway_intCast]
  · have hm : (-(0 : Int) - 1) = -1 := by norm_num
    have hexp : (d.Round 0).exp = 0 := by
      unfold Round
      rw [if_neg (by simpa using h0), hm]
      simp only []
      split_ifs <;> simp [rescale_exp]
    have hval : (d.Round 0).value
        = if 0 ≤ (d.rescale (-1)).value then ((d.rescale (-1)).value + 5) / 10
          else -((-(d.rescale (-1)).value + 5) / 10) := by
      rw [← round_digits]
      unfold Round
      rw [if_neg (by simpa using h0), hm]
      simp only []
      split_ifs <;> rfl
    refine ⟨hexp, ?_⟩
    rw [hval, rescale_neg_one_value]
    unfold roundHalfAway
    by_cases hx : 0 ≤ d.toRat
    · have hw : 0 ≤ ⌊10 * d.toRat⌋ := Int.floor_nonneg.mpr (by linarith)
      rw [if_pos hx, if_pos hx, if_pos hw, floor_add_half]
    · have hw : 0 ≤ ⌊10 * (-d.toRat)⌋ := Int.floor_nonneg.mpr (by linarith)
      rw [if_neg hx, if_neg hx, floor_add_half (-d.toRat)]
      split_ifs with hz
      · have : ⌊10 * (-d.toRat)⌋ = 0 := by omega
        rw [this]; norm_num
      · rw [neg_neg]

/-- The half-away rounding of a quotient of integers, from the quotient and the remainder
of the division. -/
theorem roundHalfAway_div (A B : Int) (hA : 0 ≤ A) (hB : 0 < B) :
    roundHalfAway ((A : ℚ) / B) = if 2 * (A % B) < B then A / B else A / B + 1 := by
  have hBQ : (0 : ℚ) < (B : ℚ) := by exact_mod_cast hB
  have hAQ : (0 : ℚ) ≤ (A : ℚ) := by exact_mod_cast hA
  have hdecomp : (A : ℚ) = (B : ℚ) * ((A / B : ℤ) : ℚ) + ((A % B : ℤ) : ℚ) := by
    exact_mod_cast (Int.ediv_add_emod A B).symm
  have hr0 : (0 : ℚ) ≤ ((A % B : ℤ) : ℚ) := by
    exact_mod_cast Int.emod_nonneg A hB.ne'
  have hr1 : ((A % B : ℤ) : ℚ) < (B : ℚ) := by
    exact_mod_cast Int.emod_lt_of_pos A hB
  have hx : (A : ℚ) / B = ((A / B : ℤ) : ℚ) + ((A % B : ℤ) : ℚ) / B := by
    field_simp
    linarith
  have hfrac0 : (0 : ℚ) ≤ ((A % B : ℤ) : ℚ) / B := div_nonneg hr0 hBQ.le
  have hfrac1 : ((A % B : ℤ) : ℚ) / B < 1 := (div_lt_one hBQ).mpr hr1
  unfold roundHalfAway
  rw [if_pos (div_nonneg hAQ hBQ.le), Int.floor_eq_iff, hx]
  split_ifs with h
  · have h2 : (2 : ℚ) * ((A % B : ℤ) : ℚ) < (B : ℚ) := by exact_mod_cast h
    have hhalf : ((A % B : ℤ) : ℚ) / B < 1 / 2 := by
      rw [div_lt_iff₀ hBQ]; linarith
    constructor <;> linarith
  · have h2 : (B : ℚ) ≤ (2 : ℚ) * ((A % B : ℤ) : ℚ) := by
      have : B ≤ 2 * (A % B) := by omega
      exact_mod_cast this
    have hhalf : 1 / 2 ≤ ((A % B : ℤ) : ℚ) / B := by
      rw [le_div_iff₀ hBQ]; linarith
    constructor
    · push_cast; linarith
    · push_cast; linarith

/-- `DivRound` of a number that is not negative by a positive one succeeds and returns the
quotient rounded half away from zero to `p` fractional digits. -/
theorem DivRound_of_pos (a b : Decimal) (p : ℕ) (ha : 0 ≤ a.value) (hb : 0 < b.value) :
    ∃ q, a.DivRound b (p : Int) = some q ∧ q.exp = -(p : Int)
      ∧ q.toRat = roundPlaces p (a.toRat / b.toRat) := by
  -- the two integers that are divided
  obtain ⟨A, B, s, hA, hB, hquo, hAB, hBs⟩ : ∃ (A B s : Int), 0 ≤ A ∧ 0 < B
      ∧ a.QuoRem b (p : Int) = some (⟨A.tdiv B, -(p : Int)⟩, ⟨A.tmod B, s⟩)
      ∧ (A : ℚ) / B = a.toRat / b.toRat * 10 ^ p
      ∧ (B : ℚ) * 10 ^ (s + p) = (b.value : ℚ) * 10 ^ b.exp := by
    have hbQ : (b.value : ℚ) ≠ 0 := by exact_mod_cast hb.ne'
    have h10 : (10 : ℚ) ≠ 0 := by norm_num
    by_cases he : a.exp - b.exp - -(p : Int) < 0
    · obtain ⟨k, hk⟩ : ∃ k : Nat, (k : Int) = -(a.exp - b.exp - -(p : Int)) :=
        ⟨(-(a.exp - b.exp - -(p : Int))).toNat, by omega⟩
      have hk' : (a.exp - b.exp - -(p : Int)).natAbs = k := by omega
      refine ⟨a.value, b.value * ((10 ^ k : Nat) : Int), a.exp, ha, by positivity, ?_, ?_, ?_⟩
      · unfold QuoRem
        rw [if_neg hb.ne']
        simp only [if_pos he, hk']
      · simp only [toRat]
        have hbe : b.exp = a.exp + p + k := by omega
        rw [hbe, zpow_add₀ h10, zpow_add₀ h10, zpow_natCast, zpow_natCast]
        push_cast
        have := ten_zpow_ne a.exp
        field_simp
        ring
      · have hbe : b.exp = a.exp + p + k := by omega
        rw [hbe, zpow_add₀ h10 (a.exp + p), zpow_natCast]
        push_cast
        ring
    · obtain ⟨k, hk⟩ : ∃ k : Nat, (k : Int) = a.exp - b.exp - -(p : Int) :=
        ⟨(a.exp - b.exp - -(p : Int)).toNat, by omega⟩
      have hk' : (a.exp - b.exp - -(p : Int)).natAbs = k := by omega
      refine ⟨a.value * ((10 ^ k : Nat) : Int), b.value, -(p : Int) + b.exp, by positivity, hb,
        ?_, ?_, ?_⟩
      · unfold QuoRem
        rw [if_neg hb.ne']
        simp only [if_neg he, hk']
      · simp only [toRat]
        have hae : a.exp = b.exp + k - p := by omega
        rw [hae, zpow_sub₀ h10, zpow_add₀ h10, zpow_natCast, zpow_natCast]
        push_cast
        have := ten_zpow_ne b.exp
        field_simp
        ring
      · have : -(p : Int) + b.exp + p = b.exp := by ring
        rw [this]
  -- the remainder decides the rounding
  have hr0 : 0 ≤ A % B := Int.emod_nonneg A hB.ne'
  have hcmp : (⟨((A.tmod B).natAbs : Int) * 2, s + p⟩ : Decimal).Cmp b.Abs < 0
      ↔ 2 * (A % B) < B := by
    rw [Cmp_neg_iff]
    simp only [toRat, Abs]
    have habs : ((b.value.natAbs : Int) : ℚ) = (b.value : ℚ) := by
      have : (b.value.natAbs : Int) = b.value := by omega
      rw [this]
    have hrabs : (((A.tmod B).natAbs : Int)) = A % B := by
      rw [Int.tmod_eq_emod hA hB.le]; omega
    rw [Int.cast_natCast] at habs
    rw [Int.cast_natCast, habs, ← hBs, Int.cast_mul, Int.cast_natCast]
    have hrabs' : (((A.tmod B).natAbs : ℕ) : ℚ) = ((A % B : ℤ) : ℚ) := by
      rw [← hrabs, Int.cast_natCast]
    rw [hrabs', mul_lt_mul_right (ten_zpow_pos _)]
    have h2 : ((2 : ℤ) : ℚ) = 2 := by norm_num
    rw [h2]
    constructor
    · intro h
      have : ((2 * (A % B) : ℤ) : ℚ) < (B : ℚ) := by push_cast; linarith
      exact_mod_cast this
    · intro h
      have : ((2 * (A % B) : ℤ) : ℚ) < (B : ℚ) := by exact_mod_cast h
      push_cast at this; linarith
  have hsign : ¬ a.value.sign * b.value.sign < 0 := by
    rw [Int.sign_eq_one_of_pos hb, mul_one, sign_lt_zero_iff]
    omega
  have hround : roundPlaces p (a.toRat / b.toRat)
      = ((if 2 * (A % B) < B then A / B else A / B + 1 : ℤ) : ℚ) * 10 ^ (-(p : Int)) := by
    unfold roundPlaces
    rw [← hAB, roundHalfAway_div A B hA hB, zpow_neg, zpow_natCast, div_eq_mul_inv]
  unfold DivRound
  rw [hquo]
  simp only []
  by_cases hc : 2 * (A % B) < B
  · rw [if_pos (hcmp.mpr hc)]
    refine ⟨_, rfl, rfl, ?_⟩
    rw [hround, if_pos hc, Int.tdiv_eq_ediv hA hB.le]
    rfl
  · rw [if_neg (fun h => hc (hcmp.mp h)), if_neg hsign]
    refine ⟨_, rfl, ?_, ?_⟩
    · simp [Add, RescalePair, New]
    · rw [hround, if_neg hc, toRat_Add, Int.tdiv_eq_ediv hA hB.le]
      simp only [toRat, New]
      push_cast
      ring

/-- `Div` of a number that is not negative by a positive one succeeds and returns the
quotient rounded half away from zero to 16 fractional digits. -/
theorem Div_of_pos (a b : Decimal) (ha : 0 ≤ a.value) (hb : 0 < b.value) :
    ∃ q, a.Div b = some q ∧ q.exp = -16 ∧ q.toRat = roundPlaces 16 (a.toRat / b.toRat) := by
  have := DivRound_of_pos a b DivisionPrecision ha hb
  simpa [Div, DivisionPrecision] using this

/-- `Div` by a decimal that is not zero returns. -/
theorem Div_defined (a b : Decimal) (hb : b.value ≠ 0) : ∃ c, a.Div b = some c := by
  unfold Div DivRound QuoRem
  rw [if_neg hb]
  simp only []
  split_ifs <;> exact ⟨_, rfl⟩

theorem toRat_pos_iff (d : Decimal) : 0 < d.toRat ↔ 0 < d.value := by
  unfold toRat
  rw [mul_pos_iff_of_pos_right (ten_zpow_pos _)]
  exact Int.cast_pos

theorem toRat_nonneg_iff (d : Decimal) : 0 ≤ d.toRat ↔ 0 ≤ d.value := by
  unfold toRat
  rw [mul_nonneg_iff_of_pos_right (ten_zpow_pos _)]
  exact Int.cast_nonneg

end Decimal

open Decimal

theorem toRat_DecimalOne : DecimalOne.toRat = 1 := by
  simp [DecimalOne, toRat_NewFromInt]

theorem toRat_DecimalZero : DecimalZero.toRat = 0 := by
  simp [DecimalZero, toRat_NewFromInt]

theorem toRat_MinInitialPaymentPercent : MinInitialPaymentPercent.toRat = 1 / 5 := by
  norm_num [MinInitialPaymentPercent, toRat]

/-- The exponent of `1 + r` at a monthly rate `r` of 16 fractional digits, and of its
power over `n` months. -/
theorem onePlusRate_exp (mr : Decimal) (n : Int) (hexp : mr.exp = -16) :
    (DecimalOne.Add mr).exp * n = -16 * n := by
  rw [Add_exp, hexp]
  rfl

/-- The annuity coefficient of a positive monthly rate of 16 fractional digits over a
positive number of months: the division returns, the divisor being `(1 + r) ^ n - 1` or,
when the exponent of the power does not fit an `int32`, `-1`. -/
theorem annuityCoeff_returns (mr : Decimal) (n : Int) (hmr : 0 < mr.value) (hn : 0 < n)
    (hexp : mr.exp = -16) :
    ∃ c, (mr.Mul ((DecimalOne.Add mr).Pow (NewFromInt n))).Div
          (((DecimalOne.Add mr).Pow (NewFromInt n)).Sub DecimalOne) = some c := by
  apply Div_defined
  have he := onePlusRate_exp mr n hexp
  by_cases hr : MinExp ≤ (DecimalOne.Add mr).exp * n
  · have hpow : ((DecimalOne.Add mr).Pow (NewFromInt n)).toRat = (1 + mr.toRat) ^ n.toNat := by
      rw [toRat_Pow _ _ hr (by rw [he]; unfold MaxExp; omega), toRat_Add, toRat_DecimalOne]
    have hr0 : 0 < mr.toRat := (toRat_pos_iff mr).mpr hmr
    have hgt : 1 < (1 + mr.toRat) ^ n.toNat := one_lt_pow₀ (by linarith) (by omega)
    have hden : 0 < (((DecimalOne.Add mr).Pow (NewFromInt n)).Sub DecimalOne).toRat := by
      rw [toRat_Sub, hpow, toRat_DecimalOne]; linarith
    have := (toRat_pos_iff _).mp hden
    omega
  · rw [Pow_of_overflow _ _ (by omega)]
    decide

/-- The annuity coefficient of a positive monthly rate of 16 fractional digits over a
positive number of months, at most 134217728 of them, so that the exponent of the power
fits an `int32`: the division succeeds, the divisor `(1 + r) ^ n - 1` being positive. -/
theorem annuityCoeff_defined (mr : Decimal) (n : Int) (hmr : 0 < mr.value) (hn : 0 < n)
    (hexp : mr.exp = -16) (hn2 : n ≤ 134217728) :
    0 < (((DecimalOne.Add mr).Pow (NewFromInt n)).Sub DecimalOne).toRat
    ∧ ∃ c, (mr.Mul ((DecimalOne.Add mr).Pow (NewFromInt n))).Div
          (((DecimalOne.Add mr).Pow (NewFromInt n)).Sub DecimalOne) = some c
      ∧ c.toRat = roundPlaces 16 (mr.toRat * (1 + mr.toRat) ^ n.toNat
          / ((1 + mr.toRat) ^ n.toNat - 1)) := by
  have hr : 0 < mr.toRat := (toRat_pos_iff mr).mpr hmr
  have he := onePlusRate_exp mr n hexp
  have hpow : ((DecimalOne.Add mr).Pow (NewFromInt n)).toRat = (1 + mr.toRat) ^ n.toNat := by
    rw [toRat_Pow _ _ (by rw [he]; unfold MinExp; omega) (by rw [he]; unfold MaxExp; omega),
      toRat_Add, toRat_DecimalOne]
  have hn' : n.toNat ≠ 0 := by omega
  have hgt : 1 < (1 + mr.toRat) ^ n.toNat := one_lt_pow₀ (by linarith) hn'
  have hsub : (((DecimalOne.Add mr).Pow (NewFromInt n)).Sub DecimalOne).toRat
      = (1 + mr.toRat) ^ n.toNat - 1 := by
    rw [toRat_Sub, hpow, toRat_DecimalOne]
  have hden : 0 < (((DecimalOne.Add mr).Pow (NewFromInt n)).Sub DecimalOne).toRat := by
    rw [hsub]; linarith
  have hnum : 0 ≤ (mr.Mul ((DecimalOne.Add mr).Pow (NewFromInt n))).toRat := by
    rw [toRat_Mul, hpow]
    exact mul_nonneg hr.le (by linarith)
  obtain ⟨c, hc, -, hcv⟩ := Div_of_pos _ _ ((toRat_nonneg_iff _).mp hnum)
    ((toRat_pos_iff _).mp hden)
  refine ⟨hden, c, hc, ?_⟩
  rw [hcv, toRat_Mul, hpow, hsub]

/-- The monthly rate of each of the three annual rates: both divisions succeed, and the
rate found is positive. -/
theorem monthlyRate_defined (rate : Decimal)
    (h : rate = RateSalaryProgram ∨ rate = RateMilitaryProgram ∨ rate = RateBaseProgram) :
    ∃ q mr, rate.Div DecimalHundred = some q ∧ q.Div DecimalTwelve = some mr ∧ 0 < mr.value
      ∧ mr.toRat = decimalMonthlyRate rate.toRat ∧ mr.exp = -16 := by
  have h100 : DecimalHundred.toRat = 100 := by simp [DecimalHundred, toRat_NewFromInt]
  have h12 : DecimalTwelve.toRat = 12 := by simp [DecimalTwelve, toRat_NewFromInt]
  have hrate : 0 ≤ rate.value := by
    rcases h with h | h | h <;> subst h <;> decide
  obtain ⟨q, hq, -, hqv⟩ := Div_of_pos rate DecimalHundred hrate (by decide)
  have hq0 : 0 ≤ q.value := by
    have hq' : ∃ v : Int, 0 ≤ v ∧ rate.Div DecimalHundred = some ⟨v, -16⟩ := by
      rcases h with h | h | h <;> subst h
      · exact ⟨800000000000000, by decide, by decide⟩
      · exact ⟨900000000000000, by decide, by decide⟩
      · exact ⟨1000000000000000, by decide, by decide⟩
    obtain ⟨v, hv, hdiv⟩ := hq'
    rw [hq] at hdiv
    rw [Option.some.inj hdiv]
    exact hv
  obtain ⟨mr, hmr, hmre, hmrv⟩ := Div_of_pos q DecimalTwelve hq0 (by decide)
  refine ⟨q, mr, hq, hmr, ?_, ?_, hmre⟩
  · have hchain : (rate.Div DecimalHundred).bind (fun x => x.Div DecimalTwelve)
        = some mr := by rw [hq]; exact hmr
    rcases h with h | h | h <;> subst h
    · have : (RateSalaryProgram.Div DecimalHundred).bind (fun x => x.Div DecimalTwelve)
          = some ⟨66666666666667, -16⟩ := by decide
      rw [this] at hchain
      rw [← Option.some.inj hchain]; decide
    · have : (RateMilitaryProgram.Div DecimalHundred).bind (fun x => x.Div DecimalTwelve)
          = some ⟨75000000000000, -16⟩ := by decide
      rw [this] at hchain
      rw [← Option.some.inj hchain]; decide
    · have : (RateBaseProgram.Div DecimalHundred).bind (fun x => x.Div DecimalTwelve)
          = some ⟨83333333333333, -16⟩ := by decide
      rw [this] at hchain
      rw [← Option.some.inj hchain]; decide
  · rw [hmrv, hqv, h100, h12]
    rfl

/-! ### The four outcomes of `Calculate` -/

theorem getProgramRate_of_selected (p : ProgramRequest)
    (h : p.Salary = true ∨ p.Military = true ∨ p.Base = true) :
    getProgramRate p
      = (if p.Salary then RateSalaryProgram else if p.Military then RateMilitaryProgram
          else RateBaseProgram, none) := by
  rcases p with ⟨s, m, b⟩
  cases s <;> cases m <;> cases b <;> simp_all [getProgramRate]

theorem getProgramRate_of_none (p : ProgramRequest)
    (h : p.Salary = false ∧ p.Military = false ∧ p.Base = false) :
    getProgramRate p = (DecimalZero, some Error.ErrNoProgramSelected) := by
  rcases p with ⟨s, m, b⟩
  obtain ⟨h1, h2, h3⟩ := h
  simp only at h1 h2 h3
  subst h1 h2 h3
  rfl

theorem getProgramRate_rate (p : ProgramRequest)
    (h : p.Salary = true ∨ p.Military = true ∨ p.Base = true) :
    (getProgramRate p).1 = RateSalaryProgram ∨ (getProgramRate p).1 = RateMilitaryProgram
      ∨ (getProgramRate p).1 = RateBaseProgram := by
  rw [getProgramRate_of_selected p h]
  split_ifs <;> simp

/-- The guard of the parameters of `Calculate` holds exactly for an object cost that is
not positive or a number of months that is not positive. -/
theorem invalidParams_guard (req : ExecuteRequest) :
    (req.ObjectCost.LessThanOrEqual DecimalZero || decide (req.Months ≤ 0)) = true
      ↔ (req.ObjectCost.toRat ≤ 0 ∨ req.Months ≤ 0) := by
  rw [Bool.or_eq_true, LessThanOrEqual_iff, toRat_DecimalZero, decide_eq_true_iff]

/-- The guard of the initial payment of `Calculate` holds exactly for an initial payment
below a fifth of the object cost. -/
theorem initialPayment_guard (req : ExecuteRequest) :
    req.InitialPayment.LessThan (req.ObjectCost.Mul MinInitialPaymentPercent) = true
      ↔ req.InitialPayment.toRat < 1 / 5 * req.ObjectCost.toRat := by
  rw [LessThan_iff, toRat_Mul, toRat_MinInitialPaymentPercent, mul_comm]

/-- Invalid parameters: the first check of `Calculate`. -/
theorem Calculate_of_invalid (req : ExecuteRequest) (baseTime now : Time)
    (h : req.ObjectCost.toRat ≤ 0 ∨ req.Months ≤ 0) :
    Calculate req baseTime now = some (Aggregates.zero, some Error.invalidParams) := by
  unfold Calculate
  rw [if_pos ((invalidParams_guard req).mpr h)]

/-- No program selected: the second check of `Calculate`. -/
theorem Calculate_of_no_program (req : ExecuteRequest) (baseTime now : Time)
    (hc : 0 < req.ObjectCost.toRat) (hm : 0 < req.Months)
    (hp : req.Program.Salary = false ∧ req.Program.Military = false
      ∧ req.Program.Base = false) :
    Calculate req baseTime now = some (Aggregates.zero, some Error.ErrNoProgramSelected) := by
  unfold Calculate
  rw [if_neg (fun h => by
    rcases (invalidParams_guard req).mp h with h | h
    · linarith
    · omega), getProgramRate_of_none _ hp]

/-- An initial payment below a fifth of the object cost: the third check of `Calculate`. -/
theorem Calculate_of_low_payment (req : ExecuteRequest) (baseTime now : Time)
    (hc : 0 < req.ObjectCost.toRat) (hm : 0 < req.Months)
    (hp : req.Program.Salary = true ∨ req.Program.Military = true ∨ req.Program.Base = true)
    (hi : req.InitialPayment.toRat < 1 / 5 * req.ObjectCost.toRat) :
    Calculate req baseTime now = some (Aggregates.zero, some Error.ErrInitialPaymentLow) := by
  unfold Calculate
  rw [if_neg (fun h => by
    rcases (invalidParams_guard req).mp h with h | h
    · linarith
    · omega), getProgramRate_of_selected _ hp]
  simp only []
  rw [if_pos ((initialPayment_guard req).mpr hi)]

/-- A request that passes the three checks, with an annuity coefficient `c` that the
division returns: `Calculate` returns the aggregates computed with `c`. -/
theorem Calculate_of_coeff (req : ExecuteRequest) (baseTime now : Time)
    (hc : 0 < req.ObjectCost.toRat) (hm : 0 < req.Months)
    (hp : req.Program.Salary = true ∨ req.Program.Military = true ∨ req.Program.Base = true)
    (hi : 1 / 5 * req.ObjectCost.toRat ≤ req.InitialPayment.toRat)
    (q mr c : Decimal) (hq : (getProgramRate req.Program).1.Div DecimalHundred = some q)
    (hmr : q.Div DecimalTwelve = some mr)
    (hcdiv : (mr.Mul ((DecimalOne.Add mr).Pow (NewFromInt req.Months))).Div
      (((DecimalOne.Add mr).Pow (NewFromInt req.Months)).Sub DecimalOne) = some c) :
    Calculate req baseTime now = some (
          { Rate := (getProgramRate req.Program).1,
            LoanSum := req.ObjectCost.Sub req.InitialPayment,
            MonthlyPayment := ((req.ObjectCost.Sub req.InitialPayment).Mul c).Round 0,
            Overpayment :=
              (((((req.ObjectCost.Sub req.InitialPayment).Mul c).Round 0).Mul
                (NewFromInt req.Months)).Sub (req.ObjectCost.Sub req.InitialPayment)).Round 0,
            LastPaymentDate :=
              ((if baseTime.IsZero then now else baseTime).AddMonths req.Months).Format },
          none) := by
  have hgp : getProgramRate req.Program = ((getProgramRate req.Program).1, none) := by
    rw [getProgramRate_of_selected _ hp]
  unfold Calculate
  rw [if_neg (fun h => by
    rcases (invalidParams_guard req).mp h with h | h
    · linarith
    · omega), hgp]
  simp only []
  rw [if_neg (fun h => by
    have := (initialPayment_guard req).mp h
    linarith), hq, Option.some_bind, hmr, Option.some_bind, hcdiv, Option.some_bind]

/-- A request that passes the three checks: `Calculate` returns the aggregates computed
with an annuity coefficient `c`. -/
theorem Calculate_of_accepted (req : ExecuteRequest) (baseTime now : Time)
    (hc : 0 < req.ObjectCost.toRat) (hm : 0 < req.Months)
    (hp : req.Program.Salary = true ∨ req.Program.Military = true ∨ req.Program.Base = true)
    (hi : 1 / 5 * req.ObjectCost.toRat ≤ req.InitialPayment.toRat) :
    ∃ c : Decimal,
      Calculate req baseTime now = some (
          { Rate := (getProgramRate req.Program).1,
            LoanSum := req.ObjectCost.Sub req.InitialPayment,
            MonthlyPayment := ((req.ObjectCost.Sub req.InitialPayment).Mul c).Round 0,
            Overpayment :=
              (((((req.ObjectCost.Sub req.InitialPayment).Mul c).Round 0).Mul
                (NewFromInt req.Months)).Sub (req.ObjectCost.Sub req.InitialPayment)).Round 0,
            LastPaymentDate :=
              ((if baseTime.IsZero then now else baseTime).AddMonths req.Months).Format },
          none) := by
  obtain ⟨q, mr, hq, hmr, hmr0, -, hmre⟩ :=
    monthlyRate_defined _ (getProgramRate_rate req.Program hp)
  obtain ⟨c, hcdiv⟩ := annuityCoeff_returns mr req.Months hmr0 hm hmre
  exact ⟨c, Calculate_of_coeff req baseTime now hc hm hp hi q mr c hq hmr hcdiv⟩

/-- A request that passes the three checks, over fewer than 134217728 months, so that
the exponents of the power and of its product with the monthly rate fit an `int32`:
`Calculate` returns the aggregates computed with an annuity coefficient `c`, the decimal
annuity factor of the rate and the term. -/
theorem Calculate_of_accepted_in_range (req : ExecuteRequest) (baseTime now : Time)
    (hc : 0 < req.ObjectCost.toRat) (hm : 0 < req.Months) (hM : req.Months < 134217728)
    (hp : req.Program.Salary = true ∨ req.Program.Military = true ∨ req.Program.Base = true)
    (hi : 1 / 5 * req.ObjectCost.toRat ≤ req.InitialPayment.toRat) :
    ∃ c : Decimal,
      c.toRat = decimalAnnuityCoeff (getProgramRate req.Program).1.toRat req.Months.toNat
      ∧ Calculate req baseTime now = some (
          { Rate := (getProgramRate req.Program).1,
            LoanSum := req.ObjectCost.Sub req.InitialPayment,
            MonthlyPayment := ((req.ObjectCost.Sub req.InitialPayment).Mul c).Round 0,
            Overpayment :=
              (((((req.ObjectCost.Sub req.InitialPayment).Mul c).Round 0).Mul
                (NewFromInt req.Months)).Sub (req.ObjectCost.Sub req.InitialPayment)).Round 0,
            LastPaymentDate :=
              ((if baseTime.IsZero then now else baseTime).AddMonths req.Months).Format },
          none) := by
  obtain ⟨q, mr, hq, hmr, hmr0, hmrv, hmre⟩ :=
    monthlyRate_defined _ (getProgramRate_rate req.Program hp)
  obtain ⟨-, c, hcdiv, hcv⟩ := annuityCoeff_defined mr req.Months hmr0 hm hmre (by omega)
  refine ⟨c, ?_, ?_⟩
  · rw [hcv, hmrv]; rfl
  · exact Calculate_of_coeff req baseTime now hc hm hp hi q mr c hq hmr hcdiv

/-- With a base time that is not the zero time, `Calculate` does not read the wall
clock. -/
theorem Calculate_of_base_time (req : ExecuteRequest) (baseTime now1 now2 : Time)
    (h : baseTime.IsZero = false) :
    Calculate req baseTime now1 = Calculate req baseTime now2 := by
  simp only [Calculate, h, Bool.false_eq_true, if_false]

/-! ## Further lemmas on rounding and on the calculator -/

/-- Rounding half away from zero moves a number by at most a half. -/
theorem roundHalfAway_sub_abs_le (x : ℚ) : |(roundHalfAway x : ℚ) - x| ≤ 1 / 2 := by
  unfold roundHalfAway
  rw [abs_le]
  split_ifs with h
  · have h1 : ((⌊x + 1 / 2⌋ : ℤ) : ℚ) ≤ x + 1 / 2 := Int.floor_le _
    have h2 : x + 1 / 2 < ((⌊x + 1 / 2⌋ : ℤ) : ℚ) + 1 := Int.lt_floor_add_one _
    constructor <;> linarith
  · have h1 : ((⌊-x + 1 / 2⌋ : ℤ) : ℚ) ≤ -x + 1 / 2 := Int.floor_le _
    have h2 : -x + 1 / 2 < ((⌊-x + 1 / 2⌋ : ℤ) : ℚ) + 1 := Int.lt_floor_add_one _
    push_cast
    constructor <;> linarith

/-- The number that `Round(0)` returns. -/
theorem toRat_Round_zero (d : Decimal) : (d.Round 0).toRat = (roundHalfAway d.toRat : ℚ) := by
  obtain ⟨hexp, hval⟩ := Decimal.Round_zero d
  simp [Decimal.toRat, hexp, hval]

set_option exponentiation.threshold 100000 in
set_option maxRecDepth 100000 in
/-- The decimal annuity factor of the rate 8 over 240 months. -/
theorem decimalAnnuityCoeff_salary_240 :
    decimalAnnuityCoeff 8 240 = (⟨83644006899347, -16⟩ : Decimal).toRat := by
  obtain ⟨q, mr, hq, hmr, hmr0, hmrv, -⟩ := monthlyRate_defined RateSalaryProgram (Or.inl rfl)
  have hrate : RateSalaryProgram.toRat = 8 := by norm_num [RateSalaryProgram, Decimal.toRat]
  have hchain : (RateSalaryProgram.Div DecimalHundred).bind (fun x => x.Div DecimalTwelve)
      = some mr := by rw [hq]; exact hmr
  have hconc : (RateSalaryProgram.Div DecimalHundred).bind (fun x => x.Div DecimalTwelve)
      = some ⟨66666666666667, -16⟩ := by decide
  have hmreq : mr = ⟨66666666666667, -16⟩ := by
    rw [hconc] at hchain
    exact (Option.some.inj hchain).symm
  subst hmreq
  obtain ⟨-, c, hc, hcv⟩ := annuityCoeff_defined ⟨66666666666667, -16⟩ 240 (by decide)
    (by decide) rfl (by decide)
  have hcconc : ((⟨66666666666667, -16⟩ : Decimal).Mul
      ((DecimalOne.Add ⟨66666666666667, -16⟩).Pow (NewFromInt 240))).Div
      (((DecimalOne.Add ⟨66666666666667, -16⟩).Pow (NewFromInt 240)).Sub DecimalOne)
      = some ⟨83644006899347, -16⟩ := by decide
  have hceq : c = ⟨83644006899347, -16⟩ := by
    rw [hcconc] at hc
    exact (Option.some.inj hc).symm
  subst hceq
  rw [hcv]
  unfold decimalAnnuityCoeff
  rw [← hrate, ← hmrv]
  rfl

/-! ## Lemmas on dates -/

/-- One step of the conversion of a number to its decimal digits. -/
theorem toDigitsCore_step (fuel n : Nat) (ds : List Char) (h : n < fuel) :
    Nat.toDigitsCore 10 fuel n ds
      = if n / 10 = 0 then Nat.digitChar (n % 10) :: ds
        else Nat.toDigitsCore 10 (fuel - 1) (n / 10) (Nat.digitChar (n % 10) :: ds) := by
  cases fuel with
  | zero => omega
  | succ f => simp [Nat.toDigitsCore]

/-- The decimal digits of a number below 10000. -/
theorem toDigits_lt_10000 (n : Nat) (h : n < 10000) :
    Nat.toDigits 10 n
      = if n < 10 then [Nat.digitChar (n % 10)]
        else if n < 100 then [Nat.digitChar (n / 10 % 10), Nat.digitChar (n % 10)]
        else if n < 1000 then
          [Nat.digitChar (n / 100 % 10), Nat.digitChar (n / 10 % 10), Nat.digitChar (n % 10)]
        else [Nat.digitChar (n / 1000 % 10), Nat.digitChar (n / 100 % 10),
          Nat.digitChar (n / 10 % 10), Nat.digitChar (n % 10)] := by
  unfold Nat.toDigits
  rw [toDigitsCore_step _ _ _ (by omega)]
  by_cases h1 : n < 10
  · rw [if_pos (by omega), if_pos h1]
  · rw [if_neg (by omega), if_neg h1, toDigitsCore_step _ _ _ (by omega)]
    by_cases h2 : n < 100
    · rw [if_pos (by omega), if_pos h2]
    · rw [if_neg (by omega), if_neg h2, toDigitsCore_step _ _ _ (by omega)]
      have e2 : n / 10 / 10 = n / 100 := by omega
      by_cases h3 : n < 1000
      · rw [if_pos (by omega), if_pos h3, e2]
      · rw [if_neg (by omega), if_neg h3, toDigitsCore_step _ _ _ (by omega)]
        have e3 : n / 10 / 10 / 10 = n / 1000 := by omega
        rw [if_pos (by omega), e3, e2]

/-- `appendInt` at the width 4 on a number from 0 to 9999 gives its four digits. -/
theorem appendInt_four (n : Nat) (h : n < 10000) :
    Time.appendInt (n : Int) 4 = fourDigits n := by
  unfold Time.appendInt fourDigits
  simp only [Int.natAbs_ofNat, Nat.repr, List.asString]
  rw [if_neg (by omega), toDigits_lt_10000 n h]
  rw [String.ext_iff]
  simp only [String.data_append, String.length]
  have z : Nat.digitChar 0 = '0' := rfl
  by_cases h1 : n < 10
  · have a1 : n / 1000 % 10 = 0 := by omega
    have a2 : n / 100 % 10 = 0 := by omega
    have a3 : n / 10 % 10 = 0 := by omega
    rw [if_pos h1, a1, a2, a3, z]
    rfl
  · rw [if_neg h1]
    by_cases h2 : n < 100
    · have a1 : n / 1000 % 10 = 0 := by omega
      have a2 : n / 100 % 10 = 0 := by omega
      rw [if_pos h2, a1, a2, z]
      rfl
    · rw [if_neg h2]
      by_cases h3 : n < 1000
      · have a1 : n / 1000 % 10 = 0 := by omega
        rw [if_pos h3, a1, z]
        rfl
      · rw [if_neg h3]
        rfl

/-- `appendInt` at the width 2 on a number from 0 to 99 gives its two digits. -/
theorem appendInt_two (n : Nat) (h : n < 100) :
    Time.appendInt (n : Int) 2 = twoDigits n := by
  unfold Time.appendInt twoDigits
  simp only [Int.natAbs_ofNat, Nat.repr, List.asString]
  rw [if_neg (by omega), toDigits_lt_10000 n (by omega)]
  rw [String.ext_iff]
  simp only [String.data_append, String.length]
  have z : Nat.digitChar 0 = '0' := rfl
  by_cases h1 : n < 10
  · have a3 : n / 10 % 10 = 0 := by omega
    rw [if_pos h1, a3, z]
    rfl
  · rw [if_neg h1, if_pos h]
    rfl

/-- A day within its month is left where it is. -/
theorem normDay_of_le (fuel : Nat) (y : Int) (m d : Nat) (h : d ≤ Time.daysIn y m) :
    Time.normDay fuel y m d = (y, m, d) := by
  cases fuel with
  | zero => rfl
  | succ f =>
    unfold Time.normDay
    rw [if_neg (by omega)]

theorem daysIn_le (y : Int) (m : Nat) : Time.daysIn y m ≤ 31 := by
  unfold Time.daysIn
  split_ifs <;> omega

/-- The date that `AddMonths` reaches when the day exists in the month reached, rendered
by `Format`, if the year reached has at most four digits. -/
theorem Format_AddMonths (t : Time) (months : Int)
    (hy0 : 0 ≤ t.targetYear months) (hy1 : t.targetYear months ≤ 9999)
    (hd : t.day ≤ Time.daysIn (t.targetYear months) (t.targetMonth months)) :
    (t.AddMonths months).Format
      = isoDate (t.targetYear months).toNat (t.targetMonth months) t.day := by
  have hnorm := normDay_of_le t.day (t.targetYear months) (t.targetMonth months) t.day hd
  unfold Time.targetYear Time.targetMonth at hnorm
  have hy : (((t.targetYear months).toNat : Nat) : Int) = t.targetYear months :=
    Int.toNat_of_nonneg hy0
  have hm : t.targetMonth months < 100 := by
    unfold Time.targetMonth
    omega
  have hday : t.day < 100 := by
    have := daysIn_le (t.targetYear months) (t.targetMonth months)
    omega
  unfold Time.AddMonths Time.Format isoDate
  simp only [hnorm]
  rw [← appendInt_four _ (by omega), ← appendInt_two _ hm, ← appendInt_two _ hday, hy]
  rfl

theorem le_daysIn (y : Int) (m : Nat) : 28 ≤ Time.daysIn y m := by
  unfold Time.daysIn
  split_ifs <;> omega

/-- A day beyond the end of a month before December, by no more days than the next month
has, is carried into the next month. -/
theorem normDay_carry (fuel : Nat) (y : Int) (m d : Nat) (h1 : Time.daysIn y m < d)
    (hm : m ≠ 12) (h2 : d - Time.daysIn y m ≤ Time.daysIn y (m + 1)) :
    Time.normDay (fuel + 1) y m d = (y, m + 1, d - Time.daysIn y m) := by
  rw [Time.normDay, if_pos h1, if_neg hm, normDay_of_le _ _ _ _ h2]

/-- The date that `AddMonths` reaches when the day, at most 31, does not exist in the
month reached, rendered by `Format`, if the year reached has at most four digits: the
month reached is before December, and the date is in the month after it, at the day
less the length of the month reached. -/
theorem Format_AddMonths_carry (t : Time) (months : Int)
    (hy0 : 0 ≤ t.targetYear months) (hy1 : t.targetYear months ≤ 9999) (hday : t.day ≤ 31)
    (hd : Time.daysIn (t.targetYear months) (t.targetMonth months) < t.day) :
    (t.AddMonths months).Format
        = isoDate (t.targetYear months).toNat (t.targetMonth months + 1)
            (t.day - Time.daysIn (t.targetYear months) (t.targetMonth months))
      ∧ t.targetMonth months + 1 ≤ 12
      ∧ 1 ≤ t.day - Time.daysIn (t.targetYear months) (t.targetMonth months)
      ∧ t.day - Time.daysIn (t.targetYear months) (t.targetMonth months) ≤ 3 := by
  have h28 := le_daysIn (t.targetYear months) (t.targetMonth months)
  have h28n := le_daysIn (t.targetYear months) (t.targetMonth months + 1)
  have htm12 : t.targetMonth months ≤ 12 := by
    unfold Time.targetMonth
    omega
  have htm : t.targetMonth months ≠ 12 := by
    intro h12
    rw [h12] at hd
    have : Time.daysIn (t.targetYear months) 12 = 31 := by
      unfold Time.daysIn
      simp
    omega
  have hnorm := normDay_carry (t.day - 1) (t.targetYear months) (t.targetMonth months) t.day
    hd htm (by omega)
  rw [Nat.sub_add_cancel (by omega)] at hnorm
  refine ⟨?_, by omega, by omega, by omega⟩
  unfold Time.targetYear Time.targetMonth at hnorm
  have hy : (((t.targetYear months).toNat : Nat) : Int) = t.targetYear months :=
    Int.toNat_of_nonneg hy0
  unfold Time.AddMonths Time.Format isoDate
  simp only [hnorm]
  rw [← appendInt_four _ (by omega), ← appendInt_two _ (by omega : t.targetMonth months + 1 < 100),
    ← appendInt_two _ (by omega :
      t.day - Time.daysIn (t.targetYear months) (t.targetMonth months) < 100), hy]
  rfl

/-! ## Lemmas on the cache -/

theorem wrapInt32_of_range (x : Int) (h0 : -2147483648 ≤ x) (h1 : x < 2147483648) :
    wrapInt32 x = x := by
  unfold wrapInt32
  omega

/-- Assigning a key that the map does not hold adds an entry in front. -/
theorem mapAssign_of_fresh (items : List (Int × ExecuteResponse)) (id : Int)
    (resp : ExecuteResponse) (h : ∀ entry ∈ items, entry.1 ≠ id) :
    mapAssign items id resp = (id, resp) :: items := by
  unfold mapAssign
  rw [List.filter_eq_self.mpr]
  intro entry he
  simpa using h entry he

/-- The identifiers `k, k + 1, ..., k + n - 1`. -/
theorem mem_map_range_add (k n : Nat) (i : Int) :
    i ∈ (List.range n).map (fun j => ((k + j : Nat) : Int)) ↔ (k : Int) ≤ i ∧ i < (k + n : Nat) := by
  simp only [List.mem_map, List.mem_range]
  constructor
  · rintro ⟨j, hj, rfl⟩
    constructor <;> omega
  · rintro ⟨h1, h2⟩
    refine ⟨(i - k).toNat, by omega, by omega⟩

theorem nodup_map_range_add (k n : Nat) :
    ((List.range n).map (fun j => ((k + j : Nat) : Int))).Nodup := by
  apply List.Nodup.map _ (List.nodup_range n)
  intro a b hab
  simp only at hab
  omega

/-- `Save` on a cache whose counter stands at `m - 1` and whose keys are all below `m`
returns `m` and adds the entry. -/
theorem Save_of_counter (c : MortCache) (resp : ExecuteResponse) (m : Nat)
    (hnext : c.nextID = (m : Int) - 1) (hm : m < 2147483648)
    (hkeys : ∀ entry ∈ c.items, entry.1 < (m : Int)) :
    c.Save resp = ((m : Int), ⟨((m : Int), resp) :: c.items, (m : Int)⟩) := by
  have hid : wrapInt32 (c.nextID + 1) = (m : Int) := by
    rw [hnext, wrapInt32_of_range] <;> omega
  unfold MortCache.Save
  simp only [hid]
  rw [mapAssign_of_fresh]
  intro entry he
  have := hkeys entry he
  omega

/-- Successive saves from a counter at `k - 1`: the identifiers `k, k + 1, ...` are
returned in this order and one entry is added for each. -/
theorem SaveAll_of_counter (resps : List ExecuteResponse) :
    ∀ (c : MortCache) (k : Nat), c.nextID = (k : Int) - 1 →
      k + resps.length ≤ 2147483648 → (∀ entry ∈ c.items, entry.1 < (k : Int)) →
      (c.SaveAll resps).1 = (List.range resps.length).map (fun j => ((k + j : Nat) : Int))
      ∧ (c.SaveAll resps).2.items
          = (List.zip ((List.range resps.length).map (fun j => ((k + j : Nat) : Int)))
              resps).reverse ++ c.items
      ∧ (c.SaveAll resps).2.nextID = ((k + resps.length : Nat) : Int) - 1 := by
  induction resps with
  | nil =>
    intro c k hnext _ _
    simp [MortCache.SaveAll, hnext]
  | cons resp rest ih =>
    intro c k hnext hlen hkeys
    simp only [List.length_cons] at hlen
    have hsave := Save_of_counter c resp k hnext (by omega) hkeys
    have hkeys' : ∀ entry ∈ (c.Save resp).2.items, entry.1 < ((k + 1 : Nat) : Int) := by
      rw [hsave]
      intro entry he
      simp only [List.mem_cons] at he
      rcases he with he | he
      · subst he; simp
      · have := hkeys entry he
        push_cast; omega
    have hnext' : (c.Save resp).2.nextID = ((k + 1 : Nat) : Int) - 1 := by
      rw [hsave]; push_cast; ring
    obtain ⟨h1, h2, h3⟩ := ih (c.Save resp).2 (k + 1) hnext' (by omega) hkeys'
    have hrange : (List.range (rest.length + 1)).map (fun j => ((k + j : Nat) : Int))
        = (k : Int) :: (List.range rest.length).map (fun j => ((k + 1 + j : Nat) : Int)) := by
      rw [List.range_succ_eq_map, List.map_cons, List.map_map]
      simp only [Nat.add_zero, List.cons.injEq, true_and]
      apply List.map_congr_left
      intro j _
      simp only [Function.comp]
      congr 1
      omega
    refine ⟨?_, ?_, ?_⟩
    · show (c.Save resp).1 :: ((c.Save resp).2.SaveAll rest).1 = _
      rw [h1, List.length_cons, hrange, hsave]
    · show ((c.Save resp).2.SaveAll rest).2.items = _
      rw [h2, List.length_cons, hrange, hsave]
      simp
    · show ((c.Save resp).2.SaveAll rest).2.nextID = _
      rw [h3, List.length_cons]
      congr 2
      omega

theorem CacheRun.run_append (ops : List CacheOp) (op : CacheOp) :
    CacheRun.run (ops ++ [op]) = (CacheRun.run ops).step op := by
  simp [CacheRun.run, List.foldl_append]

/-- The number of `Save` calls of a history does not fall when the history goes on. -/
theorem CacheRun.saves_step (r : CacheRun) (op : CacheOp) : r.saves ≤ (r.step op).saves := by
  cases op <;> simp [CacheRun.step]

/-- The state of a cache after a history of at most `2^31` saves: the counter stands at the
number of saves minus one, and the map holds, last saved first, one entry for each save
since the last `Clear`, under the identifiers from the number of saves before that
`Clear` on. -/
theorem CacheRun.run_state (ops : List CacheOp) :
    (CacheRun.run ops).saves ≤ 2147483648 →
      (CacheRun.run ops).cache.nextID = ((CacheRun.run ops).saves : Int) - 1
      ∧ (CacheRun.run ops).savesBeforeClear ≤ (CacheRun.run ops).saves
      ∧ (CacheRun.run ops).saved.map Prod.fst
          = (List.range ((CacheRun.run ops).saves - (CacheRun.run ops).savesBeforeClear)).map
              (fun j => (((CacheRun.run ops).savesBeforeClear + j : Nat) : Int))
      ∧ (CacheRun.run ops).cache.items = (CacheRun.run ops).saved.reverse := by
  induction ops using List.reverseRecOn with
  | nil =>
    intro _
    simp [CacheRun.run, CacheRun.new, NewMortCache]
  | append_singleton ops op ih =>
    intro h
    rw [CacheRun.run_append] at h ⊢
    have hle := CacheRun.saves_step (CacheRun.run ops) op
    obtain ⟨h1, h2, h3, h4⟩ := ih (by omega)
    generalize CacheRun.run ops = r at *
    cases op with
    | clear =>
      simp only [CacheRun.step, MortCache.Clear]
      refine ⟨h1, le_refl _, ?_, ?_⟩ <;> simp
    | save resp =>
      have hlt : r.saves < 2147483648 := by
        simp only [CacheRun.step] at h
        omega
      have hkeys : ∀ entry ∈ r.cache.items, entry.1 < (r.saves : Int) := by
        intro entry he
        rw [h4, List.mem_reverse] at he
        have hmem : entry.1 ∈ r.saved.map Prod.fst := List.mem_map_of_mem _ he
        rw [h3, mem_map_range_add] at hmem
        have := hmem.2
        push_cast at this
        omega
      have hsave := Save_of_counter r.cache resp r.saves h1 hlt hkeys
      simp only [CacheRun.step, hsave]
      refine ⟨by push_cast; ring, by omega, ?_, ?_⟩
      · rw [List.map_append, h3]
        have : r.saves + 1 - r.savesBeforeClear = (r.saves - r.savesBeforeClear) + 1 := by
          omega
        rw [this, List.range_succ, List.map_append]
        simp only [List.map_cons, List.map_nil, List.append_cancel_left_eq, List.cons.injEq,
          and_true]
        congr 1
        omega
      · rw [List.reverse_append, h4]
        rfl

/-- After a history of at most `2^31` saves every key of the map is below the number of
saves. -/
theorem CacheRun.run_keys_lt (ops : List CacheOp)
    (h : (CacheRun.run ops).saves ≤ 2147483648) :
    ∀ entry ∈ (CacheRun.run ops).cache.items, entry.1 < ((CacheRun.run ops).saves : Int) := by
  obtain ⟨-, hle, hids, hitems⟩ := CacheRun.run_state ops h
  intro entry he
  rw [hitems, List.mem_reverse] at he
  have hmem : entry.1 ∈ (CacheRun.run ops).saved.map Prod.fst := List.mem_map_of_mem _ he
  rw [hids, mem_map_range_add] at hmem
  have := hmem.2
  push_cast at this
  omega

/-! ## Lemmas on the counter of the identifiers -/

/-- Wrapping around before an addition changes nothing after it. -/
theorem wrapInt32_add (a b : Int) : wrapInt32 (wrapInt32 a + b) = wrapInt32 (a + b) := by
  unfold wrapInt32
  omega

/-- The identifiers returned over a history: the `j`-th `Save` call (from 0) returns the
counter plus `j + 1`, wrapped around; `Clear` calls do not matter. -/
theorem returnedIds_eq (ops : List CacheOp) : ∀ c : MortCache,
    c.returnedIds ops
      = (List.range (savesIn ops)).map (fun (j : Nat) => wrapInt32 (c.nextID + 1 + (j : Int))) := by
  induction ops with
  | nil => intro c; rfl
  | cons op ops ih =>
    intro c
    cases op with
    | clear =>
      show c.Clear.returnedIds ops = _
      rw [ih]
      rfl
    | save resp =>
      show (c.Save resp).1 :: (c.Save resp).2.returnedIds ops = _
      rw [ih]
      show wrapInt32 (c.nextID + 1) :: _ = (List.range (savesIn ops + 1)).map _
      rw [List.range_succ_eq_map, List.map_cons, List.map_map]
      congr 1
      · simp
      · apply List.map_congr_left
        intro j _
        show wrapInt32 (wrapInt32 (c.nextID + 1) + 1 + (j : Int))
          = wrapInt32 (c.nextID + 1 + ((j + 1 : Nat) : Int))
        rw [add_assoc, wrapInt32_add]
        congr 1
        push_cast
        ring

theorem savesIn_replicate (n : Nat) (resp : ExecuteResponse) :
    savesIn (List.replicate n (CacheOp.save resp)) = n := by
  induction n with
  | zero => rfl
  | succ n ih =>
    rw [List.replicate_succ]
    show savesIn (List.replicate n (CacheOp.save resp)) + 1 = n + 1
    rw [ih]

/-! ## Lemmas on concurrent saves -/

/-- Pairwise distinct numbers below `N` are at most `N`. -/
theorem length_le_of_nodup_lt (l : List Nat) (N : Nat) (hnd : l.Nodup)
    (hlt : ∀ x ∈ l, x < N) : l.length ≤ N := by
  have hsub : l.toFinset ⊆ Finset.range N := by
    intro x hx
    exact Finset.mem_range.mpr (hlt x (List.mem_toFinset.mp hx))
  have := Finset.card_le_card hsub
  rwa [List.toFinset_card_of_nodup hnd, Finset.card_range] at this

/-- A list that holds every number below `N` has at least `N` entries. -/
theorem le_length_of_range_mem (l : List Nat) (N : Nat) (h : ∀ i < N, i ∈ l) :
    N ≤ l.length := by
  have hsub : Finset.range N ⊆ l.toFinset := by
    intro x hx
    exact List.mem_toFinset.mpr (h x (Finset.mem_range.mp hx))
  have := Finset.card_le_card hsub
  rw [Finset.card_range] at this
  exact le_trans this (List.toFinset_card_le l)

namespace ConcurrentSaves

theorem run_snoc (resps : Nat → ExecuteResponse) (schedule : List Nat) (i : Nat) :
    run resps (schedule ++ [i]) = step resps (run resps schedule) i := by
  simp [run, List.foldl_append]

theorem Inv_start (resps : Nat → ExecuteResponse) (N : Nat) : Inv resps N start := by
  refine ⟨?_, ?_, ?_, ?_, ?_, ?_⟩ <;> simp [start, NewMortCache]

/-- A step of a caller below `N` keeps the invariant, if `N` is at most `2^31`. -/
theorem Inv_step (resps : Nat → ExecuteResponse) (N : Nat) (hN : N ≤ 2147483648)
    (s : ConcurrentSaves) (i : Nat) (hi : i < N) (h : Inv resps N s) :
    Inv resps N (step resps s i) := by
  obtain ⟨ha, hb, hc, hd, he, hf⟩ := h
  unfold step
  by_cases hret : i ∈ s.returned.map Prod.fst
  · rw [if_pos hret]
    exact ⟨ha, hb, hc, hd, he, hf⟩
  · rw [if_neg hret]
    cases hfind : s.pending.find? (fun p => p.1 == i) with
    | some p =>
      simp only
      have hp : p ∈ s.pending := List.mem_of_find?_eq_some hfind
      have hpi : p.1 = i := by
        have := List.find?_some hfind
        simpa using this
      have hperm : (s.pending.erase p ++ p :: s.returned).Perm (s.pending ++ s.returned) := by
        obtain ⟨l1, l2, -, e1, e2⟩ := List.exists_erase_eq hp
        rw [e2, e1]
        have h1 : (l1 ++ l2 ++ p :: s.returned).Perm (p :: (l1 ++ l2 ++ s.returned)) :=
          List.perm_middle
        have h2 : (l1 ++ p :: l2 ++ s.returned).Perm (p :: (l1 ++ l2 ++ s.returned)) := by
          rw [List.append_assoc, List.cons_append, List.append_assoc]
          exact List.perm_middle
        exact h1.trans h2.symm
      have hlen := hperm.length_eq
      have hfresh : ∀ entry ∈ s.cache.items, entry.1 ≠ p.2 := by
        intro entry hentry hEq
        rw [hf, List.mem_map] at hentry
        obtain ⟨q, hq, rfl⟩ := hentry
        rw [List.map_append, List.nodup_append] at hb
        have hdisj := hb.2.2
        have hq2 : q.2 ∈ s.returned.map Prod.snd := List.mem_map_of_mem Prod.snd hq
        have hEq2 : q.2 = p.2 := hEq
        rw [hEq2] at hq2
        exact hdisj (List.mem_map_of_mem Prod.snd hp) hq2
      refine ⟨?_, ?_, ?_, ?_, ?_, ?_⟩
      · rw [hlen]; exact ha
      · exact ((hperm.map Prod.snd).nodup_iff).mpr hb
      · intro id
        rw [(hperm.map Prod.snd).mem_iff, hlen]
        exact hc id
      · exact ((hperm.map Prod.fst).nodup_iff).mpr hd
      · intro q hq
        exact he q (hperm.mem_iff.mp hq)
      · rw [mapAssign_of_fresh _ _ _ hfresh, List.map_cons, hf, hpi]
    | none =>
      simp only
      have hnotpend : i ∉ s.pending.map Prod.fst := by
        intro hmem
        rw [List.mem_map] at hmem
        obtain ⟨q, hq, hqi⟩ := hmem
        have := List.find?_eq_none.mp hfind q hq
        simp [hqi] at this
      have hnotall : i ∉ (s.pending ++ s.returned).map Prod.fst := by
        rw [List.map_append, List.mem_append]
        rintro (h1 | h1)
        · exact hnotpend h1
        · exact hret h1
      have hk : (s.pending ++ s.returned).length + 1 ≤ N := by
        have := length_le_of_nodup_lt (i :: (s.pending ++ s.returned).map Prod.fst) N
          (List.nodup_cons.mpr ⟨hnotall, hd⟩)
          (by
            intro x hx
            rcases List.mem_cons.mp hx with rfl | hx
            · exact hi
            · rw [List.mem_map] at hx
              obtain ⟨q, hq, rfl⟩ := hx
              exact he q hq)
        simpa using this
      have hid : wrapInt32 (s.cache.nextID + 1) = ((s.pending ++ s.returned).length : Int) := by
        rw [ha, wrapInt32_of_range] <;> omega
      rw [hid]
      refine ⟨?_, ?_, ?_, ?_, ?_, hf⟩
      · simp only [List.cons_append, List.length_cons]
        push_cast
        ring
      · simp only [List.cons_append, List.map_cons]
        refine List.nodup_cons.mpr ⟨?_, hb⟩
        intro hmem
        have := ((hc _).mp hmem).2
        omega
      · intro id
        simp only [List.cons_append, List.map_cons, List.mem_cons, List.length_cons]
        rw [hc id]
        push_cast
        constructor
        · rintro (h1 | ⟨h1, h2⟩) <;> constructor <;> omega
        · rintro ⟨h1, h2⟩
          by_cases h3 : id = ((s.pending ++ s.returned).length : Int)
          · exact Or.inl h3
          · exact Or.inr ⟨h1, by omega⟩
      · simp only [List.cons_append, List.map_cons]
        exact List.nodup_cons.mpr ⟨hnotall, hd⟩
      · intro q hq
        simp only [List.cons_append, List.mem_cons] at hq
        rcases hq with rfl | hq
        · exact hi
        · exact he q hq

/-- Every interleaving of callers below `N` keeps the invariant, if `N` is at most
`2^31`. -/
theorem Inv_run (resps : Nat → ExecuteResponse) (N : Nat) (hN : N ≤ 2147483648)
    (schedule : List Nat) (hs : ∀ i ∈ schedule, i < N) :
    Inv resps N (run resps schedule) := by
  induction schedule using List.reverseRecOn with
  | nil => exact Inv_start resps N
  | append_singleton schedule i ih =>
    rw [run_snoc]
    exact Inv_step resps N hN _ i (hs i (by simp)) (ih (fun j hj => hs j (by simp [hj])))

end ConcurrentSaves

namespace ConcurrentSaves

/-- The two steps of a caller that has not started, taken one after the other, are the
call `Save(resps i)`: the cache is the cache after `Save`, and the call returns the
identifier that `Save` returns. -/
theorem step_step (resps : Nat → ExecuteResponse) (s : ConcurrentSaves) (i : Nat)
    (hret : i ∉ s.returned.map Prod.fst) (hpend : i ∉ s.pending.map Prod.fst) :
    step resps (step resps s i) i
      = ⟨(s.cache.Save (resps i)).2, s.pending,
          (i, (s.cache.Save (resps i)).1) :: s.returned⟩ := by
  have hfind : s.pending.find? (fun p => p.1 == i) = none := by
    rw [List.find?_eq_none]
    intro q hq hqi
    exact hpend (List.mem_map.mpr ⟨q, hq, by simpa using hqi⟩)
  have h1 : step resps s i
      = ⟨⟨s.cache.items, wrapInt32 (s.cache.nextID + 1)⟩,
          (i, wrapInt32 (s.cache.nextID + 1)) :: s.pending, s.returned⟩ := by
    unfold step
    rw [if_neg hret, hfind]
  rw [h1]
  unfold step
  rw [if_neg hret]
  simp [MortCache.Save]

/-- The callers `0, ..., n - 1` one after the other: caller `i` gets the identifier `i`,
wrapped around. -/
theorem run_oneByOne (resps : Nat → ExecuteResponse) (n : Nat) :
    (run resps (oneByOne n)).pending = []
    ∧ (run resps (oneByOne n)).returned
        = ((List.range n).map (fun (i : Nat) => (i, wrapInt32 (i : Int)))).reverse
    ∧ (run resps (oneByOne n)).cache.nextID = wrapInt32 ((n : Int) - 1) := by
  induction n with
  | zero =>
    refine ⟨rfl, rfl, ?_⟩
    show (-1 : Int) = wrapInt32 (((0 : Nat) : Int) - 1)
    unfold wrapInt32
    norm_num
  | succ n ih =>
    obtain ⟨h1, h2, h3⟩ := ih
    have hsched : oneByOne (n + 1) = (oneByOne n ++ [n]) ++ [n] := by
      unfold oneByOne
      rw [List.range_succ, List.flatMap_append]
      simp
    have hret : n ∉ (run resps (oneByOne n)).returned.map Prod.fst := by
      rw [h2, List.map_reverse, List.map_map, List.mem_reverse, List.mem_map]
      rintro ⟨j, hj, hjn⟩
      have := List.mem_range.mp hj
      simp only [Function.comp] at hjn
      omega
    have hpend : n ∉ (run resps (oneByOne n)).pending.map Prod.fst := by
      rw [h1]; simp
    rw [hsched, run_snoc, run_snoc, step_step resps _ n hret hpend]
    refine ⟨h1, ?_, ?_⟩
    · show (n, wrapInt32 ((run resps (oneByOne n)).cache.nextID + 1))
          :: (run resps (oneByOne n)).returned = _
      rw [h2, h3, wrapInt32_add, List.range_succ, List.map_append, List.reverse_append]
      simp
    · show wrapInt32 ((run resps (oneByOne n)).cache.nextID + 1) = _
      rw [h3, wrapInt32_add]
      push_cast
      ring_nf

end ConcurrentSaves

theorem ConcurrentSaves.mem_oneByOne (n i : Nat) (h : i ∈ ConcurrentSaves.oneByOne n) :
    i < n := by
  unfold ConcurrentSaves.oneByOne at h
  rw [List.mem_flatMap] at h
  obtain ⟨j, hj, hij⟩ := h
  have := List.mem_range.mp hj
  simp only [List.mem_cons, List.mem_singleton, or_self, List.not_mem_nil, or_false] at hij
  omega

theorem ConcurrentSaves.returned_oneByOne (resps : Nat → ExecuteResponse) (n i : Nat)
    (h : i < n) :
    (i, wrapInt32 (i : Int)) ∈ (ConcurrentSaves.run resps (ConcurrentSaves.oneByOne n)).returned := by
  rw [(ConcurrentSaves.run_oneByOne resps n).2.1, List.mem_reverse, List.mem_map]
  exact ⟨i, List.mem_range.mpr h, rfl⟩

/-! ## Lemmas on the signs of the amounts -/

theorem roundHalfAway_nonneg (x : ℚ) (h : 0 ≤ x) : 0 ≤ roundHalfAway x := by
  unfold roundHalfAway
  rw [if_pos h]
  exact Int.floor_nonneg.mpr (by linarith)

theorem roundPlaces_nonneg (p : ℕ) (x : ℚ) (h : 0 ≤ x) : 0 ≤ roundPlaces p x := by
  unfold roundPlaces
  have h1 : 0 ≤ roundHalfAway (x * 10 ^ p) := roundHalfAway_nonneg _ (by positivity)
  have h2 : (0 : ℚ) ≤ (roundHalfAway (x * 10 ^ p) : ℚ) := by exact_mod_cast h1
  positivity

/-- The decimal annuity factor of a rate that is not negative is not negative. -/
theorem decimalAnnuityCoeff_nonneg (rate : ℚ) (n : ℕ) (h : 0 ≤ rate) :
    0 ≤ decimalAnnuityCoeff rate n := by
  have hr : 0 ≤ decimalMonthlyRate rate := by
    unfold decimalMonthlyRate
    exact roundPlaces_nonneg _ _ (div_nonneg (roundPlaces_nonneg _ _ (by positivity))
      (by norm_num))
  unfold decimalAnnuityCoeff
  apply roundPlaces_nonneg
  have hp : 1 ≤ (1 + decimalMonthlyRate rate) ^ n := one_le_pow₀ (by linarith)
  exact div_nonneg (mul_nonneg hr (by linarith)) (by linarith)

theorem getProgramRate_nonneg (p : ProgramRequest) : 0 ≤ (getProgramRate p).1.toRat := by
  rcases p with ⟨s, m, b⟩
  cases s <;> cases m <;> cases b <;>
    norm_num [getProgramRate, RateSalaryProgram, RateMilitaryProgram, RateBaseProgram,
      DecimalZero, Decimal.NewFromInt, Decimal.toRat]

/-! ## The claims -/

/-- C1, counterexample: at an object cost of 125000000000000000, an initial payment of
25000000000000000 (the 20%), one month and the salary program, `Calculate` returns the
monthly payment 100666666666666670, and the formula in exact arithmetic gives
100666666666666667. -/
theorem Calculate_monthlyPayment_not_exact :
    Calculate ⟨⟨125000000000000000, 0⟩, ⟨25000000000000000, 0⟩, 1, ⟨true, false, false⟩⟩
        referenceTime referenceTime
      = some (⟨⟨8, 0⟩, ⟨100000000000000000, 0⟩, ⟨100666666666666670, 0⟩,
          ⟨666666666666670, 0⟩, "2024-03-18"⟩, none)
    ∧ (1 / 5 : ℚ) * (⟨125000000000000000, 0⟩ : Decimal).toRat
        ≤ (⟨25000000000000000, 0⟩ : Decimal).toRat
    ∧ exactMonthlyPayment ((⟨125000000000000000, 0⟩ : Decimal).toRat
        - (⟨25000000000000000, 0⟩ : Decimal).toRat) (RateSalaryProgram.toRat) 1
      = 100666666666666667
    ∧ (⟨100666666666666670, 0⟩ : Decimal).toRat
      ≠ ((exactMonthlyPayment ((⟨125000000000000000, 0⟩ : Decimal).toRat
        - (⟨25000000000000000, 0⟩ : Decimal).toRat) (RateSalaryProgram.toRat) 1 : ℤ) : ℚ) := by
  have hexact : exactMonthlyPayment ((⟨125000000000000000, 0⟩ : Decimal).toRat
        - (⟨25000000000000000, 0⟩ : Decimal).toRat) (RateSalaryProgram.toRat) 1
      = 100666666666666667 := by
    unfold exactMonthlyPayment roundHalfAway
    norm_num [Decimal.toRat, RateSalaryProgram]
  refine ⟨by decide, by norm_num [Decimal.toRat], hexact, ?_⟩
  rw [hexact]
  norm_num [Decimal.toRat]

/-- C1, amended: for every request with a positive object cost, a positive number of
months below 134217728 (so that the exponents of the power fit an `int32`), a program
selected and an initial payment of at least 20% of the object cost, `Calculate` succeeds and the monthly payment is `S * c` rounded half away from zero to
zero fractional digits, where `S` is the object cost minus the initial payment and `c`
is the annuity factor in decimal arithmetic: the quotients `rate / 100`, `(rate / 100) / 12`
and `r * (1 + r) ^ n / ((1 + r) ^ n - 1)` are each rounded half away from zero to 16
fractional digits, the power, the products and the differences are exact. -/
theorem Calculate_monthlyPayment_decimal (req : ExecuteRequest) (baseTime now : Time)
    (hc : 0 < req.ObjectCost.toRat) (hm : 0 < req.Months) (hM : req.Months < 134217728)
    (hp : req.Program.Salary = true ∨ req.Program.Military = true ∨ req.Program.Base = true)
    (hi : 1 / 5 * req.ObjectCost.toRat ≤ req.InitialPayment.toRat) :
    ∃ agg, Calculate req baseTime now = some (agg, none)
      ∧ agg.MonthlyPayment.toRat
        = roundHalfAway ((req.ObjectCost.toRat - req.InitialPayment.toRat)
            * decimalAnnuityCoeff (getProgramRate req.Program).1.toRat req.Months.toNat) := by
  obtain ⟨c, hcv, hcalc⟩ := Calculate_of_accepted_in_range req baseTime now hc hm hM hp hi
  refine ⟨_, hcalc, ?_⟩
  obtain ⟨hexp, hval⟩ := Round_zero ((req.ObjectCost.Sub req.InitialPayment).Mul c)
  show (((req.ObjectCost.Sub req.InitialPayment).Mul c).Round 0).toRat = _
  rw [toRat_Mul, toRat_Sub, hcv] at hval
  rw [← hval]
  simp [Decimal.toRat, hexp]

/-- C1, amended, at the first reference request. -/
theorem Calculate_monthlyPayment_decimal_witness :
    (0 : ℚ) < (⟨5000000, 0⟩ : Decimal).toRat ∧ (0 : Int) < 240 ∧ (240 : Int) < 134217728
    ∧ (1 / 5 : ℚ) * (⟨5000000, 0⟩ : Decimal).toRat ≤ (⟨1000000, 0⟩ : Decimal).toRat
    ∧ ∃ agg, Calculate ⟨⟨5000000, 0⟩, ⟨1000000, 0⟩, 240, ⟨true, false, false⟩⟩
          referenceTime referenceTime = some (agg, none)
      ∧ agg.MonthlyPayment.toRat
        = roundHalfAway (((⟨5000000, 0⟩ : Decimal).toRat - (⟨1000000, 0⟩ : Decimal).toRat)
            * decimalAnnuityCoeff (getProgramRate ⟨true, false, false⟩).1.toRat
                (240 : Int).toNat) :=
  ⟨by norm_num [Decimal.toRat], by norm_num, by norm_num, by norm_num [Decimal.toRat],
    Calculate_monthlyPayment_decimal
      ⟨⟨5000000, 0⟩, ⟨1000000, 0⟩, 240, ⟨true, false, false⟩⟩ referenceTime referenceTime
      (by norm_num [Decimal.toRat]) (by norm_num) (by norm_num) (Or.inl rfl)
      (by norm_num [Decimal.toRat])⟩

set_option exponentiation.threshold 100000 in
set_option maxRecDepth 100000 in
/-- C2: `Calculate` succeeds on the three reference requests and returns the listed rate,
loan sum, monthly payment and overpayment (and the last payment date of the tests). -/
theorem Calculate_reference_requests (now : Time) :
    Calculate ⟨⟨5000000, 0⟩, ⟨1000000, 0⟩, 240, ⟨true, false, false⟩⟩ referenceTime now
        = some (⟨⟨8, 0⟩, ⟨4000000, 0⟩, ⟨33458, 0⟩, ⟨4029920, 0⟩, "2044-02-18"⟩, none)
    ∧ Calculate ⟨⟨8000000, 0⟩, ⟨2000000, 0⟩, 180, ⟨false, true, false⟩⟩ referenceTime now
        = some (⟨⟨9, 0⟩, ⟨6000000, 0⟩, ⟨60856, 0⟩, ⟨4954080, 0⟩, "2039-02-18"⟩, none)
    ∧ Calculate ⟨⟨3000000, 0⟩, ⟨1000000, 0⟩, 120, ⟨false, false, true⟩⟩ referenceTime now
        = some (⟨⟨1, 1⟩, ⟨2000000, 0⟩, ⟨26430, 0⟩, ⟨1171600, 0⟩, "2034-02-18"⟩, none)
    ∧ (⟨8, 0⟩ : Decimal).toRat = 8 ∧ (⟨9, 0⟩ : Decimal).toRat = 9
    ∧ (⟨1, 1⟩ : Decimal).toRat = 10 := by
  refine ⟨?_, ?_, ?_, by norm_num [Decimal.toRat], by norm_num [Decimal.toRat],
    by norm_num [Decimal.toRat]⟩
  all_goals rw [Calculate_of_base_time _ referenceTime now referenceTime rfl]
  all_goals decide

/-- C3: for every request with a positive object cost, a positive number of months and a
program selected, `Calculate` fails with `ErrInitialPaymentLow` when the initial payment
is below 20% of the object cost, whichever programs are selected, and it succeeds (so it
does not fail with that error) when the initial payment is at least 20%, the exact 20%
included. -/
theorem Calculate_initial_payment_floor (req : ExecuteRequest) (baseTime now : Time)
    (hc : 0 < req.ObjectCost.toRat) (hm : 0 < req.Months)
    (hp : req.Program.Salary = true ∨ req.Program.Military = true
      ∨ req.Program.Base = true) :
    (req.InitialPayment.toRat < 1 / 5 * req.ObjectCost.toRat →
        Calculate req baseTime now
          = some (Aggregates.zero, some Error.ErrInitialPaymentLow))
    ∧ (1 / 5 * req.ObjectCost.toRat ≤ req.InitialPayment.toRat →
        (∃ agg, Calculate req baseTime now = some (agg, none))
        ∧ ∀ agg, Calculate req baseTime now ≠ some (agg, some Error.ErrInitialPaymentLow)) := by
  refine ⟨fun hi => Calculate_of_low_payment req baseTime now hc hm hp hi, fun hi => ?_⟩
  obtain ⟨c, hcalc⟩ := Calculate_of_accepted req baseTime now hc hm hp hi
  refine ⟨⟨_, hcalc⟩, fun agg h => ?_⟩
  rw [hcalc] at h
  simp at h

/-- C3 at a request of the tests (an initial payment of 10%) and at the exact 20%. -/
theorem Calculate_initial_payment_floor_witness :
    ((0 : ℚ) < (⟨5000000, 0⟩ : Decimal).toRat ∧ (0 : Int) < 240
      ∧ (⟨500000, 0⟩ : Decimal).toRat < 1 / 5 * (⟨5000000, 0⟩ : Decimal).toRat)
    ∧ Calculate ⟨⟨5000000, 0⟩, ⟨500000, 0⟩, 240, ⟨true, false, false⟩⟩
        referenceTime referenceTime
      = some (Aggregates.zero, some Error.ErrInitialPaymentLow) :=
  ⟨⟨by norm_num [Decimal.toRat], by norm_num, by norm_num [Decimal.toRat]⟩,
    (Calculate_initial_payment_floor
      ⟨⟨5000000, 0⟩, ⟨500000, 0⟩, 240, ⟨true, false, false⟩⟩ referenceTime referenceTime
      (by norm_num [Decimal.toRat]) (by norm_num) (Or.inl rfl)).1
      (by norm_num [Decimal.toRat])⟩

/-- C4: for every request with an object cost that is not positive or a number of months
that is not positive, `Calculate` fails with the error of text "invalid params" and the
zero aggregates, whatever the program selection and the initial payment. -/
theorem Calculate_invalid_params (req : ExecuteRequest) (baseTime now : Time)
    (h : req.ObjectCost.toRat ≤ 0 ∨ req.Months ≤ 0) :
    Calculate req baseTime now = some (Aggregates.zero, some Error.invalidParams)
    ∧ Error.invalidParams.message = "invalid params"
    ∧ Aggregates.zero = ⟨⟨0, 0⟩, ⟨0, 0⟩, ⟨0, 0⟩, ⟨0, 0⟩, ""⟩ :=
  ⟨Calculate_of_invalid req baseTime now h, rfl, rfl⟩

/-- C4 at a request of the tests: a negative number of months, and no program selected and
an initial payment below 20%. -/
theorem Calculate_invalid_params_witness :
    ((⟨5000000, 0⟩ : Decimal).toRat ≤ 0 ∨ (-10 : Int) ≤ 0)
    ∧ Calculate ⟨⟨5000000, 0⟩, ⟨0, 0⟩, -10, ⟨false, false, false⟩⟩
        referenceTime referenceTime
      = some (Aggregates.zero, some Error.invalidParams) :=
  ⟨Or.inr (by norm_num),
    (Calculate_invalid_params ⟨⟨5000000, 0⟩, ⟨0, 0⟩, -10, ⟨false, false, false⟩⟩
      referenceTime referenceTime (Or.inr (by norm_num))).1⟩

/-- C5: for every request with a positive object cost and a positive number of months in
which no program is selected, `Calculate` fails with `ErrNoProgramSelected`, whatever the
initial payment (also one below 20% of the object cost). -/
theorem Calculate_no_program_selected (req : ExecuteRequest) (baseTime now : Time)
    (hc : 0 < req.ObjectCost.toRat) (hm : 0 < req.Months)
    (hp : req.Program.Salary = false ∧ req.Program.Military = false
      ∧ req.Program.Base = false) :
    Calculate req baseTime now
      = some (Aggregates.zero, some Error.ErrNoProgramSelected) :=
  Calculate_of_no_program req baseTime now hc hm hp

/-- C5 at a request with an initial payment of 10% of the object cost. -/
theorem Calculate_no_program_selected_witness :
    ((0 : ℚ) < (⟨5000000, 0⟩ : Decimal).toRat ∧ (0 : Int) < 240
      ∧ (⟨500000, 0⟩ : Decimal).toRat < 1 / 5 * (⟨5000000, 0⟩ : Decimal).toRat)
    ∧ Calculate ⟨⟨5000000, 0⟩, ⟨500000, 0⟩, 240, ⟨false, false, false⟩⟩
        referenceTime referenceTime
      = some (Aggregates.zero, some Error.ErrNoProgramSelected) :=
  ⟨⟨by norm_num [Decimal.toRat], by norm_num, by norm_num [Decimal.toRat]⟩,
    Calculate_no_program_selected
      ⟨⟨5000000, 0⟩, ⟨500000, 0⟩, 240, ⟨false, false, false⟩⟩ referenceTime referenceTime
      (by norm_num [Decimal.toRat]) (by norm_num) ⟨rfl, rfl, rfl⟩⟩

/-- C6, counterexample: with the salary and the military program both selected (object
cost 5000000, initial payment 1000000, 12 months), `Calculate` does not fail: it returns
the aggregates of the salary program, at the rate 8. -/
theorem Calculate_multiple_programs_succeeds :
    Calculate ⟨⟨5000000, 0⟩, ⟨1000000, 0⟩, 12, ⟨true, true, false⟩⟩
        referenceTime referenceTime
      = some (⟨⟨8, 0⟩, ⟨4000000, 0⟩, ⟨347954, 0⟩, ⟨175448, 0⟩, "2025-02-18"⟩, none)
    ∧ ∀ agg, Calculate ⟨⟨5000000, 0⟩, ⟨1000000, 0⟩, 12, ⟨true, true, false⟩⟩
        referenceTime referenceTime ≠ some (agg, some Error.ErrChooseMultiple) := by
  have h : Calculate ⟨⟨5000000, 0⟩, ⟨1000000, 0⟩, 12, ⟨true, true, false⟩⟩
        referenceTime referenceTime
      = some (⟨⟨8, 0⟩, ⟨4000000, 0⟩, ⟨347954, 0⟩, ⟨175448, 0⟩, "2025-02-18"⟩, none) := by
    decide
  refine ⟨h, fun agg h2 => ?_⟩
  rw [h] at h2
  simp at h2

/-- C6, amended: for every request with a positive object cost and a positive number of
months in which more than one program is selected, `validateProgramRequest`, which the
handler runs before `Calculate`, returns `ErrChooseMultiple`; `Calculate` itself never
returns that error: it fails with `ErrInitialPaymentLow` and the zero aggregates when the
initial payment is below 20% of the object cost, and otherwise it succeeds with the rate
of the first program selected in the order salary (8), military (9), base (10). -/
theorem Calculate_multiple_programs (req : ExecuteRequest) (baseTime now : Time)
    (hc : 0 < req.ObjectCost.toRat) (hm : 0 < req.Months)
    (hp : 2 ≤ req.Program.Salary.toNat + req.Program.Military.toNat
      + req.Program.Base.toNat) :
    validateProgramRequest req.Program = some Error.ErrChooseMultiple
    ∧ (∀ agg, Calculate req baseTime now ≠ some (agg, some Error.ErrChooseMultiple))
    ∧ (req.InitialPayment.toRat < 1 / 5 * req.ObjectCost.toRat →
        Calculate req baseTime now
          = some (Aggregates.zero, some Error.ErrInitialPaymentLow))
    ∧ (1 / 5 * req.ObjectCost.toRat ≤ req.InitialPayment.toRat →
        ∃ agg, Calculate req baseTime now = some (agg, none)
          ∧ agg.Rate = (if req.Program.Salary then ⟨8, 0⟩
              else if req.Program.Military then ⟨9, 0⟩ else ⟨10, 0⟩)) := by
  have hsel : req.Program.Salary = true ∨ req.Program.Military = true
      ∨ req.Program.Base = true := by
    rcases req with ⟨cost, initial, months, ⟨s, m, b⟩⟩
    cases s <;> cases m <;> cases b <;> simp_all
  have hlow := Calculate_of_low_payment req baseTime now hc hm hsel
  have hacc := Calculate_of_accepted req baseTime now hc hm hsel
  refine ⟨?_, ?_, hlow, ?_⟩
  · rcases req with ⟨cost, initial, months, ⟨s, m, b⟩⟩
    cases s <;> cases m <;> cases b <;> simp_all [validateProgramRequest]
  · intro agg h
    rcases lt_or_le req.InitialPayment.toRat (1 / 5 * req.ObjectCost.toRat) with hi | hi
    · rw [hlow hi] at h
      simp at h
    · obtain ⟨c, hcalc⟩ := hacc hi
      rw [hcalc] at h
      simp at h
  · intro hi
    obtain ⟨c, hcalc⟩ := hacc hi
    refine ⟨_, hcalc, ?_⟩
    show (getProgramRate req.Program).1 = _
    clear hcalc hacc hlow hsel hi hc hm
    rcases req with ⟨cost, initial, months, ⟨s, m, b⟩⟩
    cases s <;> cases m <;> cases b <;>
      simp_all [getProgramRate, RateSalaryProgram, RateMilitaryProgram]

/-- C6, amended, at the request of the handler test: salary and military selected. -/
theorem Calculate_multiple_programs_witness :
    ((0 : ℚ) < (⟨5000000, 0⟩ : Decimal).toRat ∧ (0 : Int) < 240
      ∧ 2 ≤ true.toNat + true.toNat + false.toNat)
    ∧ validateProgramRequest ⟨true, true, false⟩ = some Error.ErrChooseMultiple
    ∧ ∀ agg, Calculate ⟨⟨5000000, 0⟩, ⟨1000000, 0⟩, 240, ⟨true, true, false⟩⟩
        referenceTime referenceTime ≠ some (agg, some Error.ErrChooseMultiple) :=
  ⟨⟨by norm_num [Decimal.toRat], by norm_num, by decide⟩,
    (Calculate_multiple_programs
      ⟨⟨5000000, 0⟩, ⟨1000000, 0⟩, 240, ⟨true, true, false⟩⟩ referenceTime referenceTime
      (by norm_num [Decimal.toRat]) (by norm_num) (by decide)).1,
    (Calculate_multiple_programs
      ⟨⟨5000000, 0⟩, ⟨1000000, 0⟩, 240, ⟨true, true, false⟩⟩ referenceTime referenceTime
      (by norm_num [Decimal.toRat]) (by norm_num) (by decide)).2.1⟩

/-- C7: on each of the 8 selections, `validateProgramRequest` returns `ErrChooseNone`
exactly when no program is selected, `ErrChooseMultiple` exactly when two or more are,
and no error exactly when exactly one is. -/
theorem validateProgramRequest_cases (s m b : Bool) :
    (validateProgramRequest ⟨s, m, b⟩ = some Error.ErrChooseNone
        ↔ s.toNat + m.toNat + b.toNat = 0)
    ∧ (validateProgramRequest ⟨s, m, b⟩ = some Error.ErrChooseMultiple
        ↔ 2 ≤ s.toNat + m.toNat + b.toNat)
    ∧ (validateProgramRequest ⟨s, m, b⟩ = none ↔ s.toNat + m.toNat + b.toNat = 1) := by
  cases s <;> cases m <;> cases b <;> decide

/-- C8: for every accepted request (a positive object cost, a positive number of months,
an initial payment of at least 20% of the object cost) with exactly one program selected,
`Calculate` succeeds and the rate returned is 8 for the salary program, 9 for the
military program and 10 for the base program: the decimals `8`, `9` and `1 * 10 ^ 1` of
`decimal.NewFromFloat`. -/
theorem Calculate_rate (req : ExecuteRequest) (baseTime now : Time)
    (hc : 0 < req.ObjectCost.toRat) (hm : 0 < req.Months)
    (hp : req.Program.Salary.toNat + req.Program.Military.toNat
      + req.Program.Base.toNat = 1)
    (hi : 1 / 5 * req.ObjectCost.toRat ≤ req.InitialPayment.toRat) :
    ∃ agg, Calculate req baseTime now = some (agg, none)
      ∧ (req.Program.Salary = true → agg.Rate = ⟨8, 0⟩ ∧ agg.Rate.toRat = 8)
      ∧ (req.Program.Military = true → agg.Rate = ⟨9, 0⟩ ∧ agg.Rate.toRat = 9)
      ∧ (req.Program.Base = true → agg.Rate = ⟨1, 1⟩ ∧ agg.Rate.toRat = 10) := by
  have hsel : req.Program.Salary = true ∨ req.Program.Military = true
      ∨ req.Program.Base = true := by
    rcases req with ⟨cost, initial, months, ⟨s, m, b⟩⟩
    cases s <;> cases m <;> cases b <;> simp_all
  obtain ⟨c, hcalc⟩ := Calculate_of_accepted req baseTime now hc hm hsel hi
  refine ⟨_, hcalc, ?_⟩
  dsimp only
  clear hcalc hsel hc hi hm
  rcases req with ⟨cost, initial, months, ⟨s, m, b⟩⟩
  cases s <;> cases m <;> cases b <;>
    simp_all [getProgramRate, RateSalaryProgram, RateMilitaryProgram, RateBaseProgram,
      Decimal.toRat]

/-- C8 at the second reference request: the military program. -/
theorem Calculate_rate_witness :
    ((0 : ℚ) < (⟨8000000, 0⟩ : Decimal).toRat ∧ (0 : Int) < 180
      ∧ false.toNat + true.toNat + false.toNat = 1
      ∧ (1 / 5 : ℚ) * (⟨8000000, 0⟩ : Decimal).toRat ≤ (⟨2000000, 0⟩ : Decimal).toRat)
    ∧ ∃ agg, Calculate ⟨⟨8000000, 0⟩, ⟨2000000, 0⟩, 180, ⟨false, true, false⟩⟩
          referenceTime referenceTime = some (agg, none)
        ∧ (true = true → agg.Rate = ⟨9, 0⟩ ∧ agg.Rate.toRat = 9) := by
  refine ⟨⟨by norm_num [Decimal.toRat], by norm_num, by decide,
    by norm_num [Decimal.toRat]⟩, ?_⟩
  obtain ⟨agg, h1, -, h2, -⟩ := Calculate_rate
    ⟨⟨8000000, 0⟩, ⟨2000000, 0⟩, 180, ⟨false, true, false⟩⟩ referenceTime referenceTime
    (by norm_num [Decimal.toRat]) (by norm_num) (by decide) (by norm_num [Decimal.toRat])
  exact ⟨agg, h1, h2⟩

/-- C9: for every accepted request (a positive object cost, a positive number of months,
a program selected, an initial payment of at least 20% of the object cost), `Calculate`
succeeds and the loan sum returned is exactly the object cost minus the initial payment. -/
theorem Calculate_loanSum (req : ExecuteRequest) (baseTime now : Time)
    (hc : 0 < req.ObjectCost.toRat) (hm : 0 < req.Months)
    (hp : req.Program.Salary = true ∨ req.Program.Military = true ∨ req.Program.Base = true)
    (hi : 1 / 5 * req.ObjectCost.toRat ≤ req.InitialPayment.toRat) :
    ∃ agg, Calculate req baseTime now = some (agg, none)
      ∧ agg.LoanSum.toRat = req.ObjectCost.toRat - req.InitialPayment.toRat := by
  obtain ⟨c, hcalc⟩ := Calculate_of_accepted req baseTime now hc hm hp hi
  exact ⟨_, hcalc, toRat_Sub _ _⟩

/-- C9 at a request with an object cost and an initial payment that are not whole:
5000000.1 and 1000000.33. -/
theorem Calculate_loanSum_witness :
    ((0 : ℚ) < (⟨50000001, -1⟩ : Decimal).toRat ∧ (0 : Int) < 12
      ∧ (1 / 5 : ℚ) * (⟨50000001, -1⟩ : Decimal).toRat ≤ (⟨100000033, -2⟩ : Decimal).toRat)
    ∧ ∃ agg, Calculate ⟨⟨50000001, -1⟩, ⟨100000033, -2⟩, 12, ⟨false, false, true⟩⟩
          referenceTime referenceTime = some (agg, none)
        ∧ agg.LoanSum.toRat
          = (⟨50000001, -1⟩ : Decimal).toRat - (⟨100000033, -2⟩ : Decimal).toRat :=
  ⟨⟨by norm_num [Decimal.toRat], by norm_num, by norm_num [Decimal.toRat]⟩,
    Calculate_loanSum
      ⟨⟨50000001, -1⟩, ⟨100000033, -2⟩, 12, ⟨false, false, true⟩⟩ referenceTime referenceTime
      (by norm_num [Decimal.toRat]) (by norm_num) (Or.inr (Or.inr rfl))
      (by norm_num [Decimal.toRat])⟩

/-- C10: for every accepted request (a positive object cost, a positive number of months,
a program selected, an initial payment of at least 20% of the object cost; the object cost
and the initial payment need not be whole), `Calculate` succeeds and the monthly payment
and the overpayment returned have zero fractional digits: their exponent is 0 and each is
a whole number. -/
theorem Calculate_whole_amounts (req : ExecuteRequest) (baseTime now : Time)
    (hc : 0 < req.ObjectCost.toRat) (hm : 0 < req.Months)
    (hp : req.Program.Salary = true ∨ req.Program.Military = true ∨ req.Program.Base = true)
    (hi : 1 / 5 * req.ObjectCost.toRat ≤ req.InitialPayment.toRat) :
    ∃ agg, Calculate req baseTime now = some (agg, none)
      ∧ agg.MonthlyPayment.exp = 0 ∧ agg.Overpayment.exp = 0
      ∧ agg.MonthlyPayment.toRat = (agg.MonthlyPayment.value : ℚ)
      ∧ agg.Overpayment.toRat = (agg.Overpayment.value : ℚ) := by
  obtain ⟨c, hcalc⟩ := Calculate_of_accepted req baseTime now hc hm hp hi
  have h1 := (Round_zero ((req.ObjectCost.Sub req.InitialPayment).Mul c)).1
  have h2 := (Round_zero (((((req.ObjectCost.Sub req.InitialPayment).Mul c).Round 0).Mul
    (NewFromInt req.Months)).Sub (req.ObjectCost.Sub req.InitialPayment))).1
  refine ⟨_, hcalc, h1, h2, ?_, ?_⟩
  · simp [Decimal.toRat, h1]
  · simp [Decimal.toRat, h2]

/-- C10 at a request with an object cost and an initial payment that are not whole:
5000000.1 and 1000000.33. -/
theorem Calculate_whole_amounts_witness :
    ((0 : ℚ) < (⟨50000001, -1⟩ : Decimal).toRat ∧ (0 : Int) < 12
      ∧ (1 / 5 : ℚ) * (⟨50000001, -1⟩ : Decimal).toRat ≤ (⟨100000033, -2⟩ : Decimal).toRat)
    ∧ ∃ agg, Calculate ⟨⟨50000001, -1⟩, ⟨100000033, -2⟩, 12, ⟨false, false, true⟩⟩
          referenceTime referenceTime = some (agg, none)
        ∧ agg.MonthlyPayment.exp = 0 ∧ agg.Overpayment.exp = 0
        ∧ agg.MonthlyPayment.toRat = (agg.MonthlyPayment.value : ℚ)
        ∧ agg.Overpayment.toRat = (agg.Overpayment.value : ℚ) :=
  ⟨⟨by norm_num [Decimal.toRat], by norm_num, by norm_num [Decimal.toRat]⟩,
    Calculate_whole_amounts
      ⟨⟨50000001, -1⟩, ⟨100000033, -2⟩, 12, ⟨false, false, true⟩⟩ referenceTime referenceTime
      (by norm_num [Decimal.toRat]) (by norm_num) (Or.inr (Or.inr rfl))
      (by norm_num [Decimal.toRat])⟩

/-- C11: for every accepted request (a positive object cost, a positive number of months,
a program selected, an initial payment of at least 20% of the object cost), `Calculate`
succeeds and the overpayment returned is the monthly payment returned, which is rounded,
times the number of months minus the loan sum, rounded half away from zero to zero
fractional digits; so the overpayment differs from that difference by at most 1 (by at
most a half). -/
theorem Calculate_overpayment (req : ExecuteRequest) (baseTime now : Time)
    (hc : 0 < req.ObjectCost.toRat) (hm : 0 < req.Months)
    (hp : req.Program.Salary = true ∨ req.Program.Military = true ∨ req.Program.Base = true)
    (hi : 1 / 5 * req.ObjectCost.toRat ≤ req.InitialPayment.toRat) :
    ∃ agg, Calculate req baseTime now = some (agg, none)
      ∧ agg.Overpayment.toRat
        = roundHalfAway (agg.MonthlyPayment.toRat * req.Months - agg.LoanSum.toRat)
      ∧ |agg.Overpayment.toRat - (agg.MonthlyPayment.toRat * req.Months - agg.LoanSum.toRat)|
        ≤ 1
      ∧ |agg.Overpayment.toRat - (agg.MonthlyPayment.toRat * req.Months - agg.LoanSum.toRat)|
        ≤ 1 / 2 := by
  obtain ⟨c, hcalc⟩ := Calculate_of_accepted req baseTime now hc hm hp hi
  refine ⟨_, hcalc, ?_⟩
  dsimp only
  have hov : ((((((req.ObjectCost.Sub req.InitialPayment).Mul c).Round 0).Mul
      (NewFromInt req.Months)).Sub (req.ObjectCost.Sub req.InitialPayment)).Round 0).toRat
      = roundHalfAway ((((req.ObjectCost.Sub req.InitialPayment).Mul c).Round 0).toRat
          * req.Months - (req.ObjectCost.Sub req.InitialPayment).toRat) := by
    rw [toRat_Round_zero, toRat_Sub, toRat_Mul, toRat_NewFromInt]
  have hhalf := roundHalfAway_sub_abs_le
    ((((req.ObjectCost.Sub req.InitialPayment).Mul c).Round 0).toRat
      * req.Months - (req.ObjectCost.Sub req.InitialPayment).toRat)
  rw [hov]
  exact ⟨rfl, by linarith, hhalf⟩

/-- C11 at the request of the rounding test. -/
theorem Calculate_overpayment_witness :
    ((0 : ℚ) < (⟨5123456, 0⟩ : Decimal).toRat ∧ (0 : Int) < 137
      ∧ (1 / 5 : ℚ) * (⟨5123456, 0⟩ : Decimal).toRat ≤ (⟨1123456, 0⟩ : Decimal).toRat)
    ∧ ∃ agg, Calculate ⟨⟨5123456, 0⟩, ⟨1123456, 0⟩, 137, ⟨true, false, false⟩⟩
          referenceTime referenceTime = some (agg, none)
        ∧ agg.Overpayment.toRat
          = roundHalfAway (agg.MonthlyPayment.toRat * (137 : Int) - agg.LoanSum.toRat)
        ∧ |agg.Overpayment.toRat
            - (agg.MonthlyPayment.toRat * (137 : Int) - agg.LoanSum.toRat)| ≤ 1
        ∧ |agg.Overpayment.toRat
            - (agg.MonthlyPayment.toRat * (137 : Int) - agg.LoanSum.toRat)| ≤ 1 / 2 :=
  ⟨⟨by norm_num [Decimal.toRat], by norm_num, by norm_num [Decimal.toRat]⟩,
    Calculate_overpayment
      ⟨⟨5123456, 0⟩, ⟨1123456, 0⟩, 137, ⟨true, false, false⟩⟩ referenceTime referenceTime
      (by norm_num [Decimal.toRat]) (by norm_num) (Or.inl rfl) (by norm_num [Decimal.toRat])⟩

set_option exponentiation.threshold 100000 in
set_option maxRecDepth 100000 in
/-- C12, counterexample: at the first reference request (object cost 5000000, initial
payment 1000000, 240 months, salary) `Calculate` returns the overpayment 4029920, which
is more than 1 away (more than 95 away) from the overpayment `S * factor * n - S` of a
monthly payment that is not rounded, with the annuity factor in exact arithmetic as with
the annuity factor in decimal arithmetic. -/
theorem Calculate_overpayment_not_ideal :
    Calculate ⟨⟨5000000, 0⟩, ⟨1000000, 0⟩, 240, ⟨true, false, false⟩⟩
        referenceTime referenceTime
      = some (⟨⟨8, 0⟩, ⟨4000000, 0⟩, ⟨33458, 0⟩, ⟨4029920, 0⟩, "2044-02-18"⟩, none)
    ∧ (⟨4029920, 0⟩ : Decimal).toRat = 4029920
    ∧ (⟨5000000, 0⟩ : Decimal).toRat - (⟨1000000, 0⟩ : Decimal).toRat = 4000000
    ∧ 95 < |(4029920 : ℚ) - idealOverpayment 4000000 (exactAnnuityFactor 8 240) 240|
    ∧ 95 < |(4029920 : ℚ) - idealOverpayment 4000000 (decimalAnnuityCoeff 8 240) 240| := by
  refine ⟨by decide, by norm_num [Decimal.toRat], by norm_num [Decimal.toRat], ?_, ?_⟩
  · unfold idealOverpayment exactAnnuityFactor
    rw [lt_abs]
    left
    norm_num
  · rw [decimalAnnuityCoeff_salary_240]
    unfold idealOverpayment Decimal.toRat
    rw [lt_abs]
    left
    norm_num

/-- C12, amended: for every accepted request (a positive object cost, a positive number
of months `n`, a program selected, an initial payment of at least 20% of the object cost)
over fewer than 134217728 months (so that the exponents of the power fit an `int32`),
`Calculate` succeeds and the overpayment returned differs from `S * c * n - S`, the
overpayment of a monthly payment that is not rounded, by at most `n / 2 + 1 / 2`: a half
for each month, from the rounding of the monthly payment, and a half from the rounding
of the overpayment.  `S` is the object cost minus the initial payment and `c` is the
annuity factor in decimal arithmetic. -/
theorem Calculate_overpayment_ideal (req : ExecuteRequest) (baseTime now : Time)
    (hc : 0 < req.ObjectCost.toRat) (hm : 0 < req.Months) (hM : req.Months < 134217728)
    (hp : req.Program.Salary = true ∨ req.Program.Military = true ∨ req.Program.Base = true)
    (hi : 1 / 5 * req.ObjectCost.toRat ≤ req.InitialPayment.toRat) :
    ∃ agg, Calculate req baseTime now = some (agg, none)
      ∧ |agg.Overpayment.toRat
          - idealOverpayment (req.ObjectCost.toRat - req.InitialPayment.toRat)
              (decimalAnnuityCoeff (getProgramRate req.Program).1.toRat req.Months.toNat)
              req.Months.toNat|
        ≤ (req.Months.toNat : ℚ) / 2 + 1 / 2 := by
  obtain ⟨c, hcv, hcalc⟩ := Calculate_of_accepted_in_range req baseTime now hc hm hM hp hi
  refine ⟨_, hcalc, ?_⟩
  dsimp only
  rw [← hcv]
  have hn : ((req.Months.toNat : ℕ) : ℚ) = ((req.Months : ℤ) : ℚ) := by
    have : ((req.Months.toNat : ℕ) : ℤ) = req.Months := Int.toNat_of_nonneg hm.le
    exact_mod_cast this
  have hn0 : (0 : ℚ) ≤ ((req.Months : ℤ) : ℚ) := by exact_mod_cast hm.le
  have h1 := roundHalfAway_sub_abs_le
    ((req.ObjectCost.toRat - req.InitialPayment.toRat) * c.toRat)
  have h2 := roundHalfAway_sub_abs_le
    ((roundHalfAway ((req.ObjectCost.toRat - req.InitialPayment.toRat) * c.toRat) : ℚ)
      * req.Months - (req.ObjectCost.toRat - req.InitialPayment.toRat))
  rw [toRat_Round_zero, toRat_Sub, toRat_Mul, toRat_NewFromInt, toRat_Round_zero, toRat_Mul,
    toRat_Sub]
  unfold idealOverpayment
  simp only [hn]
  rw [abs_le] at h1 h2 ⊢
  obtain ⟨h1a, h1b⟩ := h1
  obtain ⟨h2a, h2b⟩ := h2
  have h3a := mul_le_mul_of_nonneg_right h1a hn0
  have h3b := mul_le_mul_of_nonneg_right h1b hn0
  constructor
  · linarith
  · linarith

/-- C12, amended, at the first reference request. -/
theorem Calculate_overpayment_ideal_witness :
    ((0 : ℚ) < (⟨5000000, 0⟩ : Decimal).toRat ∧ (0 : Int) < 240 ∧ (240 : Int) < 134217728
      ∧ (1 / 5 : ℚ) * (⟨5000000, 0⟩ : Decimal).toRat ≤ (⟨1000000, 0⟩ : Decimal).toRat)
    ∧ ∃ agg, Calculate ⟨⟨5000000, 0⟩, ⟨1000000, 0⟩, 240, ⟨true, false, false⟩⟩
          referenceTime referenceTime = some (agg, none)
        ∧ |agg.Overpayment.toRat
            - idealOverpayment ((⟨5000000, 0⟩ : Decimal).toRat - (⟨1000000, 0⟩ : Decimal).toRat)
                (decimalAnnuityCoeff (getProgramRate ⟨true, false, false⟩).1.toRat
                  (240 : Int).toNat) (240 : Int).toNat|
          ≤ (((240 : Int).toNat : ℕ) : ℚ) / 2 + 1 / 2 :=
  ⟨⟨by norm_num [Decimal.toRat], by norm_num, by norm_num, by norm_num [Decimal.toRat]⟩,
    Calculate_overpayment_ideal
      ⟨⟨5000000, 0⟩, ⟨1000000, 0⟩, 240, ⟨true, false, false⟩⟩ referenceTime referenceTime
      (by norm_num [Decimal.toRat]) (by norm_num) (by norm_num) (Or.inl rfl)
      (by norm_num [Decimal.toRat])⟩

/-- C13, counterexample: from January 31 of 2024, one month on, `Calculate` returns the
last payment date "2024-03-02" (there is no February 31: the days beyond the end of
February are carried into March), not a date with the day 31; and from June 15 of 9999,
twelve months on, it returns "10000-06-15", with a year of five digits. -/
theorem Calculate_lastPaymentDate_overflow :
    Time.IsZero ⟨2024, 1, 31, 12, 0, 0, 0, 0⟩ = false
    ∧ Calculate ⟨⟨5000000, 0⟩, ⟨1000000, 0⟩, 1, ⟨true, false, false⟩⟩
        ⟨2024, 1, 31, 12, 0, 0, 0, 0⟩ referenceTime
      = some (⟨⟨8, 0⟩, ⟨4000000, 0⟩, ⟨4026667, 0⟩, ⟨26667, 0⟩, "2024-03-02"⟩, none)
    ∧ "2024-03-02" ≠ isoDate 2024 2 31
    ∧ Time.IsZero ⟨9999, 6, 15, 12, 0, 0, 0, 0⟩ = false
    ∧ Calculate ⟨⟨5000000, 0⟩, ⟨1000000, 0⟩, 12, ⟨true, false, false⟩⟩
        ⟨9999, 6, 15, 12, 0, 0, 0, 0⟩ referenceTime
      = some (⟨⟨8, 0⟩, ⟨4000000, 0⟩, ⟨347954, 0⟩, ⟨175448, 0⟩, "10000-06-15"⟩, none)
    ∧ ("10000-06-15" : String).length ≠ 10 := by
  decide

/-- C13, amended: for every accepted request (a positive object cost, a positive number
of months, a program selected, an initial payment of at least 20% of the object cost)
and every reference time, in a location with a fixed offset from UTC, that is not the
zero time and reads a date of the calendar, if the year of the month that lies `Months`
months later is from 0 to 9999, then `Calculate` succeeds and the last payment date,
rendered as `YYYY-MM-DD` with four, two and two digits, is: that year, that month and the
day of the reference time, if that month has this day (every day up to 28 is in every
month); and otherwise that year, the month after it (which is in the same year) and the
day less the length of the month reached, a day from 1 to 3. -/
theorem Calculate_lastPaymentDate (req : ExecuteRequest) (baseTime now : Time)
    (hc : 0 < req.ObjectCost.toRat) (hm : 0 < req.Months)
    (hp : req.Program.Salary = true ∨ req.Program.Military = true ∨ req.Program.Base = true)
    (hi : 1 / 5 * req.ObjectCost.toRat ≤ req.InitialPayment.toRat)
    (hz : baseTime.IsZero = false) (hv : baseTime.validDate)
    (hy0 : 0 ≤ baseTime.targetYear req.Months) (hy1 : baseTime.targetYear req.Months ≤ 9999) :
    ∃ agg, Calculate req baseTime now = some (agg, none)
      ∧ (baseTime.day ≤ Time.daysIn (baseTime.targetYear req.Months)
            (baseTime.targetMonth req.Months) →
          agg.LastPaymentDate
            = isoDate (baseTime.targetYear req.Months).toNat (baseTime.targetMonth req.Months)
                baseTime.day)
      ∧ (Time.daysIn (baseTime.targetYear req.Months) (baseTime.targetMonth req.Months)
            < baseTime.day →
          agg.LastPaymentDate
            = isoDate (baseTime.targetYear req.Months).toNat
                (baseTime.targetMonth req.Months + 1)
                (baseTime.day - Time.daysIn (baseTime.targetYear req.Months)
                  (baseTime.targetMonth req.Months))
          ∧ baseTime.targetMonth req.Months + 1 ≤ 12
          ∧ 1 ≤ baseTime.day - Time.daysIn (baseTime.targetYear req.Months)
              (baseTime.targetMonth req.Months)
          ∧ baseTime.day - Time.daysIn (baseTime.targetYear req.Months)
              (baseTime.targetMonth req.Months) ≤ 3)
      ∧ 1 ≤ baseTime.targetMonth req.Months ∧ baseTime.targetMonth req.Months ≤ 12
      ∧ (baseTime.day ≤ 28 →
          baseTime.day ≤ Time.daysIn (baseTime.targetYear req.Months)
            (baseTime.targetMonth req.Months)) := by
  obtain ⟨c, hcalc⟩ := Calculate_of_accepted req baseTime now hc hm hp hi
  have hday : baseTime.day ≤ 31 :=
    le_trans hv.2.2.2 (daysIn_le baseTime.year baseTime.month)
  refine ⟨_, hcalc, ?_, ?_, ?_, ?_, ?_⟩
  · intro hd
    dsimp only
    rw [hz]
    simp only [Bool.false_eq_true, if_false]
    exact Format_AddMonths baseTime req.Months hy0 hy1 hd
  · intro hd
    dsimp only
    rw [hz]
    simp only [Bool.false_eq_true, if_false]
    exact Format_AddMonths_carry baseTime req.Months hy0 hy1 hday hd
  · unfold Time.targetMonth; omega
  · unfold Time.targetMonth; omega
  · intro h28
    have := le_daysIn (baseTime.targetYear req.Months) (baseTime.targetMonth req.Months)
    omega

/-- C13, amended, at the first reference request, where February 18 of 2024 and 240
months give "2044-02-18", and at January 31 of 2024 and one month, where the day 31,
which February does not have, is carried into March: "2024-03-02". -/
theorem Calculate_lastPaymentDate_witness :
    ((0 : ℚ) < (⟨5000000, 0⟩ : Decimal).toRat ∧ (0 : Int) < 240
      ∧ (1 / 5 : ℚ) * (⟨5000000, 0⟩ : Decimal).toRat ≤ (⟨1000000, 0⟩ : Decimal).toRat
      ∧ referenceTime.IsZero = false ∧ referenceTime.validDate
      ∧ 0 ≤ referenceTime.targetYear 240 ∧ referenceTime.targetYear 240 ≤ 9999
      ∧ referenceTime.day ≤ Time.daysIn (referenceTime.targetYear 240)
          (referenceTime.targetMonth 240))
    ∧ isoDate (referenceTime.targetYear 240).toNat (referenceTime.targetMonth 240)
        referenceTime.day = "2044-02-18"
    ∧ (∃ agg, Calculate ⟨⟨5000000, 0⟩, ⟨1000000, 0⟩, 240, ⟨true, false, false⟩⟩
          referenceTime referenceTime = some (agg, none)
        ∧ agg.LastPaymentDate
          = isoDate (referenceTime.targetYear 240).toNat (referenceTime.targetMonth 240)
              referenceTime.day)
    ∧ isoDate ((⟨2024, 1, 31, 12, 0, 0, 0, 0⟩ : Time).targetYear 1).toNat
        ((⟨2024, 1, 31, 12, 0, 0, 0, 0⟩ : Time).targetMonth 1 + 1)
        (31 - Time.daysIn ((⟨2024, 1, 31, 12, 0, 0, 0, 0⟩ : Time).targetYear 1)
          ((⟨2024, 1, 31, 12, 0, 0, 0, 0⟩ : Time).targetMonth 1)) = "2024-03-02"
    ∧ ∃ agg, Calculate ⟨⟨5000000, 0⟩, ⟨1000000, 0⟩, 1, ⟨true, false, false⟩⟩
          ⟨2024, 1, 31, 12, 0, 0, 0, 0⟩ referenceTime = some (agg, none)
        ∧ agg.LastPaymentDate
          = isoDate ((⟨2024, 1, 31, 12, 0, 0, 0, 0⟩ : Time).targetYear 1).toNat
              ((⟨2024, 1, 31, 12, 0, 0, 0, 0⟩ : Time).targetMonth 1 + 1)
              (31 - Time.daysIn ((⟨2024, 1, 31, 12, 0, 0, 0, 0⟩ : Time).targetYear 1)
                ((⟨2024, 1, 31, 12, 0, 0, 0, 0⟩ : Time).targetMonth 1)) := by
  refine ⟨⟨by norm_num [Decimal.toRat], by norm_num, by norm_num [Decimal.toRat], by decide,
    by decide, by decide, by decide, by decide⟩, by decide, ?_, by decide, ?_⟩
  · obtain ⟨agg, h1, h2, -⟩ := Calculate_lastPaymentDate
      ⟨⟨5000000, 0⟩, ⟨1000000, 0⟩, 240, ⟨true, false, false⟩⟩ referenceTime referenceTime
      (by norm_num [Decimal.toRat]) (by norm_num) (Or.inl rfl) (by norm_num [Decimal.toRat])
      (by decide) (by decide) (by decide) (by decide)
    exact ⟨agg, h1, h2 (by decide)⟩
  · obtain ⟨agg, h1, -, h3, -⟩ := Calculate_lastPaymentDate
      ⟨⟨5000000, 0⟩, ⟨1000000, 0⟩, 1, ⟨true, false, false⟩⟩
      ⟨2024, 1, 31, 12, 0, 0, 0, 0⟩ referenceTime
      (by norm_num [Decimal.toRat]) (by norm_num) (Or.inl rfl) (by norm_num [Decimal.toRat])
      (by decide) (by decide) (by decide) (by decide)
    exact ⟨agg, h1, (h3 (by decide)).1⟩

/-- C14, counterexample: with the zero reference time, the same request (object cost
5000000, initial payment 1000000, 12 months, salary) gives the last payment date
"2025-02-18" when the wall clock reads February 18 of 2024 and "2026-05-11" when it reads
May 11 of 2025.  The zero time is an instant: read one hour east of UTC it is January 1
of year 1, 01:00:00, and `Calculate` takes the wall clock there as well, and not at
00:00:00 of that day in that location. -/
theorem Calculate_reads_wall_clock :
    Time.zero.IsZero = true
    ∧ Time.IsZero ⟨1, 1, 1, 1, 0, 0, 0, 3600⟩ = true
    ∧ Time.IsZero ⟨1, 1, 1, 0, 0, 0, 0, 3600⟩ = false
    ∧ Calculate ⟨⟨5000000, 0⟩, ⟨1000000, 0⟩, 12, ⟨true, false, false⟩⟩
        ⟨1, 1, 1, 1, 0, 0, 0, 3600⟩ ⟨2024, 2, 18, 12, 0, 0, 0, 0⟩
      ≠ Calculate ⟨⟨5000000, 0⟩, ⟨1000000, 0⟩, 12, ⟨true, false, false⟩⟩
        ⟨1, 1, 1, 1, 0, 0, 0, 3600⟩ ⟨2025, 5, 11, 12, 0, 0, 0, 0⟩
    ∧ Calculate ⟨⟨5000000, 0⟩, ⟨1000000, 0⟩, 12, ⟨true, false, false⟩⟩ Time.zero
        ⟨2024, 2, 18, 12, 0, 0, 0, 0⟩
      = some (⟨⟨8, 0⟩, ⟨4000000, 0⟩, ⟨347954, 0⟩, ⟨175448, 0⟩, "2025-02-18"⟩, none)
    ∧ Calculate ⟨⟨5000000, 0⟩, ⟨1000000, 0⟩, 12, ⟨true, false, false⟩⟩ Time.zero
        ⟨2025, 5, 11, 12, 0, 0, 0, 0⟩
      = some (⟨⟨8, 0⟩, ⟨4000000, 0⟩, ⟨347954, 0⟩, ⟨175448, 0⟩, "2026-05-11"⟩, none)
    ∧ Calculate ⟨⟨5000000, 0⟩, ⟨1000000, 0⟩, 12, ⟨true, false, false⟩⟩ Time.zero
        ⟨2024, 2, 18, 12, 0, 0, 0, 0⟩
      ≠ Calculate ⟨⟨5000000, 0⟩, ⟨1000000, 0⟩, 12, ⟨true, false, false⟩⟩ Time.zero
        ⟨2025, 5, 11, 12, 0, 0, 0, 0⟩ := by
  decide

/-- C14, amended: for every request and every reference time that is not the zero time
(the instant January 1 of year 1, 00:00:00 UTC, in whatever location it is read), two
calls of `Calculate` return the same aggregates and the same error outcome, whatever
the wall clock reads; with the zero reference time the rate, the loan sum, the monthly
payment, the overpayment and the error outcome are the same as well, and only the last
payment date, which is then counted from the wall clock, may differ. -/
theorem Calculate_wall_clock (req : ExecuteRequest) (baseTime now1 now2 : Time) :
    (baseTime.IsZero = false → Calculate req baseTime now1 = Calculate req baseTime now2)
    ∧ amountsOf (Calculate req baseTime now1) = amountsOf (Calculate req baseTime now2) := by
  refine ⟨fun h => Calculate_of_base_time req baseTime now1 now2 h, ?_⟩
  cases hz : baseTime.IsZero with
  | false => rw [Calculate_of_base_time req baseTime now1 now2 hz]
  | true =>
    unfold Calculate amountsOf
    by_cases h1 : (req.ObjectCost.LessThanOrEqual DecimalZero || decide (req.Months ≤ 0)) = true
    · simp only [if_pos h1]
    · simp only [if_neg h1]
      generalize getProgramRate req.Program = pr
      rcases pr with ⟨rate, _ | err⟩
      · simp only []
        by_cases h2 : req.InitialPayment.LessThan
            (req.ObjectCost.Mul MinInitialPaymentPercent) = true
        · simp only [if_pos h2]
        · simp only [if_neg h2]
          cases (rate.Div DecimalHundred) with
          | none => rfl
          | some q =>
            simp only [Option.some_bind]
            cases (q.Div DecimalTwelve) with
            | none => rfl
            | some mr =>
              simp only [Option.some_bind]
              cases ((mr.Mul ((DecimalOne.Add mr).Pow (NewFromInt req.Months))).Div
                  (((DecimalOne.Add mr).Pow (NewFromInt req.Months)).Sub DecimalOne)) with
              | none => rfl
              | some c => rfl
      · rfl

/-- C14, amended, at the first reference request and the times of the tests. -/
theorem Calculate_wall_clock_witness :
    referenceTime.IsZero = false
    ∧ Calculate ⟨⟨5000000, 0⟩, ⟨1000000, 0⟩, 240, ⟨true, false, false⟩⟩ referenceTime
        ⟨2024, 2, 18, 12, 0, 0, 0, 0⟩
      = Calculate ⟨⟨5000000, 0⟩, ⟨1000000, 0⟩, 240, ⟨true, false, false⟩⟩ referenceTime
        ⟨2025, 5, 11, 12, 0, 0, 0, 0⟩ :=
  ⟨rfl,
    (Calculate_wall_clock ⟨⟨5000000, 0⟩, ⟨1000000, 0⟩, 240, ⟨true, false, false⟩⟩
      referenceTime ⟨2024, 2, 18, 12, 0, 0, 0, 0⟩ ⟨2025, 5, 11, 12, 0, 0, 0, 0⟩).1 rfl⟩

/-- C15: on a new cache, `N` successive `Save` calls (`1 ≤ N < 2^31`) return `0, 1, ...,
N - 1` in this order; afterwards `Size` is `N` and `GetAll` returns, without an error,
exactly `N` items, whose identifiers are pairwise distinct and form the set
`{0, ..., N - 1}`. -/
theorem NewMortCache_successive_saves (resps : List ExecuteResponse)
    (h1 : 1 ≤ resps.length) (h2 : resps.length < 2147483648) :
    (NewMortCache.SaveAll resps).1 = (List.range resps.length).map (fun (j : Nat) => (j : Int))
    ∧ (NewMortCache.SaveAll resps).2.Size = (resps.length : Int)
    ∧ ∃ items, (NewMortCache.SaveAll resps).2.GetAll = (items, none)
        ∧ items.length = resps.length
        ∧ (items.map CachedItem.ID).Nodup
        ∧ ∀ i : Int, i ∈ items.map CachedItem.ID ↔ 0 ≤ i ∧ i < (resps.length : Int) := by
  obtain ⟨hids, hitems, -⟩ := SaveAll_of_counter resps NewMortCache 0 (by simp [NewMortCache])
    (by omega) (by simp [NewMortCache])
  simp only [Nat.zero_add] at hids hitems
  have hitems' : (NewMortCache.SaveAll resps).2.items
      = (List.zip ((List.range resps.length).map (fun (j : Nat) => (j : Int))) resps).reverse := by
    rw [hitems]; simp [NewMortCache]
  have hlen : (NewMortCache.SaveAll resps).2.items.length = resps.length := by
    rw [hitems']; simp
  have hkeys : (NewMortCache.SaveAll resps).2.items.map Prod.fst
      = ((List.range resps.length).map (fun (j : Nat) => (j : Int))).reverse := by
    rw [hitems', List.map_reverse, List.map_fst_zip]
    simp
  refine ⟨hids, ?_, ?_⟩
  · simp [MortCache.Size, hlen]
  · refine ⟨(NewMortCache.SaveAll resps).2.items.map
      (fun entry => (⟨entry.1, entry.2⟩ : CachedItem)), ?_, ?_, ?_, ?_⟩
    · unfold MortCache.GetAll
      rw [if_neg (by omega)]
    · simp [hlen]
    · have : ((NewMortCache.SaveAll resps).2.items.map
          (fun entry => (⟨entry.1, entry.2⟩ : CachedItem))).map CachedItem.ID
          = (NewMortCache.SaveAll resps).2.items.map Prod.fst := by
        rw [List.map_map]; rfl
      rw [this, hkeys, List.nodup_reverse]
      have := nodup_map_range_add 0 resps.length
      simpa using this
    · intro i
      have : ((NewMortCache.SaveAll resps).2.items.map
          (fun entry => (⟨entry.1, entry.2⟩ : CachedItem))).map CachedItem.ID
          = (NewMortCache.SaveAll resps).2.items.map Prod.fst := by
        rw [List.map_map]; rfl
      rw [this, hkeys, List.mem_reverse]
      have := mem_map_range_add 0 resps.length i
      simpa using this

/-- C15 at three saves of the response of the tests. -/
theorem NewMortCache_successive_saves_witness :
    (1 ≤ [sampleResponse, sampleResponse, sampleResponse].length
      ∧ [sampleResponse, sampleResponse, sampleResponse].length < 2147483648)
    ∧ (NewMortCache.SaveAll [sampleResponse, sampleResponse, sampleResponse]).1
        = (List.range [sampleResponse, sampleResponse, sampleResponse].length).map
            (fun (j : Nat) => (j : Int)) :=
  ⟨⟨by decide, by decide⟩,
    (NewMortCache_successive_saves [sampleResponse, sampleResponse, sampleResponse]
      (by decide) (by decide)).1⟩

/-- C16: after every history of `Save` and `Clear` calls on a new cache, with fewer than
`2^31` saves, that leaves the cache not empty, `GetAll` returns every stored item once:
the list is as long as `Size` says, the identifiers are pairwise distinct, no identifier
was returned by two saves since the last `Clear`, and the items are exactly the pairs of
an identifier returned by a `Save` since the last `Clear` and the response passed to
that call. -/
theorem GetAll_after_history (ops : List CacheOp)
    (h : (CacheRun.run ops).saves < 2147483648)
    (hne : (CacheRun.run ops).cache.Size ≠ 0) :
    ∃ items, (CacheRun.run ops).cache.GetAll = (items, none)
      ∧ (items.length : Int) = (CacheRun.run ops).cache.Size
      ∧ (items.map CachedItem.ID).Nodup
      ∧ ((CacheRun.run ops).saved.map Prod.fst).Nodup
      ∧ ∀ (id : Int) (resp : ExecuteResponse),
          (⟨id, resp⟩ : CachedItem) ∈ items ↔ (id, resp) ∈ (CacheRun.run ops).saved := by
  obtain ⟨-, -, hids, hitems⟩ := CacheRun.run_state ops (by omega)
  generalize CacheRun.run ops = r at *
  have hnodup : (r.saved.map Prod.fst).Nodup := by
    rw [hids]; exact nodup_map_range_add _ _
  have hlen : r.cache.items.length ≠ 0 := by
    intro h0
    apply hne
    simp [MortCache.Size, h0]
  refine ⟨r.cache.items.map (fun entry => (⟨entry.1, entry.2⟩ : CachedItem)), ?_, ?_, ?_,
    hnodup, ?_⟩
  · unfold MortCache.GetAll
    rw [if_neg hlen]
  · simp [MortCache.Size]
  · have : (r.cache.items.map (fun entry => (⟨entry.1, entry.2⟩ : CachedItem))).map
        CachedItem.ID = r.cache.items.map Prod.fst := by
      rw [List.map_map]; rfl
    rw [this, hitems, List.map_reverse, List.nodup_reverse]
    exact hnodup
  · intro id resp
    rw [hitems]
    simp only [List.mem_map, List.mem_reverse, Prod.exists, CachedItem.mk.injEq]
    constructor
    · rintro ⟨a, b, hab, rfl, rfl⟩
      exact hab
    · intro hmem
      exact ⟨id, resp, hmem, rfl, rfl⟩

/-- C16 at the history `Save`, `Clear`, `Save`, `Save`. -/
theorem GetAll_after_history_witness :
    ((CacheRun.run [.save sampleResponse, .clear, .save sampleResponse,
        .save sampleResponse]).saves < 2147483648
      ∧ (CacheRun.run [.save sampleResponse, .clear, .save sampleResponse,
        .save sampleResponse]).cache.Size ≠ 0)
    ∧ ∃ items, (CacheRun.run [.save sampleResponse, .clear, .save sampleResponse,
          .save sampleResponse]).cache.GetAll = (items, none)
        ∧ (items.length : Int) = (CacheRun.run [.save sampleResponse, .clear,
          .save sampleResponse, .save sampleResponse]).cache.Size
        ∧ (items.map CachedItem.ID).Nodup
        ∧ ((CacheRun.run [.save sampleResponse, .clear, .save sampleResponse,
          .save sampleResponse]).saved.map Prod.fst).Nodup
        ∧ ∀ (id : Int) (resp : ExecuteResponse),
            (⟨id, resp⟩ : CachedItem) ∈ items ↔ (id, resp) ∈ (CacheRun.run [.save sampleResponse,
              .clear, .save sampleResponse, .save sampleResponse]).saved :=
  ⟨⟨by decide, by decide⟩,
    GetAll_after_history [.save sampleResponse, .clear, .save sampleResponse,
      .save sampleResponse] (by decide) (by decide)⟩

/-- C17: `GetAll` fails with `ErrEmptyCache`, returning no items, exactly when the cache
holds zero items, as a new cache does; otherwise it returns no error and a list that is
not empty.  `Size` returns the number 0 in that state, and it has no error result. -/
theorem GetAll_empty_iff (c : MortCache) :
    (c.GetAll = ([], some CacheError.ErrEmptyCache) ↔ c.items = [])
    ∧ (c.GetAll.2 = some CacheError.ErrEmptyCache ↔ c.items = [])
    ∧ ((c.GetAll.2 = none ∧ c.GetAll.1 ≠ []) ↔ c.items ≠ [])
    ∧ (c.Size = 0 ↔ c.items = [])
    ∧ NewMortCache.GetAll = ([], some CacheError.ErrEmptyCache)
    ∧ NewMortCache.Size = 0 := by
  rcases c with ⟨items, nextID⟩
  cases items with
  | nil => simp [MortCache.GetAll, MortCache.Size, NewMortCache]
  | cons entry rest =>
    simp [MortCache.GetAll, MortCache.Size, NewMortCache]
    omega

/-- C18: after `Clear` the cache holds no items, whatever it held before: `Size` returns 0
and `GetAll` fails with `ErrEmptyCache`. -/
theorem Clear_empties (c : MortCache) :
    c.Clear.items = [] ∧ c.Clear.Size = 0
    ∧ c.Clear.GetAll = ([], some CacheError.ErrEmptyCache) := by
  simp [MortCache.Clear, MortCache.Size, MortCache.GetAll]

/-- C19: `Clear` leaves the counter of the identifiers as it is: after a history of `Save`
and `Clear` calls with `m` saves, `m < 2^31 - 1`, the first `Save` after a `Clear`
returns `m`. -/
theorem Save_after_Clear (ops : List CacheOp) (resp : ExecuteResponse)
    (h : (CacheRun.run ops).saves < 2147483647) :
    (CacheRun.run ops).cache.Clear.nextID = (CacheRun.run ops).cache.nextID
    ∧ ((CacheRun.run ops).cache.Clear.Save resp).1 = ((CacheRun.run ops).saves : Int) := by
  obtain ⟨hnext, -, -, -⟩ := CacheRun.run_state ops (by omega)
  refine ⟨rfl, ?_⟩
  rw [Save_of_counter (CacheRun.run ops).cache.Clear resp (CacheRun.run ops).saves hnext
    (by omega) (by simp [MortCache.Clear])]

/-- C19 at the history of the test: two saves, then `Clear`, and the next `Save` returns
2. -/
theorem Save_after_Clear_witness :
    (CacheRun.run [.save sampleResponse, .save sampleResponse]).saves < 2147483647
    ∧ ((CacheRun.run [.save sampleResponse, .save sampleResponse]).cache.Clear.Save
        sampleResponse).1 = 2 :=
  ⟨by decide,
    (Save_after_Clear [.save sampleResponse, .save sampleResponse] sampleResponse
      (by decide)).2⟩

/-- C20, counterexample: on a new cache, after one `Save` and a `Clear`, the next `Save`
returns 1, not 0, and the one item the cache then holds has the identifier 1. -/
theorem Save_after_Clear_not_zero :
    ((NewMortCache.Save sampleResponse).2.Clear.Save sampleResponse).1 = 1
    ∧ ((NewMortCache.Save sampleResponse).2.Clear.Save sampleResponse).1 ≠ 0
    ∧ ((NewMortCache.Save sampleResponse).2.Clear.Save sampleResponse).2.GetAll.1.map
        CachedItem.ID = [1] := by
  decide

/-- C20, amended: `Clear` does not reset the numbering.  After a history of `Save` and
`Clear` calls with fewer than `2^31` saves, the first `Save` after a `Clear` returns the
number of saves made before it (0 only when there was none), and the identifiers of the
items held are exactly the numbers from the number of saves made before the last `Clear`
(0 on a cache never cleared) up to the number of saves minus one. -/
theorem identifiers_after_history (ops : List CacheOp) (resp : ExecuteResponse)
    (h : (CacheRun.run ops).saves < 2147483648) :
    ((CacheRun.run ops).cache.Clear.Save resp).1 = ((CacheRun.run ops).saves : Int)
    ∧ (((CacheRun.run ops).cache.Clear.Save resp).1 = 0 ↔ (CacheRun.run ops).saves = 0)
    ∧ ∀ i : Int, i ∈ (CacheRun.run ops).cache.GetAll.1.map CachedItem.ID
        ↔ ((CacheRun.run ops).savesBeforeClear : Int) ≤ i
          ∧ i < ((CacheRun.run ops).saves : Int) := by
  obtain ⟨hnext, hle, hids, hitems⟩ := CacheRun.run_state ops (by omega)
  have hsave : ((CacheRun.run ops).cache.Clear.Save resp).1
      = ((CacheRun.run ops).saves : Int) := by
    rw [Save_of_counter (CacheRun.run ops).cache.Clear resp (CacheRun.run ops).saves hnext
      h (by simp [MortCache.Clear])]
  refine ⟨hsave, ?_, ?_⟩
  · rw [hsave]; omega
  · intro i
    generalize CacheRun.run ops = r at *
    have hkeys : r.cache.GetAll.1.map CachedItem.ID = r.cache.items.map Prod.fst := by
      unfold MortCache.GetAll
      split_ifs with h0
      · have : r.cache.items = [] := List.length_eq_zero.mp h0
        simp [this]
      · simp only [List.map_map]; rfl
    rw [hkeys, hitems, List.map_reverse, List.mem_reverse, hids, mem_map_range_add]
    have : r.savesBeforeClear + (r.saves - r.savesBeforeClear) = r.saves := by omega
    rw [this]

/-- C20, amended, at the history `Save`, `Save`, `Clear`, `Save`: the one item held has
the identifier 2. -/
theorem identifiers_after_history_witness :
    (CacheRun.run [.save sampleResponse, .save sampleResponse, .clear,
        .save sampleResponse]).saves < 2147483648
    ∧ ∀ i : Int, i ∈ (CacheRun.run [.save sampleResponse, .save sampleResponse, .clear,
          .save sampleResponse]).cache.GetAll.1.map CachedItem.ID
        ↔ ((CacheRun.run [.save sampleResponse, .save sampleResponse, .clear,
          .save sampleResponse]).savesBeforeClear : Int) ≤ i
          ∧ i < ((CacheRun.run [.save sampleResponse, .save sampleResponse, .clear,
            .save sampleResponse]).saves : Int) :=
  ⟨by decide,
    (identifiers_after_history [.save sampleResponse, .save sampleResponse, .clear,
      .save sampleResponse] sampleResponse (by decide)).2.2⟩

/-- C24: `Calculate` returns no error exactly when the object cost is positive, the
number of months is positive, at least one of the three programs is selected and the
initial payment is at least a fifth of the object cost; whenever it returns an error, the
aggregates are the zero value.  (It always returns.) -/
theorem Calculate_succeeds_iff (req : ExecuteRequest) (baseTime now : Time) :
    ((∃ agg, Calculate req baseTime now = some (agg, none))
      ↔ (0 < req.ObjectCost.toRat ∧ 0 < req.Months
          ∧ (req.Program.Salary = true ∨ req.Program.Military = true
            ∨ req.Program.Base = true)
          ∧ 1 / 5 * req.ObjectCost.toRat ≤ req.InitialPayment.toRat))
    ∧ (∀ agg err, Calculate req baseTime now = some (agg, some err) → agg = Aggregates.zero)
    ∧ Calculate req baseTime now ≠ none := by
  by_cases h1 : req.ObjectCost.toRat ≤ 0 ∨ req.Months ≤ 0
  · have hcalc := Calculate_of_invalid req baseTime now h1
    rw [hcalc]
    refine ⟨⟨fun ⟨agg, h⟩ => by simp at h, fun ⟨hc, hm, _, _⟩ => ?_⟩, ?_, by simp⟩
    · rcases h1 with h | h
      · linarith
      · omega
    · intro agg err h
      simp only [Option.some.injEq, Prod.mk.injEq] at h
      exact h.1.symm
  · have hc : 0 < req.ObjectCost.toRat := by
      by_contra h; exact h1 (Or.inl (not_lt.mp h))
    have hm : 0 < req.Months := by
      by_contra h; exact h1 (Or.inr (not_lt.mp h))
    by_cases h2 : req.Program.Salary = true ∨ req.Program.Military = true
        ∨ req.Program.Base = true
    · rcases lt_or_le req.InitialPayment.toRat (1 / 5 * req.ObjectCost.toRat) with h3 | h3
      · have hcalc := Calculate_of_low_payment req baseTime now hc hm h2 h3
        rw [hcalc]
        refine ⟨⟨fun ⟨agg, h⟩ => by simp at h, fun ⟨_, _, _, hi⟩ => by linarith⟩, ?_, by simp⟩
        intro agg err h
        simp only [Option.some.injEq, Prod.mk.injEq] at h
        exact h.1.symm
      · obtain ⟨c, hcalc⟩ := Calculate_of_accepted req baseTime now hc hm h2 h3
        rw [hcalc]
        refine ⟨⟨fun _ => ⟨hc, hm, h2, h3⟩, fun _ => ⟨_, rfl⟩⟩, ?_, by simp⟩
        intro agg err h
        simp at h
    · have hnone : req.Program.Salary = false ∧ req.Program.Military = false
          ∧ req.Program.Base = false := by
        simp only [not_or, Bool.not_eq_true] at h2
        exact h2
      have hcalc := Calculate_of_no_program req baseTime now hc hm hnone
      rw [hcalc]
      refine ⟨⟨fun ⟨agg, h⟩ => by simp at h, fun ⟨_, _, hp, _⟩ => absurd hp h2⟩, ?_, by simp⟩
      intro agg err h
      simp only [Option.some.injEq, Prod.mk.injEq] at h
      exact h.1.symm

set_option exponentiation.threshold 100000 in
set_option maxRecDepth 100000 in
/-- C25, at the failing input: at an object cost of 5000000, an initial payment of
1000000, the salary program and 134217729 months, a request that passes the validation
of `Calculate`, the power `(1 + r) ^ n` at the monthly rate `r = 0.0066666666666667` has
the exponent `-16 * 134217729`, below the exponents of an `int32`: `Pow` returns zero, the
divisor `(1 + r) ^ n - 1` of the annuity coefficient is `-1`, not positive, and
`Calculate` returns the monthly payment 0 and the overpayment -4000000.  (The division
by `-1` is defined.) -/
theorem Calculate_divisor_overflow :
    (0 : ℚ) < (⟨5000000, 0⟩ : Decimal).toRat ∧ (1 : Int) ≤ 134217729
    ∧ (1 / 5 : ℚ) * (⟨5000000, 0⟩ : Decimal).toRat ≤ (⟨1000000, 0⟩ : Decimal).toRat
    ∧ (RateSalaryProgram.Div DecimalHundred).bind (fun q => q.Div DecimalTwelve)
        = some ⟨66666666666667, -16⟩
    ∧ (DecimalOne.Add ⟨66666666666667, -16⟩).exp * 134217729 < Decimal.MinExp
    ∧ (DecimalOne.Add ⟨66666666666667, -16⟩).Pow (NewFromInt 134217729) = ⟨0, 0⟩
    ∧ ((DecimalOne.Add ⟨66666666666667, -16⟩).Pow (NewFromInt 134217729)).Sub DecimalOne
        = ⟨-1, 0⟩
    ∧ ¬ (0 < (((DecimalOne.Add ⟨66666666666667, -16⟩).Pow (NewFromInt 134217729)).Sub
          DecimalOne).toRat)
    ∧ Calculate ⟨⟨5000000, 0⟩, ⟨1000000, 0⟩, 134217729, ⟨true, false, false⟩⟩
        referenceTime referenceTime
      = some (⟨⟨8, 0⟩, ⟨4000000, 0⟩, ⟨0, 0⟩, ⟨-4000000, 0⟩, "11186834-11-18"⟩, none) := by
  have hsub : ((DecimalOne.Add ⟨66666666666667, -16⟩).Pow (NewFromInt 134217729)).Sub
      DecimalOne = ⟨-1, 0⟩ := by decide
  refine ⟨by norm_num [Decimal.toRat], by norm_num, by norm_num [Decimal.toRat], by decide,
    by decide, by decide, hsub, ?_, by decide⟩
  rw [hsub]
  norm_num [Decimal.toRat]

/-- Below 134217728 months the divisor is positive.  For every request that passes the
validation of `Calculate` (a positive object cost, at least one month, a program selected,
an initial payment of at least 20% of the object cost) over fewer than 134217728 months,
the two divisions of the monthly rate succeed, the divisor `(1 + r) ^ n - 1` of the
annuity coefficient is positive, so the division by it is defined, and `Calculate`
returns: no division by zero stops it. -/
theorem Calculate_divisor_positive (req : ExecuteRequest) (baseTime now : Time)
    (hc : 0 < req.ObjectCost.toRat) (hm : 1 ≤ req.Months) (hM : req.Months < 134217728)
    (hp : req.Program.Salary = true ∨ req.Program.Military = true ∨ req.Program.Base = true)
    (hi : 1 / 5 * req.ObjectCost.toRat ≤ req.InitialPayment.toRat) :
    ∃ q mr : Decimal,
      (getProgramRate req.Program).1.Div DecimalHundred = some q
      ∧ q.Div DecimalTwelve = some mr
      ∧ 0 < (((DecimalOne.Add mr).Pow (NewFromInt req.Months)).Sub DecimalOne).toRat
      ∧ (((DecimalOne.Add mr).Pow (NewFromInt req.Months)).Sub DecimalOne).value ≠ 0
      ∧ (mr.Mul ((DecimalOne.Add mr).Pow (NewFromInt req.Months))).Div
          (((DecimalOne.Add mr).Pow (NewFromInt req.Months)).Sub DecimalOne) ≠ none
      ∧ ∃ agg, Calculate req baseTime now = some (agg, none) := by
  obtain ⟨q, mr, hq, hmr, hmr0, -, hmre⟩ :=
    monthlyRate_defined _ (getProgramRate_rate req.Program hp)
  obtain ⟨hpos, c, hcdiv, -⟩ :=
    annuityCoeff_defined mr req.Months hmr0 (by omega) hmre (by omega)
  obtain ⟨c2, hcalc⟩ := Calculate_of_accepted req baseTime now hc (by omega) hp hi
  refine ⟨q, mr, hq, hmr, hpos, ?_, ?_, _, hcalc⟩
  · have := (Decimal.toRat_pos_iff _).mp hpos
    omega
  · rw [hcdiv]; simp

/-- The divisor at the first reference request. -/
theorem Calculate_divisor_positive_witness :
    ((0 : ℚ) < (⟨5000000, 0⟩ : Decimal).toRat ∧ (1 : Int) ≤ 240 ∧ (240 : Int) < 134217728
      ∧ (1 / 5 : ℚ) * (⟨5000000, 0⟩ : Decimal).toRat ≤ (⟨1000000, 0⟩ : Decimal).toRat)
    ∧ ∃ q mr : Decimal,
        (getProgramRate ⟨true, false, false⟩).1.Div DecimalHundred = some q
        ∧ q.Div DecimalTwelve = some mr
        ∧ 0 < (((DecimalOne.Add mr).Pow (NewFromInt 240)).Sub DecimalOne).toRat
        ∧ (((DecimalOne.Add mr).Pow (NewFromInt 240)).Sub DecimalOne).value ≠ 0
        ∧ (mr.Mul ((DecimalOne.Add mr).Pow (NewFromInt 240))).Div
            (((DecimalOne.Add mr).Pow (NewFromInt 240)).Sub DecimalOne) ≠ none
        ∧ ∃ agg, Calculate ⟨⟨5000000, 0⟩, ⟨1000000, 0⟩, 240, ⟨true, false, false⟩⟩
            referenceTime referenceTime = some (agg, none) :=
  ⟨⟨by norm_num [Decimal.toRat], by norm_num, by norm_num, by norm_num [Decimal.toRat]⟩,
    Calculate_divisor_positive
      ⟨⟨5000000, 0⟩, ⟨1000000, 0⟩, 240, ⟨true, false, false⟩⟩ referenceTime referenceTime
      (by norm_num [Decimal.toRat]) (by norm_num) (by norm_num) (Or.inl rfl)
      (by norm_num [Decimal.toRat])⟩

set_option exponentiation.threshold 100000 in
set_option maxRecDepth 100000 in
/-- C26, counterexample: `Calculate` accepts an initial payment of 6000000 on an object
cost of 5000000 (12 months, salary) and returns the loan sum -1000000, the monthly
payment -86988 and the overpayment -43856; and on an object cost of 5 with an initial
payment of 1 (240 months, salary) it returns the monthly payment 0, so that the payments
total 0, less than the principal 4, and the overpayment -4. -/
theorem Calculate_negative_amounts :
    Calculate ⟨⟨5000000, 0⟩, ⟨6000000, 0⟩, 12, ⟨true, false, false⟩⟩
        referenceTime referenceTime
      = some (⟨⟨8, 0⟩, ⟨-1000000, 0⟩, ⟨-86988, 0⟩, ⟨-43856, 0⟩, "2025-02-18"⟩, none)
    ∧ (⟨-1000000, 0⟩ : Decimal).toRat < 0 ∧ (⟨-86988, 0⟩ : Decimal).toRat < 0
    ∧ (⟨-43856, 0⟩ : Decimal).toRat < 0
    ∧ (⟨5000000, 0⟩ : Decimal).toRat < (⟨6000000, 0⟩ : Decimal).toRat
    ∧ Calculate ⟨⟨5, 0⟩, ⟨1, 0⟩, 240, ⟨true, false, false⟩⟩ referenceTime referenceTime
      = some (⟨⟨8, 0⟩, ⟨4, 0⟩, ⟨0, 0⟩, ⟨-4, 0⟩, "2044-02-18"⟩, none)
    ∧ (⟨0, 0⟩ : Decimal).toRat * 240 < (⟨4, 0⟩ : Decimal).toRat
    ∧ (⟨-4, 0⟩ : Decimal).toRat < 0 := by
  refine ⟨by decide, ?_, ?_, ?_, ?_, by decide, ?_, ?_⟩ <;> norm_num [Decimal.toRat]

/-- C26, amended: for every request that `Calculate` accepts (a positive object cost, a
positive number of months, a program selected, an initial payment of at least 20% of the
object cost) whose initial payment does not exceed the object cost, over fewer than
134217728 months (so that the exponents of the power fit an `int32`), the loan sum and the
monthly payment returned are not negative, and the overpayment returned is not negative
whenever the rounded monthly payments total at least the principal over the term; they
do when the overpayment without rounding, `S * c * n - S`, is at least `n / 2`. -/
theorem Calculate_nonneg_amounts (req : ExecuteRequest) (baseTime now : Time)
    (hc : 0 < req.ObjectCost.toRat) (hm : 0 < req.Months) (hM : req.Months < 134217728)
    (hp : req.Program.Salary = true ∨ req.Program.Military = true ∨ req.Program.Base = true)
    (hi : 1 / 5 * req.ObjectCost.toRat ≤ req.InitialPayment.toRat)
    (hle : req.InitialPayment.toRat ≤ req.ObjectCost.toRat) :
    ∃ agg, Calculate req baseTime now = some (agg, none)
      ∧ 0 ≤ agg.LoanSum.toRat ∧ 0 ≤ agg.MonthlyPayment.toRat
      ∧ (agg.LoanSum.toRat ≤ agg.MonthlyPayment.toRat * req.Months →
          0 ≤ agg.Overpayment.toRat)
      ∧ ((req.Months.toNat : ℚ) / 2
            ≤ idealOverpayment (req.ObjectCost.toRat - req.InitialPayment.toRat)
                (decimalAnnuityCoeff (getProgramRate req.Program).1.toRat req.Months.toNat)
                req.Months.toNat →
          agg.LoanSum.toRat ≤ agg.MonthlyPayment.toRat * req.Months
            ∧ 0 ≤ agg.Overpayment.toRat) := by
  obtain ⟨c, hcv, hcalc⟩ := Calculate_of_accepted_in_range req baseTime now hc hm hM hp hi
  refine ⟨_, hcalc, ?_⟩
  dsimp only
  have hc0 : 0 ≤ c.toRat := by
    rw [hcv]
    exact decimalAnnuityCoeff_nonneg _ _ (getProgramRate_nonneg _)
  have hS : 0 ≤ (req.ObjectCost.Sub req.InitialPayment).toRat := by
    rw [toRat_Sub]; linarith
  have hMP : (((req.ObjectCost.Sub req.InitialPayment).Mul c).Round 0).toRat
      = (roundHalfAway ((req.ObjectCost.Sub req.InitialPayment).toRat * c.toRat) : ℚ) := by
    rw [toRat_Round_zero, toRat_Mul]
  have hMP0 : 0 ≤ (((req.ObjectCost.Sub req.InitialPayment).Mul c).Round 0).toRat := by
    rw [hMP]
    exact_mod_cast roundHalfAway_nonneg _ (mul_nonneg hS hc0)
  have hOP : ∀ (_ : (req.ObjectCost.Sub req.InitialPayment).toRat
      ≤ (((req.ObjectCost.Sub req.InitialPayment).Mul c).Round 0).toRat * req.Months),
      0 ≤ ((((((req.ObjectCost.Sub req.InitialPayment).Mul c).Round 0).Mul
        (NewFromInt req.Months)).Sub (req.ObjectCost.Sub req.InitialPayment)).Round 0).toRat := by
    intro h
    rw [toRat_Round_zero, toRat_Sub, toRat_Mul, toRat_NewFromInt]
    exact_mod_cast roundHalfAway_nonneg _ (by linarith)
  refine ⟨hS, hMP0, hOP, fun hideal => ?_⟩
  have htotal : (req.ObjectCost.Sub req.InitialPayment).toRat
      ≤ (((req.ObjectCost.Sub req.InitialPayment).Mul c).Round 0).toRat * req.Months := by
    have hn : ((req.Months.toNat : ℕ) : ℚ) = ((req.Months : ℤ) : ℚ) := by
      have : ((req.Months.toNat : ℕ) : ℤ) = req.Months := Int.toNat_of_nonneg hm.le
      exact_mod_cast this
    have hn0 : (0 : ℚ) ≤ ((req.Months : ℤ) : ℚ) := by exact_mod_cast hm.le
    have h1 := roundHalfAway_sub_abs_le
      ((req.ObjectCost.Sub req.InitialPayment).toRat * c.toRat)
    rw [abs_le] at h1
    have h2 := mul_le_mul_of_nonneg_right h1.1 hn0
    unfold idealOverpayment at hideal
    rw [← hcv, ← toRat_Sub] at hideal
    simp only [hn] at hideal
    rw [hMP]
    linarith
  exact ⟨htotal, hOP htotal⟩

/-- C26, amended, at the first reference request. -/
theorem Calculate_nonneg_amounts_witness :
    ((0 : ℚ) < (⟨5000000, 0⟩ : Decimal).toRat ∧ (0 : Int) < 240 ∧ (240 : Int) < 134217728
      ∧ (1 / 5 : ℚ) * (⟨5000000, 0⟩ : Decimal).toRat ≤ (⟨1000000, 0⟩ : Decimal).toRat
      ∧ (⟨1000000, 0⟩ : Decimal).toRat ≤ (⟨5000000, 0⟩ : Decimal).toRat)
    ∧ ∃ agg, Calculate ⟨⟨5000000, 0⟩, ⟨1000000, 0⟩, 240, ⟨true, false, false⟩⟩
          referenceTime referenceTime = some (agg, none)
        ∧ 0 ≤ agg.LoanSum.toRat ∧ 0 ≤ agg.MonthlyPayment.toRat := by
  refine ⟨⟨by norm_num [Decimal.toRat], by norm_num, by norm_num,
    by norm_num [Decimal.toRat], by norm_num [Decimal.toRat]⟩, ?_⟩
  obtain ⟨agg, h1, h2, h3, -⟩ := Calculate_nonneg_amounts
    ⟨⟨5000000, 0⟩, ⟨1000000, 0⟩, 240, ⟨true, false, false⟩⟩ referenceTime referenceTime
    (by norm_num [Decimal.toRat]) (by norm_num) (by norm_num) (Or.inl rfl)
    (by norm_num [Decimal.toRat]) (by norm_num [Decimal.toRat])
  exact ⟨agg, h1, h2, h3⟩

/-- C23: `Save` only adds.  On every cache reached by a history of `Save` and `Clear`
calls with fewer than `2^31 - 1` saves, `Save(resp)` raises `Size` by exactly 1, stores
`resp` under the identifier it returns, keeps every entry stored before as it was and
stores nothing else; `Save` never leaves the cache empty, `Clear` leaves it empty, never
larger, and with the counter as it was.  (`GetAll` and `Size` are functions of the cache
that return no cache: they read the fields `items` and `nextID` and write neither.) -/
theorem Save_append_only (ops : List CacheOp) (resp : ExecuteResponse)
    (h : (CacheRun.run ops).saves < 2147483647) :
    ((CacheRun.run ops).cache.Save resp).2.Size = (CacheRun.run ops).cache.Size + 1
    ∧ (((CacheRun.run ops).cache.Save resp).1, resp)
        ∈ ((CacheRun.run ops).cache.Save resp).2.items
    ∧ (∀ entry ∈ (CacheRun.run ops).cache.items,
        entry ∈ ((CacheRun.run ops).cache.Save resp).2.items
        ∧ entry.1 ≠ ((CacheRun.run ops).cache.Save resp).1)
    ∧ (∀ entry ∈ ((CacheRun.run ops).cache.Save resp).2.items,
        entry = (((CacheRun.run ops).cache.Save resp).1, resp)
        ∨ entry ∈ (CacheRun.run ops).cache.items)
    ∧ ((CacheRun.run ops).cache.Save resp).2.Size ≠ 0
    ∧ (CacheRun.run ops).cache.Clear.Size = 0
    ∧ (CacheRun.run ops).cache.Clear.Size ≤ (CacheRun.run ops).cache.Size
    ∧ (CacheRun.run ops).cache.Clear.nextID = (CacheRun.run ops).cache.nextID := by
  obtain ⟨hnext, -, -, -⟩ := CacheRun.run_state ops (by omega)
  have hkeys := CacheRun.run_keys_lt ops (by omega)
  have hsave := Save_of_counter (CacheRun.run ops).cache resp (CacheRun.run ops).saves hnext
    (by omega) hkeys
  rw [hsave]
  refine ⟨?_, ?_, ?_, ?_, ?_, ?_, ?_, rfl⟩
  · simp [MortCache.Size]
  · simp
  · intro entry he
    refine ⟨List.mem_cons_of_mem _ he, ?_⟩
    have := hkeys entry he
    simp only
    omega
  · intro entry he
    simpa using he
  · simp [MortCache.Size]
    omega
  · simp [MortCache.Clear, MortCache.Size]
  · simp [MortCache.Clear, MortCache.Size]

/-- C23 at the history of the test: after two saves a third one makes the size 3. -/
theorem Save_append_only_witness :
    (CacheRun.run [.save sampleResponse, .save sampleResponse]).saves < 2147483647
    ∧ ((CacheRun.run [.save sampleResponse, .save sampleResponse]).cache.Save
        sampleResponse).2.Size
      = (CacheRun.run [.save sampleResponse, .save sampleResponse]).cache.Size + 1 :=
  ⟨by decide,
    (Save_append_only [.save sampleResponse, .save sampleResponse] sampleResponse
      (by decide)).1⟩

/-- C21, at the failing input: on a new cache the 2147483649th `Save` of a history of
saves returns the negative identifier -2147483648, the `int32` counter having wrapped
around, and the 4294967297th `Save` returns 0 again, the identifier of the first one: the
identifiers of 4294967297 saves are not pairwise distinct, where `Save` is to generate
a unique identifier. -/
theorem Save_identifiers_wrap :
    (-2147483648 : Int)
        ∈ NewMortCache.returnedIds (List.replicate 2147483649 (CacheOp.save sampleResponse))
    ∧ ¬ (NewMortCache.returnedIds
          (List.replicate 4294967297 (CacheOp.save sampleResponse))).Nodup := by
  constructor
  · rw [returnedIds_eq, savesIn_replicate, List.mem_map]
    refine ⟨2147483648, List.mem_range.mpr (by norm_num), ?_⟩
    simp only [NewMortCache, wrapInt32]
    norm_num
  · rw [returnedIds_eq, savesIn_replicate]
    intro hnodup
    have h := List.inj_on_of_nodup_map hnodup
      (List.mem_range.mpr (by norm_num : 0 < 4294967297))
      (List.mem_range.mpr (by norm_num : 4294967296 < 4294967297))
      (by simp only [NewMortCache, wrapInt32]; norm_num)
    norm_num at h

/-- Up to `2^31` saves the identifiers are new.  For every history of `Save` and `Clear`
calls on a new cache with at most `2^31` saves, the saves return `0, 1, 2, ...` in the order of the calls: every
identifier returned is not negative, and no two saves return the same identifier. -/
theorem Save_identifiers_fresh (ops : List CacheOp) (h : savesIn ops ≤ 2147483648) :
    NewMortCache.returnedIds ops = (List.range (savesIn ops)).map (fun (j : Nat) => (j : Int))
    ∧ (NewMortCache.returnedIds ops).Nodup
    ∧ ∀ id ∈ NewMortCache.returnedIds ops, 0 ≤ id := by
  have heq : NewMortCache.returnedIds ops
      = (List.range (savesIn ops)).map (fun (j : Nat) => (j : Int)) := by
    rw [returnedIds_eq]
    apply List.map_congr_left
    intro j hj
    have hj' := List.mem_range.mp hj
    simp only [NewMortCache]
    rw [wrapInt32_of_range] <;> omega
  refine ⟨heq, ?_, ?_⟩
  · rw [heq]
    apply List.Nodup.map _ (List.nodup_range _)
    intro a b hab
    simp only at hab
    omega
  · intro id hid
    rw [heq, List.mem_map] at hid
    obtain ⟨j, -, rfl⟩ := hid
    omega

/-- The identifiers of the history `Save`, `Clear`, `Save`, `Save`: the saves return 0, 1
and 2. -/
theorem Save_identifiers_fresh_witness :
    savesIn [.save sampleResponse, .clear, .save sampleResponse, .save sampleResponse]
        ≤ 2147483648
    ∧ NewMortCache.returnedIds
        [.save sampleResponse, .clear, .save sampleResponse, .save sampleResponse]
      = (List.range (savesIn [.save sampleResponse, .clear, .save sampleResponse,
          .save sampleResponse])).map (fun (j : Nat) => (j : Int)) :=
  ⟨by decide,
    (Save_identifiers_fresh
      [.save sampleResponse, .clear, .save sampleResponse, .save sampleResponse]
      (by decide)).1⟩

/-- C22, at the failing input: 2147483649 callers whose `Save` calls run one after the other,
which is one of the interleavings: every call returns, and the call of the last caller,
number 2147483648, returns the identifier -2147483648, so the identifiers returned are
not the set `{0, ..., 2147483648}`: the `int32` counter has wrapped around. -/
theorem concurrent_saves_wrap :
    (∀ i ∈ ConcurrentSaves.oneByOne 2147483649, i < 2147483649)
    ∧ (∀ i < 2147483649, i ∈ (ConcurrentSaves.run (fun _ => sampleResponse)
        (ConcurrentSaves.oneByOne 2147483649)).returned.map Prod.fst)
    ∧ ((2147483648 : Nat), (-2147483648 : Int))
        ∈ (ConcurrentSaves.run (fun _ => sampleResponse)
            (ConcurrentSaves.oneByOne 2147483649)).returned
    ∧ ¬ (∀ id : Int, id ∈ (ConcurrentSaves.run (fun _ => sampleResponse)
          (ConcurrentSaves.oneByOne 2147483649)).returned.map Prod.snd
        ↔ 0 ≤ id ∧ id < ((2147483649 : Nat) : Int)) := by
  have h := ConcurrentSaves.returned_oneByOne (fun _ => sampleResponse) 2147483649
    2147483648 (by norm_num)
  have hw : wrapInt32 ((2147483648 : Nat) : Int) = -2147483648 := by
    unfold wrapInt32
    norm_num
  rw [hw] at h
  refine ⟨fun i hi => ConcurrentSaves.mem_oneByOne _ i hi, fun i hi => ?_, h, ?_⟩
  · exact List.mem_map.mpr ⟨_, ConcurrentSaves.returned_oneByOne _ _ i hi, rfl⟩
  · intro hall
    have hneg := ((hall (-2147483648)).mp (List.mem_map.mpr ⟨_, h, rfl⟩)).1
    omega

/-- Up to `2^31` concurrent callers get the identifiers from 0.  When `N` callers,
`1 ≤ N ≤ 2^31`, call `Save` concurrently on a new cache, then under every interleaving of their steps (each call is the atomic addition on
the counter followed by the assignment to the map under the lock), once all the calls
have returned, the `N` identifiers returned are pairwise distinct and form exactly the set
`{0, ..., N - 1}`, `Size` returns `N`, and `GetAll` returns, without an error, exactly `N`
items, among them the response of each caller under the identifier its call returned. -/
theorem concurrent_saves (resps : Nat → ExecuteResponse) (N : Nat) (schedule : List Nat)
    (h1 : 1 ≤ N) (hN : N ≤ 2147483648) (hs : ∀ i ∈ schedule, i < N)
    (hdone : ∀ i < N, i ∈ (ConcurrentSaves.run resps schedule).returned.map Prod.fst) :
    ((ConcurrentSaves.run resps schedule).returned.map Prod.snd).Nodup
    ∧ (∀ id : Int, id ∈ (ConcurrentSaves.run resps schedule).returned.map Prod.snd
        ↔ 0 ≤ id ∧ id < (N : Int))
    ∧ (ConcurrentSaves.run resps schedule).returned.length = N
    ∧ (ConcurrentSaves.run resps schedule).pending = []
    ∧ (ConcurrentSaves.run resps schedule).cache.Size = (N : Int)
    ∧ ∃ items, (ConcurrentSaves.run resps schedule).cache.GetAll = (items, none)
        ∧ items.length = N
        ∧ ∀ i id, (i, id) ∈ (ConcurrentSaves.run resps schedule).returned →
            (⟨id, resps i⟩ : CachedItem) ∈ items := by
  obtain ⟨ha, hb, hc, hd, he, hf⟩ := ConcurrentSaves.Inv_run resps N hN schedule hs
  generalize ConcurrentSaves.run resps schedule = s at *
  have hle : (s.pending ++ s.returned).length ≤ N := by
    have := length_le_of_nodup_lt ((s.pending ++ s.returned).map Prod.fst) N hd
      (by
        intro x hx
        rw [List.mem_map] at hx
        obtain ⟨q, hq, rfl⟩ := hx
        exact he q hq)
    simpa using this
  have hge : N ≤ s.returned.length := by
    have := le_length_of_range_mem (s.returned.map Prod.fst) N hdone
    simpa using this
  have hpend : s.pending = [] := by
    apply List.length_eq_zero.mp
    rw [List.length_append] at hle
    omega
  have hlen : s.returned.length = N := by
    rw [List.length_append] at hle
    omega
  rw [hpend, List.nil_append] at hb hc
  have hitems : s.cache.items.length = N := by
    rw [hf, List.length_map, hlen]
  refine ⟨hb, ?_, hlen, hpend, ?_, ?_⟩
  · intro id
    rw [hc id, hlen]
  · simp [MortCache.Size, hitems]
  · refine ⟨s.cache.items.map (fun entry => (⟨entry.1, entry.2⟩ : CachedItem)), ?_, ?_, ?_⟩
    · unfold MortCache.GetAll
      rw [if_neg (by omega)]
    · rw [List.length_map, hitems]
    · intro i id hmem
      rw [hf, List.map_map, List.mem_map]
      exact ⟨(i, id), hmem, rfl⟩

/-- Two concurrent callers, in the interleaving in which caller 0 takes its
identifier, caller 1 takes its identifier and stores its response, and caller 0 stores
its response last. -/
theorem concurrent_saves_witness :
    (1 ≤ 2 ∧ 2 ≤ 2147483648 ∧ (∀ i ∈ [0, 1, 1, 0], i < 2)
      ∧ ∀ i < 2, i ∈ (ConcurrentSaves.run (fun _ => sampleResponse)
          [0, 1, 1, 0]).returned.map Prod.fst)
    ∧ ((ConcurrentSaves.run (fun _ => sampleResponse) [0, 1, 1, 0]).returned.map
        Prod.snd).Nodup
    ∧ ∀ id : Int, id ∈ (ConcurrentSaves.run (fun _ => sampleResponse)
          [0, 1, 1, 0]).returned.map Prod.snd
        ↔ 0 ≤ id ∧ id < ((2 : Nat) : Int) :=
  ⟨⟨by decide, by decide, by decide, by decide⟩,
    (concurrent_saves (fun _ => sampleResponse) 2 [0, 1, 1, 0] (by decide) (by decide)
      (by decide) (by decide)).1,
    (concurrent_saves (fun _ => sampleResponse) 2 [0, 1, 1, 0] (by decide) (by decide)
      (by decide) (by decide)).2.1⟩

end MortgageCalc
